import Mathlib

/-!
# Verification of the `finger` kernel against its specification

Shallow embedding of the pure cores of the repository's Rust crates:

* `kernel-context-ledger/src/lib.rs` — ledger query, filtering, focus slot;
* `kernel-model/src/lib.rs` — initial-input construction, fork truncation,
  history compaction, progress sequencing, the tool-call loop bound;
* `kernel-protocol/src/lib.rs` — the `Submission`/`Event` wire vocabulary.

File I/O, HTTP and wall-clock time are passed in explicitly (results of
reads, scripts of model responses, timestamps) so that every function here
is a pure translation of the corresponding Rust.

Modelling conventions:
* Rust `String`/`str` is Lean `String`; `chars().count()` is `String.length`.
* Unicode-aware character classifiers (`char::is_whitespace`,
  `char::is_alphanumeric`, `str::to_lowercase`) are modelled by their ASCII
  restrictions (`Char.isWhitespace`, `Char.isAlphanum`, `Char.toLower`);
  every string a theorem below evaluates is ASCII.
* `serde_json::Value` is the inductive `Json`; its numbers are modelled as
  rationals (exact values of the integers and finite doubles the kernel
  actually stores).  `f64` appears in the protocol only as
  `auto_compact_threshold_ratio` and is modelled by `F64` below.
-/

deriving instance DecidableEq for Except

namespace Finger

/-! ## Strings -/

/-- Rust `str::to_lowercase`, restricted to ASCII. -/
def strToLower (s : String) : String :=
  ⟨s.data.map Char.toLower⟩

/-- Rust `str::contains(needle)`: substring containment. -/
def strContains (hay needle : String) : Bool :=
  decide (needle.data <:+: hay.data)

/-- Rust `str::trim`: drop whitespace from both ends. -/
def strTrim (s : String) : String :=
  ⟨((s.data.dropWhile Char.isWhitespace).reverse.dropWhile Char.isWhitespace).reverse⟩

/-- Rust `str::replace(from, to)` for single-character patterns. -/
def strReplaceChar (s : String) (from_ : Char) (to_ : Char) : String :=
  ⟨s.data.map fun c => if c = from_ then to_ else c⟩

/-- Rust `Vec::join(sep)` / `[&str]::join`. -/
def strJoin (sep : String) : List String → String
  | [] => ""
  | [x] => x
  | x :: xs => x ++ sep ++ strJoin sep xs

/-- Split a character list at every occurrence of `c` (keeping empty pieces),
the character-level core of Rust `str::split('\n')`. -/
def splitChar (c : Char) : List Char → List (List Char)
  | [] => [[]]
  | x :: xs =>
    let rest := splitChar c xs
    if x = c then [] :: rest
    else
      match rest with
      | [] => [[x]]
      | piece :: pieces => (x :: piece) :: pieces

/-- Rust `str::lines`: split on `'\n'`, dropping one trailing empty piece
(produced by a terminating newline) and stripping a trailing `'\r'`. -/
def strLines (s : String) : List String :=
  let pieces := splitChar '\n' s.data
  let pieces := match pieces.getLast? with
    | some [] => pieces.dropLast
    | _ => pieces
  pieces.map fun piece =>
    match piece.getLast? with
    | some '\r' => ⟨piece.dropLast⟩
    | _ => (⟨piece⟩ : String)

/-! ## JSON values (`serde_json::Value`) -/

/-- `serde_json::Value`.  Object fields keep insertion order; numbers are
exact rationals. -/
inductive Json where
  | null
  | bool (b : Bool)
  | num (q : ℚ)
  | str (s : String)
  | arr (elems : List Json)
  | obj (fields : List (String × Json))
  deriving Repr, Inhabited

mutual
/-- Structural equality on JSON values (`PartialEq` on `serde_json::Value`,
with object fields compared in order). -/
def Json.beq : Json → Json → Bool
  | .null, .null => true
  | .bool a, .bool b => a == b
  | .num a, .num b => a == b
  | .str a, .str b => a == b
  | .arr a, .arr b => Json.beqList a b
  | .obj a, .obj b => Json.beqFields a b
  | _, _ => false

def Json.beqList : List Json → List Json → Bool
  | [], [] => true
  | x :: xs, y :: ys => Json.beq x y && Json.beqList xs ys
  | _, _ => false

def Json.beqFields : List (String × Json) → List (String × Json) → Bool
  | [], [] => true
  | (k, v) :: xs, (l, w) :: ys => k == l && Json.beq v w && Json.beqFields xs ys
  | _, _ => false
end

mutual
theorem Json.beq_iff : ∀ a b : Json, Json.beq a b = true ↔ a = b
  | .null, .null => by simp [Json.beq]
  | .bool a, .bool b => by simp [Json.beq]
  | .num a, .num b => by simp [Json.beq]
  | .str a, .str b => by simp [Json.beq]
  | .arr a, .arr b => by
      simp only [Json.beq, Json.arr.injEq]
      exact Json.beqList_iff a b
  | .obj a, .obj b => by
      simp only [Json.beq, Json.obj.injEq]
      exact Json.beqFields_iff a b
  | .null, .bool _ | .null, .num _ | .null, .str _ | .null, .arr _ | .null, .obj _
  | .bool _, .null | .bool _, .num _ | .bool _, .str _ | .bool _, .arr _ | .bool _, .obj _
  | .num _, .null | .num _, .bool _ | .num _, .str _ | .num _, .arr _ | .num _, .obj _
  | .str _, .null | .str _, .bool _ | .str _, .num _ | .str _, .arr _ | .str _, .obj _
  | .arr _, .null | .arr _, .bool _ | .arr _, .num _ | .arr _, .str _ | .arr _, .obj _
  | .obj _, .null | .obj _, .bool _ | .obj _, .num _ | .obj _, .str _ | .obj _, .arr _ =>
      by simp [Json.beq]

theorem Json.beqList_iff : ∀ a b : List Json, Json.beqList a b = true ↔ a = b
  | [], [] => by simp [Json.beqList]
  | [], _ :: _ => by simp [Json.beqList]
  | _ :: _, [] => by simp [Json.beqList]
  | x :: xs, y :: ys => by
      simp only [Json.beqList, Bool.and_eq_true, List.cons.injEq]
      exact and_congr (Json.beq_iff x y) (Json.beqList_iff xs ys)

theorem Json.beqFields_iff :
    ∀ a b : List (String × Json), Json.beqFields a b = true ↔ a = b
  | [], [] => by simp [Json.beqFields]
  | [], _ :: _ => by simp [Json.beqFields]
  | _ :: _, [] => by simp [Json.beqFields]
  | (k, v) :: xs, (l, w) :: ys => by
      simp only [Json.beqFields, Bool.and_eq_true, List.cons.injEq, Prod.mk.injEq,
        beq_iff_eq, and_assoc]
      exact and_congr Iff.rfl (and_congr (Json.beq_iff v w) (Json.beqFields_iff xs ys))
end

instance : DecidableEq Json := fun a b =>
  decidable_of_iff _ (Json.beq_iff a b)

/-- JSON string escaping as `serde_json` performs it. -/
def escapeJsonChar (c : Char) : String :=
  if c = '"' then "\\\""
  else if c = '\\' then "\\\\"
  else if c = '\n' then "\\n"
  else if c = '\r' then "\\r"
  else if c = '\t' then "\\t"
  else if c.toNat < 32 then
    "\\u00" ++ String.mk [Nat.digitChar (c.toNat / 16), Nat.digitChar (c.toNat % 16)]
  else String.singleton c

def escapeJsonString (s : String) : String :=
  "\"" ++ String.join (s.data.map escapeJsonChar) ++ "\""

/-- Decimal rendering of a JSON number.  Integers render exactly as
`serde_json` renders them; non-integral rationals use a fallback notation
(no theorem below depends on the rendering of a non-integral number). -/
def renderJsonNum (q : ℚ) : String :=
  if q.den = 1 then toString q.num
  else toString q.num ++ "/" ++ toString q.den

mutual
/-- `serde_json::Value::to_string`: compact rendering. -/
def Json.render : Json → String
  | .null => "null"
  | .bool true => "true"
  | .bool false => "false"
  | .num q => renderJsonNum q
  | .str s => escapeJsonString s
  | .arr xs => "[" ++ Json.renderList xs ++ "]"
  | .obj fs => "\x7b" ++ Json.renderFields fs ++ "\x7d"

def Json.renderList : List Json → String
  | [] => ""
  | [x] => x.render
  | x :: xs => x.render ++ "," ++ Json.renderList xs

def Json.renderFields : List (String × Json) → String
  | [] => ""
  | [(k, v)] => escapeJsonString k ++ ":" ++ v.render
  | (k, v) :: fs => escapeJsonString k ++ ":" ++ v.render ++ "," ++ Json.renderFields fs
end

/-- `Value::get(key)` on objects (first matching field). -/
def Json.getField : Json → String → Option Json
  | .obj fs, key => fs.lookup key
  | _, _ => none

/-- `item.get(key).and_then(Value::as_str)`. -/
def Json.getStr (j : Json) (key : String) : Option String :=
  match j.getField key with
  | some (.str s) => some s
  | _ => none

/-- `Value::as_str().unwrap_or_default()` after `get`. -/
def Json.getStrD (j : Json) (key : String) : String :=
  (j.getStr key).getD ""

/-- `Value::is_object`. -/
def Json.isObj : Json → Bool
  | .obj _ => true
  | _ => false

/-! ## Context ledger (`kernel-context-ledger/src/lib.rs`) -/

/-- `LedgerEntry` (lib.rs lines 16-28). -/
structure LedgerEntry where
  id : String
  timestamp_ms : Nat
  timestamp_iso : String
  session_id : String
  agent_id : String
  mode : String
  role : Option String
  event_type : String
  payload : Json
  deriving DecidableEq, Repr

/-- `ContextLedgerConfig` (lib.rs lines 30-41).  `root_dir` is kept as the
string form of the path. -/
structure ContextLedgerConfig where
  root_dir : String
  session_id : String
  agent_id : String
  mode : String
  role : Option String
  can_read_all : Bool
  readable_agents : List String
  focus_enabled : Bool
  focus_max_chars : Nat
  deriving DecidableEq, Repr

/-- `LedgerQueryRequest` (lib.rs lines 43-55). -/
structure LedgerQueryRequest where
  session_id : Option String := none
  agent_id : Option String := none
  mode : Option String := none
  since_ms : Option Nat := none
  until_ms : Option Nat := none
  limit : Option Nat := none
  contains : Option String := none
  fuzzy : Bool := false
  event_types : List String := []
  deriving DecidableEq, Repr

/-- `LedgerTimelinePoint` (lib.rs lines 66-75). -/
structure LedgerTimelinePoint where
  id : String
  timestamp_ms : Nat
  timestamp_iso : String
  event_type : String
  agent_id : String
  mode : String
  preview : String
  deriving DecidableEq, Repr

/-- `LedgerQueryResponse` (lib.rs lines 57-64). -/
structure LedgerQueryResponse where
  entries : List LedgerEntry
  timeline : List LedgerTimelinePoint
  total : Nat
  truncated : Bool
  source : String
  deriving DecidableEq, Repr

/-- `FocusInsertResult` (lib.rs lines 77-81). -/
structure FocusInsertResult where
  chars : Nat
  truncated : Bool
  deriving DecidableEq, Repr

/-- `ContextLedgerError` (lib.rs lines 83-93).  The `Io`/`Json` payloads
(`std::io::Error`, `serde_json::Error`) are dropped: only the error class is
observable to the properties below. -/
inductive ContextLedgerError where
  | invalidConfig (msg : String)
  | permissionDenied (agent_id : String)
  | ioError
  | jsonError
  deriving DecidableEq, Repr

/-- `sanitize_component` (lib.rs lines 640-645): trim, then map `\`, `/`,
`:` to `_`. -/
def sanitize_component (raw : String) : String :=
  strReplaceChar (strReplaceChar (strReplaceChar (strTrim raw) '\\' '_') '/' '_') ':' '_'

/-- `contains_prompt_like_block` (lib.rs lines 584-592). -/
def contains_prompt_like_block (text : String) : Bool :=
  let lowered := strToLower text
  strContains lowered "<developer_instructions>"
    || strContains lowered "<user_instructions>"
    || strContains lowered "<environment_context>"
    || strContains lowered "<turn_context>"
    || strContains lowered "<context_ledger_focus>"
    || strContains lowered "<system_message>"

/-- Sliding two-character windows of a character list (`slice::windows(2)`). -/
def charWindows2 : List Char → List String
  | a :: b :: rest => String.mk [a, b] :: charWindows2 (b :: rest)
  | _ => []

/-- `to_bigrams` (lib.rs lines 615-630); the `HashSet` is a `Finset`. -/
def to_bigrams (input : String) : Finset String :=
  let normalized :=
    strToLower ⟨input.data.filter fun ch => ch.isAlphanum || ch.isWhitespace⟩
  ((charWindows2 normalized.data).filter fun token => !(strTrim token).isEmpty).toFinset

/-- `fuzzy_score` (lib.rs lines 602-613); `f64` arithmetic modelled by exact
rationals. -/
def fuzzy_score (text query : String) : ℚ :=
  let text_bigrams := to_bigrams text
  let query_bigrams := to_bigrams query
  if text_bigrams = ∅ ∨ query_bigrams = ∅ then 0
  else ((query_bigrams.filter (· ∈ text_bigrams)).card : ℚ) / (query_bigrams.card : ℚ)

/-- `build_preview` (lib.rs lines 571-582). -/
def build_preview (input : String) (max_chars : Nat) : String :=
  let normalized := strTrim (strReplaceChar input '\n' ' ')
  if normalized.length ≤ max_chars then normalized
  else ⟨normalized.data.take max_chars⟩ ++ "..."

/-- `build_timeline` (lib.rs lines 556-569). -/
def build_timeline (entries : List LedgerEntry) : List LedgerTimelinePoint :=
  entries.map fun entry =>
    { id := entry.id
      timestamp_ms := entry.timestamp_ms
      timestamp_iso := entry.timestamp_iso
      event_type := entry.event_type
      agent_id := entry.agent_id
      mode := entry.mode
      preview := build_preview entry.payload.render 160 }

/-- The per-entry filter predicate inside `filter_entries`
(lib.rs lines 525-550). -/
def entryMatches (request : LedgerQueryRequest)
    (containsNeedle : Option String) (event_types : List String)
    (entry : LedgerEntry) : Bool :=
  (match request.since_ms with
   | some cutoff => cutoff ≤ entry.timestamp_ms
   | none => true)
  && (match request.until_ms with
      | some cutoff => entry.timestamp_ms ≤ cutoff
      | none => true)
  && (event_types.isEmpty
      || event_types.contains (strToLower (strTrim entry.event_type)))
  && !contains_prompt_like_block entry.payload.render
  && (match containsNeedle with
      | some needle =>
        let payload_text := strToLower entry.payload.render
        if strContains payload_text needle
            || strContains (strToLower entry.event_type) needle then true
        else if request.fuzzy then decide (fuzzy_score payload_text needle ≥ 18 / 100)
        else false
      | none => true)

/-- `filter_entries` (lib.rs lines 508-554).  Rust's stable
`Vec::sort_by_key` is modelled by insertion sort, which is also stable and
hence produces the identical output. -/
def filter_entries (entries : List LedgerEntry) (request : LedgerQueryRequest) :
    List LedgerEntry :=
  let containsNeedle :=
    (request.contains.map fun item => strToLower (strTrim item)).filter
      fun item => !item.isEmpty
  let event_types :=
    (request.event_types.map fun item => strToLower (strTrim item)).filter
      fun item => !item.isEmpty
  let filtered := entries.filter (entryMatches request containsNeedle event_types)
  filtered.insertionSort fun a b => a.timestamp_ms ≤ b.timestamp_ms

/-- `ContextLedger` (lib.rs lines 95-99): the config plus the sanitized
readable-agent set (the `HashSet` is a deduplicated membership structure;
a list with `∈` models it). -/
structure ContextLedger where
  cfg : ContextLedgerConfig
  readable_agent_set : List String
  deriving DecidableEq, Repr

/-- `ContextLedger::new` (lib.rs lines 102-142); the `create_dir_all` side
effect has no observable pure content. -/
def ContextLedger.new (cfg : ContextLedgerConfig) :
    Except ContextLedgerError ContextLedger :=
  if (strTrim cfg.session_id).isEmpty then
    .error (.invalidConfig "session_id cannot be empty")
  else if (strTrim cfg.agent_id).isEmpty then
    .error (.invalidConfig "agent_id cannot be empty")
  else if (strTrim cfg.mode).isEmpty then
    .error (.invalidConfig "mode cannot be empty")
  else if cfg.focus_max_chars = 0 then
    .error (.invalidConfig "focus_max_chars must be greater than 0")
  else
    .ok { cfg
          readable_agent_set :=
            (cfg.readable_agents.map sanitize_component).filter
              fun item => !item.isEmpty }

/-- `resolve_base_dir` (lib.rs lines 482-486), path as string. -/
def resolve_base_dir (root session_id agent_id mode : String) : String :=
  root ++ "/" ++ sanitize_component session_id ++ "/" ++ sanitize_component agent_id
    ++ "/" ++ sanitize_component mode

/-- `resolve_ledger_path` (lib.rs lines 478-480). -/
def resolve_ledger_path (root session_id agent_id mode : String) : String :=
  resolve_base_dir root session_id agent_id mode ++ "/context-ledger.jsonl"

/-- The sanitized target agent a query resolves (lib.rs lines 287-292). -/
def queryTargetAgent (self : ContextLedger) (request : LedgerQueryRequest) : String :=
  (((request.agent_id.map sanitize_component).filter
    fun item => !item.isEmpty).getD (sanitize_component self.cfg.agent_id))

/-- The sanitized target session (lib.rs lines 281-286). -/
def queryTargetSession (self : ContextLedger) (request : LedgerQueryRequest) : String :=
  (((request.session_id.map sanitize_component).filter
    fun item => !item.isEmpty).getD (sanitize_component self.cfg.session_id))

/-- The sanitized target mode (lib.rs lines 293-298). -/
def queryTargetMode (self : ContextLedger) (request : LedgerQueryRequest) : String :=
  (((request.mode.map sanitize_component).filter
    fun item => !item.isEmpty).getD (sanitize_component self.cfg.mode))

/-- `ContextLedger::query` (lib.rs lines 277-334).  The filesystem read of
the resolved ledger file (`read_entries(ledger_path)?`, line 316) is passed
in as `readResult`; everything else is the Rust verbatim. -/
def ContextLedger.query (self : ContextLedger) (request : LedgerQueryRequest)
    (readResult : Except ContextLedgerError (List LedgerEntry)) :
    Except ContextLedgerError LedgerQueryResponse :=
  let target_session := queryTargetSession self request
  let target_agent := queryTargetAgent self request
  let target_mode := queryTargetMode self request
  if target_agent ≠ sanitize_component self.cfg.agent_id
      ∧ ¬self.cfg.can_read_all
      ∧ target_agent ∉ self.readable_agent_set then
    .error (.permissionDenied target_agent)
  else do
    let ledger_path :=
      resolve_ledger_path self.cfg.root_dir target_session target_agent target_mode
    let entries ← readResult
    let filtered := filter_entries entries request
    let total := filtered.length
    let limit := min (max (request.limit.getD 50) 1) 500
    let truncated := total > limit
    let final_entries := if total > limit then filtered.drop (total - limit) else filtered
    .ok { timeline := build_timeline final_entries
          entries := final_entries
          total := total
          truncated := truncated
          source := ledger_path }

/-- The requested limit, defaulted and clamped (lib.rs line 319). -/
def clampedLimit (request : LedgerQueryRequest) : Nat :=
  min (max (request.limit.getD 50) 1) 500

/-- One raw line of a jsonl file, as `read_entries` sees it after
`serde_json::from_str::<LedgerEntry>`: the text plus the parse outcome.
`serde_json` is external, so the parse is the `parse` argument below. -/
def classifyLine (parse : String → Option LedgerEntry) (raw : String) :
    Option (Option LedgerEntry) :=
  let trimmed := strTrim raw
  if trimmed.isEmpty then none else some (parse trimmed)

/-- `read_entries` (lib.rs lines 489-506): skip blank lines, and propagate a
`Json` error (`serde_json::from_str(..)?`, line 502) on the first line that
fails to parse. -/
def read_entries (parse : String → Option LedgerEntry) (lines : List String) :
    Except ContextLedgerError (List LedgerEntry) :=
  match lines with
  | [] => .ok []
  | raw :: rest =>
    match classifyLine parse raw with
    | none => read_entries parse rest
    | some none => .error .jsonError
    | some (some entry) => do
      let tail ← read_entries parse rest
      .ok (entry :: tail)

/-- `keep_tail_chars` (lib.rs lines 632-638). -/
def keep_tail_chars (input : String) (max_chars : Nat) : String :=
  let total := input.length
  if total ≤ max_chars then input
  else ⟨input.data.drop (total - max_chars)⟩

/-- The merged focus text `insert_focus` measures and persists
(lib.rs lines 238-252): the trimmed incoming text, prefixed with the
existing content and a newline when appending onto non-empty content. -/
def mergedFocusText (existing : Option String) (text : String) (append : Bool) :
    String :=
  let incoming := strTrim text
  if append then
    match existing with
    | some prior => if !(strTrim prior).isEmpty then prior ++ "\n" ++ incoming else incoming
    | none => incoming
  else incoming

/-- `ContextLedger::insert_focus` (lib.rs lines 228-275).  `existing` is the
current `read_focus()` result; the returned string is the content written to
`focus-slot.txt` (the `focus_insert` ledger append is a side log). -/
def ContextLedger.insert_focus (self : ContextLedger) (existing : Option String)
    (text : String) (append : Bool) :
    Except ContextLedgerError (FocusInsertResult × String) :=
  if !self.cfg.focus_enabled then
    .error (.invalidConfig "focus slot is disabled")
  else
    let incoming := strTrim text
    if incoming.isEmpty then
      .error (.invalidConfig "focus text cannot be empty")
    else
      let merged := mergedFocusText existing text append
      let original_chars := merged.length
      let truncated := original_chars > self.cfg.focus_max_chars
      let merged :=
        if original_chars > self.cfg.focus_max_chars then
          keep_tail_chars merged self.cfg.focus_max_chars
        else merged
      .ok ({ chars := merged.length, truncated := truncated }, merged)

/-! ## Ledger lemmas -/

theorem filter_entries_sorted (entries : List LedgerEntry) (request : LedgerQueryRequest) :
    (filter_entries entries request).Pairwise
      (fun a b => a.timestamp_ms ≤ b.timestamp_ms) := by
  haveI : IsTotal LedgerEntry (fun a b => a.timestamp_ms ≤ b.timestamp_ms) :=
    ⟨fun a b => Nat.le_total a.timestamp_ms b.timestamp_ms⟩
  haveI : IsTrans LedgerEntry (fun a b => a.timestamp_ms ≤ b.timestamp_ms) :=
    ⟨fun _ _ _ hab hbc => Nat.le_trans hab hbc⟩
  exact List.sorted_insertionSort _ _

theorem mem_filter_entries {entry : LedgerEntry} {entries : List LedgerEntry}
    {request : LedgerQueryRequest} (h : entry ∈ filter_entries entries request) :
    entry ∈ entries ∧ contains_prompt_like_block entry.payload.render = false := by
  unfold filter_entries at h
  rw [List.mem_insertionSort, List.mem_filter] at h
  refine ⟨h.1, ?_⟩
  have hm := h.2
  unfold entryMatches at hm
  simp only [Bool.and_eq_true, Bool.not_eq_true'] at hm
  exact hm.1.2

theorem query_ok_shape {self : ContextLedger} {request : LedgerQueryRequest}
    {readResult : Except ContextLedgerError (List LedgerEntry)}
    {resp : LedgerQueryResponse}
    (h : self.query request readResult = .ok resp) :
    ∃ entries, readResult = .ok entries ∧
      resp.total = (filter_entries entries request).length ∧
      resp.truncated = decide (resp.total > clampedLimit request) ∧
      resp.entries = (filter_entries entries request).drop
        (resp.total - clampedLimit request) := by
  unfold ContextLedger.query at h
  dsimp only at h
  split at h
  · exact absurd h (by simp)
  · cases readResult with
    | error e => exact absurd h (by simp [Bind.bind, Except.bind])
    | ok entries =>
      simp only [Bind.bind, Except.bind, Except.ok.injEq] at h
      subst h
      refine ⟨entries, rfl, rfl, rfl, ?_⟩
      show (if (filter_entries entries request).length > clampedLimit request
            then (filter_entries entries request).drop
              ((filter_entries entries request).length - clampedLimit request)
            else filter_entries entries request) = _
      split
      · rfl
      · next hle =>
        rw [Nat.sub_eq_zero_of_le (Nat.le_of_not_lt hle), List.drop_zero]

/-- C1: for every ledger query that succeeds, the number of returned entries
is at most `min(limit, total)` for the defaulted-and-clamped limit;
`truncated` iff `total > limit`; the returned entries are the tail of the
filtered list sorted ascending by `timestamp_ms`; and no returned entry's
stringified payload contains a prompt-control tag. -/
theorem ledger_query_invariants (self : ContextLedger) (request : LedgerQueryRequest)
    (readResult : Except ContextLedgerError (List LedgerEntry))
    (resp : LedgerQueryResponse)
    (h : self.query request readResult = .ok resp) :
    resp.entries.length ≤ min (clampedLimit request) resp.total
    ∧ (resp.truncated = true ↔ resp.total > clampedLimit request)
    ∧ (∃ entries, readResult = .ok entries
        ∧ resp.total = (filter_entries entries request).length
        ∧ resp.entries = (filter_entries entries request).drop
            (resp.total - clampedLimit request))
    ∧ resp.entries.Pairwise (fun a b => a.timestamp_ms ≤ b.timestamp_ms)
    ∧ ∀ e ∈ resp.entries, contains_prompt_like_block e.payload.render = false := by
  obtain ⟨entries, hread, htotal, htrunc, hentries⟩ := query_ok_shape h
  refine ⟨?_, ?_, ⟨entries, hread, htotal, hentries⟩, ?_, ?_⟩
  · rw [hentries, List.length_drop, htotal]
    omega
  · rw [htrunc]; simp
  · rw [hentries]
    exact (filter_entries_sorted entries request).sublist
      (List.drop_sublist _ _)
  · intro e he
    rw [hentries] at he
    exact (mem_filter_entries ((List.drop_sublist _ _).mem he)).2

/-- C2: a ledger query fails with `PermissionDenied` exactly when the
sanitized target agent differs from the ledger's own sanitized agent id,
`can_read_all` is false, and the target is not in the sanitized, non-empty
`readable_agents` set; a query targeting the own agent never fails that way. -/
theorem ledger_query_permission (cfg : ContextLedgerConfig) (self : ContextLedger)
    (request : LedgerQueryRequest)
    (readResult : Except ContextLedgerError (List LedgerEntry))
    (hnew : ContextLedger.new cfg = .ok self)
    (hread : ∀ a, readResult ≠ .error (.permissionDenied a)) :
    ((∃ a, self.query request readResult = .error (.permissionDenied a)) ↔
      (queryTargetAgent self request ≠ sanitize_component cfg.agent_id
        ∧ cfg.can_read_all = false
        ∧ queryTargetAgent self request ∉
            (cfg.readable_agents.map sanitize_component).filter
              fun item => !item.isEmpty))
    ∧ (queryTargetAgent self request = sanitize_component cfg.agent_id →
        ∀ a, self.query request readResult ≠ .error (.permissionDenied a)) := by
  have hself : self.cfg = cfg ∧ self.readable_agent_set =
      (cfg.readable_agents.map sanitize_component).filter
        fun item => !item.isEmpty := by
    unfold ContextLedger.new at hnew
    split at hnew
    · exact absurd hnew (by simp)
    · split at hnew
      · exact absurd hnew (by simp)
      · split at hnew
        · exact absurd hnew (by simp)
        · split at hnew
          · exact absurd hnew (by simp)
          · simp only [Except.ok.injEq] at hnew
            subst hnew
            exact ⟨rfl, rfl⟩
  obtain ⟨hcfg, hset⟩ := hself
  subst hcfg
  constructor
  · constructor
    · rintro ⟨a, ha⟩
      unfold ContextLedger.query at ha
      dsimp only at ha
      split at ha
      · next hcond =>
        exact ⟨hcond.1, by simpa using hcond.2.1, hset ▸ hcond.2.2⟩
      · exfalso
        cases readResult with
        | error e =>
          simp only [Bind.bind, Except.bind, Except.error.injEq] at ha
          cases ha
          exact hread a rfl
        | ok entries => exact absurd ha (by simp [Bind.bind, Except.bind])
    · intro hcond
      refine ⟨queryTargetAgent self request, ?_⟩
      unfold ContextLedger.query
      dsimp only
      rw [if_pos ⟨hcond.1, by simp [hcond.2.1], by rw [hset]; exact hcond.2.2⟩]
  · intro hown a ha
    unfold ContextLedger.query at ha
    dsimp only at ha
    split at ha
    · next hcond =>
      exact hcond.1 hown
    · cases readResult with
      | error e =>
        simp only [Bind.bind, Except.bind, Except.error.injEq] at ha
        cases ha
        exact hread a rfl
      | ok entries => exact absurd ha (by simp [Bind.bind, Except.bind])

/-- The full behaviour of `read_entries`: if any non-blank line fails to
parse, the read fails with a `Json` error; otherwise it returns the parsed
entries in order. -/
theorem read_entries_eq (parse : String → Option LedgerEntry) (lines : List String) :
    read_entries parse lines =
      if ∃ raw ∈ lines, classifyLine parse raw = some none then .error .jsonError
      else .ok (lines.filterMap fun raw => (classifyLine parse raw).bind id) := by
  induction lines with
  | nil => simp [read_entries]
  | cons raw rest ih =>
    unfold read_entries
    match hc : classifyLine parse raw with
    | none =>
      rw [ih]
      simp [List.filterMap_cons, hc]
    | some none =>
      simp [hc]
    | some (some entry) =>
      rw [ih]
      by_cases hrest : ∃ r ∈ rest, classifyLine parse r = some none
      · obtain ⟨r, hr, hcr⟩ := hrest
        rw [if_pos ⟨r, hr, hcr⟩, if_pos ⟨r, List.mem_cons_of_mem _ hr, hcr⟩]
        rfl
      · rw [if_neg hrest, if_neg (by simp [hc, hrest])]
        simp [List.filterMap_cons, hc, Bind.bind, Except.bind]

/-- C3 (amended): a line that fails to parse as a `LedgerEntry` aborts the
read — `read_entries` fails with a `Json` error (only blank lines are
skipped), and the enclosing query does not succeed. -/
theorem ledger_malformed_line_aborts_query (parse : String → Option LedgerEntry)
    (lines : List String) (self : ContextLedger) (request : LedgerQueryRequest)
    (hbad : ∃ raw ∈ lines, classifyLine parse raw = some none) :
    read_entries parse lines = .error .jsonError
    ∧ ∀ resp, self.query request (read_entries parse lines) ≠ .ok resp := by
  have hre : read_entries parse lines = .error .jsonError := by
    rw [read_entries_eq, if_pos hbad]
  refine ⟨hre, ?_⟩
  intro resp hq
  rw [hre] at hq
  unfold ContextLedger.query at hq
  dsimp only at hq
  split at hq
  · exact Except.noConfusion hq
  · simp [Bind.bind, Except.bind] at hq

/-- C8: if the merged focus text exceeds `focus_max_chars` code points, the
insert reports `truncated = true` and `chars = focus_max_chars`, and the
persisted text is the tail of the merged text with exactly `focus_max_chars`
code points; otherwise the text is persisted unchanged with
`truncated = false`. -/
theorem insert_focus_truncation (self : ContextLedger) (existing : Option String)
    (text : String) (append : Bool) (res : FocusInsertResult) (persisted : String)
    (h : self.insert_focus existing text append = .ok (res, persisted)) :
    ((mergedFocusText existing text append).length > self.cfg.focus_max_chars →
      res.truncated = true ∧ res.chars = self.cfg.focus_max_chars
        ∧ persisted.length = self.cfg.focus_max_chars
        ∧ persisted.data = (mergedFocusText existing text append).data.drop
            ((mergedFocusText existing text append).length - self.cfg.focus_max_chars))
    ∧ ((mergedFocusText existing text append).length ≤ self.cfg.focus_max_chars →
      res.truncated = false ∧ persisted = mergedFocusText existing text append
        ∧ res.chars = (mergedFocusText existing text append).length) := by
  unfold ContextLedger.insert_focus at h
  split at h
  · exact absurd h (by simp)
  · dsimp only at h
    split at h
    · exact absurd h (by simp)
    · simp only [Except.ok.injEq, Prod.mk.injEq] at h
      obtain ⟨hres, hper⟩ := h
      set merged := mergedFocusText existing text append with hm
      constructor
      · intro hgt
        rw [if_pos hgt] at hres hper
        have hlen : (keep_tail_chars merged self.cfg.focus_max_chars).length
            = self.cfg.focus_max_chars := by
          unfold keep_tail_chars
          rw [if_neg (by omega)]
          show (merged.data.drop (merged.length - self.cfg.focus_max_chars)).length = _
          rw [List.length_drop]
          have : merged.data.length = merged.length := rfl
          omega
        refine ⟨?_, ?_, ?_, ?_⟩
        · rw [← hres]; simp [hgt]
        · rw [← hres]; exact hlen
        · rw [← hper]; exact hlen
        · rw [← hper]
          unfold keep_tail_chars
          rw [if_neg (by omega)]
      · intro hle
        rw [if_neg (by omega)] at hres hper
        refine ⟨?_, hper.symm, ?_⟩
        · rw [← hres]; simp; omega
        · rw [← hres]

/-! ## Concrete sample data for the ledger witnesses -/

def sampleEntry : LedgerEntry :=
  { id := "led-1-1", timestamp_ms := 5, timestamp_iso := "2026-01-01T00:00:00Z"
    session_id := "s", agent_id := "a", mode := "m", role := none
    event_type := "turn_start", payload := .obj [("text", .str "hello")] }

def sampleEntry2 : LedgerEntry :=
  { sampleEntry with
    id := "led-2-2"
    timestamp_ms := 3
    event_type := "tool_call"
    payload := .obj [("name", .str "shell.exec")] }

def sampleConfig : ContextLedgerConfig :=
  { root_dir := "root", session_id := "s", agent_id := "a", mode := "m"
    role := none, can_read_all := false, readable_agents := []
    focus_enabled := true, focus_max_chars := 10 }

def sampleLedger : ContextLedger :=
  { cfg := sampleConfig, readable_agent_set := [] }

def sampleResp : LedgerQueryResponse :=
  { entries := [sampleEntry2, sampleEntry]
    timeline := build_timeline [sampleEntry2, sampleEntry]
    total := 2, truncated := false
    source := "root/s/a/m/context-ledger.jsonl" }

def sampleParse (s : String) : Option LedgerEntry :=
  if s = "entry-line" then some sampleEntry else none

theorem ledger_query_invariants_witness :
    sampleLedger.query {} (.ok [sampleEntry, sampleEntry2]) = .ok sampleResp
    ∧ (sampleResp.entries.length ≤ min (clampedLimit {}) sampleResp.total
      ∧ (sampleResp.truncated = true ↔ sampleResp.total > clampedLimit {})
      ∧ (∃ entries, (.ok [sampleEntry, sampleEntry2]
            : Except ContextLedgerError (List LedgerEntry)) = .ok entries
          ∧ sampleResp.total = (filter_entries entries {}).length
          ∧ sampleResp.entries = (filter_entries entries {}).drop
              (sampleResp.total - clampedLimit {}))
      ∧ sampleResp.entries.Pairwise (fun a b => a.timestamp_ms ≤ b.timestamp_ms)
      ∧ ∀ e ∈ sampleResp.entries,
          contains_prompt_like_block e.payload.render = false) :=
  ⟨by decide,
    ledger_query_invariants sampleLedger {} (.ok [sampleEntry, sampleEntry2])
      sampleResp (by decide)⟩

theorem ledger_query_permission_witness :
    ContextLedger.new sampleConfig = .ok sampleLedger
    ∧ (((∃ a, sampleLedger.query { agent_id := some "other" } (.ok [])
            = .error (.permissionDenied a)) ↔
        (queryTargetAgent sampleLedger { agent_id := some "other" }
            ≠ sanitize_component sampleConfig.agent_id
          ∧ sampleConfig.can_read_all = false
          ∧ queryTargetAgent sampleLedger { agent_id := some "other" } ∉
              (sampleConfig.readable_agents.map sanitize_component).filter
                fun item => !item.isEmpty))
      ∧ (queryTargetAgent sampleLedger { agent_id := some "other" }
            = sanitize_component sampleConfig.agent_id →
          ∀ a, sampleLedger.query { agent_id := some "other" } (.ok [])
            ≠ .error (.permissionDenied a))) :=
  ⟨by decide,
    ledger_query_permission sampleConfig sampleLedger { agent_id := some "other" }
      (.ok []) (by decide) (fun _ h => Except.noConfusion h)⟩

/-- C3 counterexample: on a file with one well-formed line and one malformed
line, the read and the whole query fail with a `Json` error instead of
succeeding with the well-formed entries. -/
theorem ledger_malformed_line_counterexample :
    read_entries sampleParse ["entry-line", "garbage"] = .error .jsonError
    ∧ sampleLedger.query {} (read_entries sampleParse ["entry-line", "garbage"])
        = .error .jsonError
    ∧ sampleParse "entry-line" = some sampleEntry := by decide

theorem ledger_malformed_line_aborts_query_witness :
    (∃ raw ∈ ["entry-line", "garbage"], classifyLine sampleParse raw = some none)
    ∧ (read_entries sampleParse ["entry-line", "garbage"] = .error .jsonError
      ∧ ∀ resp, sampleLedger.query {}
          (read_entries sampleParse ["entry-line", "garbage"]) ≠ .ok resp) :=
  ⟨by decide,
    ledger_malformed_line_aborts_query sampleParse ["entry-line", "garbage"]
      sampleLedger {} (by decide)⟩

theorem insert_focus_truncation_witness :
    sampleLedger.insert_focus none "123456789012345" false
        = .ok ({ chars := 10, truncated := true }, "6789012345")
    ∧ (((mergedFocusText none "123456789012345" false).length
          > sampleLedger.cfg.focus_max_chars →
        (true : Bool) = true
          ∧ (10 : Nat) = sampleLedger.cfg.focus_max_chars
          ∧ ("6789012345" : String).length = sampleLedger.cfg.focus_max_chars
          ∧ ("6789012345" : String).data
              = (mergedFocusText none "123456789012345" false).data.drop
                  ((mergedFocusText none "123456789012345" false).length
                    - sampleLedger.cfg.focus_max_chars))
      ∧ ((mergedFocusText none "123456789012345" false).length
            ≤ sampleLedger.cfg.focus_max_chars →
        (true : Bool) = false
          ∧ ("6789012345" : String) = mergedFocusText none "123456789012345" false
          ∧ (10 : Nat) = (mergedFocusText none "123456789012345" false).length)) :=
  ⟨by decide,
    insert_focus_truncation sampleLedger none "123456789012345" false
      { chars := 10, truncated := true } "6789012345" (by decide)⟩

/-! ## Protocol data (`kernel-protocol/src/lib.rs`) -/

/-- A Rust `f64`, as far as the kernel observes it: a finite value (exact,
as a rational) or one of the non-finite values.  `PartialEq` on `f64`
(where `NaN ≠ NaN`) is `f64Eq` below. -/
inductive F64 where
  | finite (q : ℚ)
  | nan
  | inf
  | neginf
  deriving DecidableEq, Repr

/-- Rust `PartialEq` on `f64`: `NaN` is not equal to itself. -/
def f64Eq : F64 → F64 → Bool
  | .finite a, .finite b => a == b
  | .nan, _ => false
  | _, .nan => false
  | .inf, .inf => true
  | .neginf, .neginf => true
  | _, _ => false

/-- `ToolSpec` (kernel-protocol lines 174-181). -/
structure ToolSpec where
  name : String
  description : Option String := none
  input_schema : Option Json := none
  deriving DecidableEq, Repr

/-- `ToolExecutionConfig` (kernel-protocol lines 183-187). -/
structure ToolExecutionConfig where
  daemon_url : String
  agent_id : String
  deriving DecidableEq, Repr

/-- `ResponsesReasoningOptions` (kernel-protocol lines 98-108). -/
structure ResponsesReasoningOptions where
  enabled : Option Bool := none
  effort : Option String := none
  summary : Option String := none
  include_encrypted_content : Option Bool := none
  deriving DecidableEq, Repr

/-- `ResponsesTextOptions` (kernel-protocol lines 110-118). -/
structure ResponsesTextOptions where
  enabled : Option Bool := none
  verbosity : Option String := none
  output_schema : Option Json := none
  deriving DecidableEq, Repr

/-- `ResponsesRequestOptions` (kernel-protocol lines 84-96). -/
structure ResponsesRequestOptions where
  reasoning : Option ResponsesReasoningOptions := none
  text : Option ResponsesTextOptions := none
  «include» : List String := []
  store : Option Bool := none
  parallel_tool_calls : Option Bool := none
  deriving DecidableEq, Repr

/-- `ContextLedgerOptions` (kernel-protocol lines 120-140). -/
structure ContextLedgerOptions where
  enabled : Bool := false
  root_dir : Option String := none
  agent_id : Option String := none
  role : Option String := none
  mode : Option String := none
  can_read_all : Bool := false
  readable_agents : List String := []
  focus_enabled : Bool := false
  focus_max_chars : Option Nat := none
  deriving DecidableEq, Repr

/-- `TurnContext` (kernel-protocol lines 142-152). -/
structure TurnContext where
  cwd : Option String := none
  approval : Option String := none
  sandbox : Option String := none
  model : Option String := none
  deriving DecidableEq, Repr

/-- `ContextWindowConfig` (kernel-protocol lines 154-162);
`auto_compact_threshold_ratio` is the kernel's only `f64`. -/
structure ContextWindowConfig where
  max_input_tokens : Option Nat := none
  baseline_tokens : Option Nat := none
  auto_compact_threshold_ratio : Option F64 := none
  deriving DecidableEq, Repr

/-- `CompactConfig` (kernel-protocol lines 164-172). -/
structure CompactConfig where
  manual : Bool := false
  preserve_user_messages : Bool := false
  summary_hint : Option String := none
  deriving DecidableEq, Repr

/-- `UserTurnOptions` (kernel-protocol lines 30-62). -/
structure UserTurnOptions where
  system_prompt : Option String := none
  tools : List ToolSpec := []
  tool_execution : Option ToolExecutionConfig := none
  session_id : Option String := none
  mode : Option String := none
  history_items : List Json := []
  developer_instructions : Option String := none
  user_instructions : Option String := none
  environment_context : Option String := none
  turn_context : Option TurnContext := none
  context_window : Option ContextWindowConfig := none
  compact : Option CompactConfig := none
  fork_user_message_index : Option Nat := none
  context_ledger : Option ContextLedgerOptions := none
  responses : Option ResponsesRequestOptions := none
  deriving DecidableEq, Repr

/-- `InputItem` (kernel-protocol lines 189-195). -/
inductive InputItem where
  | text (text : String)
  | image (image_url : String)
  | localImage (path : String)
  deriving DecidableEq, Repr

/-- `ReviewDecision` (kernel-protocol lines 313-321). -/
inductive ReviewDecision where
  | approved
  | approvedForSession
  | denied
  | abort
  deriving DecidableEq, Repr

/-- `Op` (kernel-protocol lines 10-28). -/
inductive Op where
  | userTurn (items : List InputItem) (options : UserTurnOptions)
  | interrupt
  | shutdown
  | execApproval (id : String) (decision : ReviewDecision)
  | patchApproval (id : String) (decision : ReviewDecision)
  deriving DecidableEq, Repr

/-- `Submission` (kernel-protocol lines 4-8). -/
structure Submission where
  id : String
  op : Op
  deriving DecidableEq, Repr

/-- `SessionConfiguredEvent` (kernel-protocol lines 218-221). -/
structure SessionConfiguredEvent where
  session_id : String
  deriving DecidableEq, Repr

/-- `TaskStartedEvent` (kernel-protocol lines 223-226). -/
structure TaskStartedEvent where
  model_context_window : Option Nat := none
  deriving DecidableEq, Repr

/-- `ModelRoundEvent` (kernel-protocol lines 228-260). -/
structure ModelRoundEvent where
  seq : Nat
  round : Nat
  function_calls_count : Nat
  reasoning_count : Nat
  history_items_count : Nat
  has_output_text : Bool
  finish_reason : Option String := none
  response_status : Option String := none
  response_incomplete_reason : Option String := none
  response_id : Option String := none
  input_tokens : Option Nat := none
  output_tokens : Option Nat := none
  total_tokens : Option Nat := none
  estimated_tokens_in_context_window : Option Nat := none
  estimated_tokens_compactable : Option Nat := none
  context_usage_percent : Option Nat := none
  max_input_tokens : Option Nat := none
  threshold_percent : Option Nat := none
  deriving DecidableEq, Repr

/-- `ToolCallEvent` (kernel-protocol lines 262-268). -/
structure ToolCallEvent where
  seq : Nat
  call_id : String
  tool_name : String
  input : Json
  deriving DecidableEq, Repr

/-- `ToolResultEvent` (kernel-protocol lines 270-277). -/
structure ToolResultEvent where
  seq : Nat
  call_id : String
  tool_name : String
  output : Json
  duration_ms : Nat
  deriving DecidableEq, Repr

/-- `ToolErrorEvent` (kernel-protocol lines 279-286). -/
structure ToolErrorEvent where
  seq : Nat
  call_id : String
  tool_name : String
  error : String
  duration_ms : Nat
  deriving DecidableEq, Repr

/-- `TaskCompleteEvent` (kernel-protocol lines 288-293). -/
structure TaskCompleteEvent where
  last_agent_message : Option String := none
  metadata_json : Option String := none
  deriving DecidableEq, Repr

/-- `TurnAbortReason` (kernel-protocol lines 300-306). -/
inductive TurnAbortReason where
  | userInterrupt
  | taskReplaced
  | shutdown
  deriving DecidableEq, Repr

/-- `TurnAbortedEvent` (kernel-protocol lines 295-298). -/
structure TurnAbortedEvent where
  reason : TurnAbortReason
  deriving DecidableEq, Repr

/-- `ErrorEvent` (kernel-protocol lines 308-311). -/
structure ErrorEvent where
  message : String
  deriving DecidableEq, Repr

/-- `EventMsg` (kernel-protocol lines 203-216). -/
inductive EventMsg where
  | sessionConfigured (e : SessionConfiguredEvent)
  | taskStarted (e : TaskStartedEvent)
  | modelRound (e : ModelRoundEvent)
  | toolCall (e : ToolCallEvent)
  | toolResult (e : ToolResultEvent)
  | toolError (e : ToolErrorEvent)
  | taskComplete (e : TaskCompleteEvent)
  | turnAborted (e : TurnAbortedEvent)
  | shutdownComplete
  | error (e : ErrorEvent)
  deriving DecidableEq, Repr

/-- `Event` (kernel-protocol lines 197-201). -/
structure Event where
  id : String
  msg : EventMsg
  deriving DecidableEq, Repr

/-! ## Chat engine helpers (`kernel-model/src/lib.rs`) -/

/-- `ModelError` (kernel-model lines 34-54), payloads reduced to what the
properties below observe. -/
inductive ModelErrorE where
  | request
  | httpStatus (status : Nat) (body : String)
  | parsePayload
  | localImageRead (path : String)
  | emptyOutput
  | missingStreamResponse
  | streamFailed (message : String)
  | toolLoopExceeded (max_rounds : Nat)
  | toolExecution (tool_name : String) (message : String)
  deriving DecidableEq, Repr

/-- `MAX_TOOL_LOOP_ROUNDS` (kernel-model line 30). -/
def MAX_TOOL_LOOP_ROUNDS : Nat := 64

/-- One step of `extract_text_from_history_item` (kernel-model lines
1501-1513): the non-empty trimmed `text` field of a content part, else its
non-empty trimmed `input_text` field. -/
def extract_part_text (part : Json) : Option String :=
  match part.getStr "text" with
  | some text =>
    if !(strTrim text).isEmpty then some (strTrim text)
    else
      match part.getStr "input_text" with
      | some input_text =>
        if !(strTrim input_text).isEmpty then some (strTrim input_text) else none
      | none => none
  | none =>
    match part.getStr "input_text" with
    | some input_text =>
      if !(strTrim input_text).isEmpty then some (strTrim input_text) else none
    | none => none

/-- `extract_text_from_history_item` (kernel-model lines 1499-1516): the
first content part with a non-empty `text` or `input_text`. -/
def extract_text_from_history_item (item : Json) : Option String :=
  match item.getField "content" with
  | some (.arr parts) => firstPartText parts
  | _ => none
where
  firstPartText : List Json → Option String
    | [] => none
    | part :: rest =>
      match extract_part_text part with
      | some text => some text
      | none => firstPartText rest

/-- `wrap_context_block` (kernel-model lines 1452-1454). -/
def wrap_context_block (name content : String) : String :=
  "<" ++ name ++ ">\n" ++ content ++ "\n</" ++ name ++ ">"

/-- `build_text_message` (kernel-model lines 1440-1450). -/
def build_text_message (role : String) (text : String) : Json :=
  .obj [("role", .str role),
        ("content", .arr [.obj [("type", .str "input_text"), ("text", .str text)]])]

/-- `history_contains_block` (kernel-model lines 1431-1438). -/
def history_contains_block (history : List Json) (block_name full_block_text : String) :
    Bool :=
  let open_tag := "<" ++ block_name ++ ">"
  history.any fun item =>
    match extract_text_from_history_item item with
    | some text => strContains text open_tag || strContains text full_block_text
    | none => false

/-- `maybe_inject_context_block` (kernel-model lines 1411-1429), returning
the extended input. -/
def maybe_inject_context_block (input : List Json) (block_name : String)
    (content : Option String) (role : String) : List Json :=
  match content with
  | none => input
  | some raw_content =>
    let trimmed := strTrim raw_content
    if trimmed.isEmpty then input
    else
      let block := wrap_context_block block_name trimmed
      if history_contains_block input block_name block then input
      else input ++ [build_text_message role block]

/-- `render_turn_context_block` (kernel-model lines 1456-1497). -/
def render_turn_context_block (turn_context : Option TurnContext) : Option String :=
  match turn_context with
  | none => none
  | some context =>
    let field (name : String) (value : Option String) : List String :=
      match value with
      | some v => if (strTrim v).isEmpty then [] else [name ++ "=" ++ strTrim v]
      | none => []
    let fields := field "cwd" context.cwd ++ field "approval" context.approval
      ++ field "sandbox" context.sandbox ++ field "model" context.model
    if fields.isEmpty then none else some (strJoin "\n" fields)

/-- `normalize_history_items` (kernel-model lines 1403-1409). -/
def normalize_history_items (history_items : List Json) : List Json :=
  history_items.filter Json.isObj

/-- `build_response_input_content` (kernel-model lines 1832-1866).
`env` stands for `to_data_url_from_local_image` (a file read). -/
def build_response_input_content (env : String → Except ModelErrorE String) :
    List InputItem → Except ModelErrorE (List Json)
  | [] => .ok []
  | item :: rest => do
    let tail ← build_response_input_content env rest
    match item with
    | .text text =>
      if (strTrim text).isEmpty then .ok tail
      else .ok (.obj [("type", .str "input_text"), ("text", .str text)] :: tail)
    | .image image_url =>
      if (strTrim image_url).isEmpty then .ok tail
      else .ok (.obj [("type", .str "input_image"), ("image_url", .str image_url)] :: tail)
    | .localImage path =>
      if (strTrim path).isEmpty then .ok tail
      else do
        let url ← env path
        .ok (.obj [("type", .str "input_image"), ("image_url", .str url)] :: tail)

/-- `build_user_message_input` (kernel-model lines 1824-1830). -/
def build_user_message_input (env : String → Except ModelErrorE String)
    (items : List InputItem) : Except ModelErrorE Json := do
  let content ← build_response_input_content env items
  .ok (.obj [("role", .str "user"), ("content", .arr content)])

/-- `build_initial_input` (kernel-model lines 1365-1401). -/
def build_initial_input (env : String → Except ModelErrorE String)
    (items : List InputItem) (options : UserTurnOptions) :
    Except ModelErrorE (List Json) := do
  let input := normalize_history_items options.history_items
  let input := maybe_inject_context_block input "developer_instructions"
    options.developer_instructions "developer"
  let input := match render_turn_context_block options.turn_context with
    | some turn_context_text =>
      maybe_inject_context_block input "turn_context" (some turn_context_text) "developer"
    | none => input
  let input := maybe_inject_context_block input "user_instructions"
    options.user_instructions "user"
  let input := maybe_inject_context_block input "environment_context"
    options.environment_context "user"
  let userMsg ← build_user_message_input env items
  .ok (input ++ [userMsg])

/-- The recall block wrapped around a recalled focus text
(kernel-model lines 112-115). -/
def recall_block (focus_text : String) : String :=
  "OLD_MEMORY_RECALL_ZONE\nThis block contains recalled old memory extracted from prior history.\nIt is for recall/reference and may not represent the latest state.\n"
    ++ focus_text ++ "\nEND_OLD_MEMORY_RECALL_ZONE"

/-- The initial rolling input of a turn (kernel-model lines 98-130):
`build_initial_input`, then — when the ledger recalled a focus-slot text —
injection of the `<context_ledger_focus>` block.  `focus` is the
`read_focus()` result. -/
def buildRollingInput (env : String → Except ModelErrorE String)
    (items : List InputItem) (options : UserTurnOptions) (focus : Option String) :
    Except ModelErrorE (List Json) := do
  let input ← build_initial_input env items options
  match focus with
  | some focus_text =>
    .ok (maybe_inject_context_block input "context_ledger_focus"
      (some (recall_block focus_text)) "user")
  | none => .ok input

/-- `apply_fork_truncate` (kernel-model lines 1518-1534); `current` is
`current_user_index`. -/
def applyForkTruncateAux (user_message_index : Nat) :
    List Json → Nat → List Json
  | [], _ => []
  | item :: rest, current =>
    if item.getStrD "role" = "user" then
      if current > user_message_index then []
      else item :: applyForkTruncateAux user_message_index rest (current + 1)
    else item :: applyForkTruncateAux user_message_index rest current

def apply_fork_truncate (history : List Json) (user_message_index : Nat) : List Json :=
  applyForkTruncateAux user_message_index history 0

/-- Position of the `k`-th (0-based) user-role item of a history — the
specification-side description used to characterise `apply_fork_truncate`. -/
def nthUserIndex : List Json → Nat → Option Nat
  | [], _ => none
  | item :: rest, k =>
    if item.getStrD "role" = "user" then
      match k with
      | 0 => some 0
      | k + 1 => (nthUserIndex rest k).map (· + 1)
    else (nthUserIndex rest k).map (· + 1)

/-- The claim's reading of fork truncation, from its words: keep items up to
and including the `n`-th (0-based) user-role message and discard every item
after it. -/
def claimedForkTruncate (history : List Json) (n : Nat) : List Json :=
  aux history 0
where
  aux : List Json → Nat → List Json
    | [], _ => []
    | item :: rest, current =>
      if item.getStrD "role" = "user" then
        if current = n then [item]
        else item :: aux rest (current + 1)
      else item :: aux rest current

theorem applyForkTruncateAux_eq (idx : Nat) (h : List Json) :
    ∀ current, current ≤ idx + 1 →
      applyForkTruncateAux idx h current =
        match nthUserIndex h (idx + 1 - current) with
        | some i => h.take i
        | none => h := by
  induction h with
  | nil => intro current _; rfl
  | cons item rest ih =>
    intro current hc
    by_cases hrole : item.getStrD "role" = "user"
    · by_cases hgt : current > idx
      · have hcur : current = idx + 1 := by omega
        have : idx + 1 - current = 0 := by omega
        simp [applyForkTruncateAux, hrole, hgt, nthUserIndex, this]
      · have hstep : idx + 1 - current = (idx + 1 - (current + 1)) + 1 := by omega
        simp only [applyForkTruncateAux, if_pos hrole, if_neg hgt]
        rw [ih (current + 1) (by omega), hstep]
        simp only [nthUserIndex, if_pos hrole]
        cases hn : nthUserIndex rest (idx + 1 - (current + 1)) with
        | none => simp
        | some i => simp [List.take_succ_cons]
    · simp only [applyForkTruncateAux, if_neg hrole]
      rw [ih current hc]
      simp only [nthUserIndex, if_neg hrole]
      cases hn : nthUserIndex rest (idx + 1 - current) with
      | none => simp
      | some i => simp [List.take_succ_cons]

/-- C5 (amended): fork truncation keeps every item strictly before the
`(N+1)`-th (0-based) user-role message — that is, the `N`-th user message
*and any following non-user items up to the next user message* are kept —
and the whole history when it has at most `N+1` user messages. -/
theorem apply_fork_truncate_eq (history : List Json) (n : Nat) :
    apply_fork_truncate history n =
      match nthUserIndex history (n + 1) with
      | some i => history.take i
      | none => history := by
  have := applyForkTruncateAux_eq n history 0 (by omega)
  simpa [apply_fork_truncate] using this

def forkUserMsg : Json := .obj [("role", .str "user"),
  ("content", .arr [.obj [("type", .str "input_text"), ("text", .str "hi")]])]

def forkAssistantMsg : Json := .obj [("role", .str "assistant"),
  ("content", .arr [.obj [("type", .str "output_text"), ("text", .str "yo")]])]

/-- C5 counterexample: on `[user, assistant]` with `N = 0`, the code keeps
both items, while the claim (keep exactly up to and including the 0-th user
message) keeps only the user message. -/
theorem fork_truncate_counterexample :
    apply_fork_truncate [forkUserMsg, forkAssistantMsg] 0
        = [forkUserMsg, forkAssistantMsg]
    ∧ claimedForkTruncate [forkUserMsg, forkAssistantMsg] 0 = [forkUserMsg]
    ∧ apply_fork_truncate [forkUserMsg, forkAssistantMsg] 0
        ≠ claimedForkTruncate [forkUserMsg, forkAssistantMsg] 0 := by decide

/-! ## C4: order of the initial rolling input -/

/-- The message `maybe_inject_context_block` would append for a block, when
its content is non-empty. -/
def contextBlockCandidate (name : String) (content : Option String) (role : String) :
    List Json :=
  match content with
  | none => []
  | some c =>
    let trimmed := strTrim c
    if trimmed.isEmpty then []
    else [build_text_message role (wrap_context_block name trimmed)]

/-- The four injectable context blocks of a turn, in injection order. -/
def candidate_blocks (options : UserTurnOptions) : List Json :=
  contextBlockCandidate "developer_instructions" options.developer_instructions "developer"
    ++ contextBlockCandidate "turn_context"
        (render_turn_context_block options.turn_context) "developer"
    ++ contextBlockCandidate "user_instructions" options.user_instructions "user"
    ++ contextBlockCandidate "environment_context" options.environment_context "user"

theorem maybe_inject_shape (input : List Json) (name : String)
    (content : Option String) (role : String) :
    ∃ tail, maybe_inject_context_block input name content role = input ++ tail
      ∧ List.Sublist tail (contextBlockCandidate name content role) := by
  cases content with
  | none => exact ⟨[], by simp [maybe_inject_context_block], List.nil_sublist _⟩
  | some raw =>
    by_cases hempty : (strTrim raw).isEmpty = true
    · exact ⟨[], by simp [maybe_inject_context_block, hempty], List.nil_sublist _⟩
    · by_cases hcontains : history_contains_block input name
          (wrap_context_block name (strTrim raw)) = true
      · exact ⟨[], by simp [maybe_inject_context_block, hempty, hcontains],
          List.nil_sublist _⟩
      · refine ⟨[build_text_message role (wrap_context_block name (strTrim raw))],
          by simp [maybe_inject_context_block, hempty, hcontains], ?_⟩
        unfold contextBlockCandidate
        dsimp only
        rw [if_neg hempty]

theorem strTrim_isEmpty_iff (s : String) :
    (strTrim s).isEmpty = true ↔ ∀ c ∈ s.data, c.isWhitespace := by
  have hdata : (strTrim s).data =
      ((s.data.dropWhile Char.isWhitespace).reverse.dropWhile Char.isWhitespace).reverse :=
    rfl
  rw [String.isEmpty_iff, String.ext_iff, hdata]
  show _ = ([] : List Char) ↔ _
  rw [List.reverse_eq_nil_iff, List.dropWhile_eq_nil_iff]
  constructor
  · intro h c hc
    rcases List.mem_append.mp
        ((List.takeWhile_append_dropWhile (p := Char.isWhitespace)
          (l := s.data)) ▸ hc) with hmem | hmem
    · exact List.mem_takeWhile_imp hmem
    · exact h c (List.mem_reverse.mpr hmem)
  · intro h c hc
    exact h c (List.dropWhile_subset _ (List.mem_reverse.mp hc))

theorem recall_block_trim_not_empty (f : String) :
    (strTrim (recall_block f)).isEmpty = false := by
  rw [Bool.eq_false_iff]
  intro hempty
  have := (strTrim_isEmpty_iff (recall_block f)).mp hempty 'O' (by
    show 'O' ∈ (recall_block f).data
    unfold recall_block
    rw [String.data_append, String.data_append]
    exact List.mem_append_left _ (List.mem_append_left _ (by decide)))
  simp at this

/-- C4 (amended): the initial rolling input is the normalized history,
then the injected context blocks — a subsequence of
`developer_instructions`, rendered `turn_context`, `user_instructions`,
`environment_context`, in that order — then the new user message; and when
a recalled focus-slot text exists, the `<context_ledger_focus>` message is
appended *last*, after the new user message (not before the other blocks),
unless its tag is already present. -/
theorem initial_input_order (env : String → Except ModelErrorE String)
    (items : List InputItem) (options : UserTurnOptions) (init : List Json)
    (hinit : build_initial_input env items options = .ok init) :
    (∃ middle userMsg,
        init = normalize_history_items options.history_items ++ middle ++ [userMsg]
        ∧ List.Sublist middle (candidate_blocks options)
        ∧ build_user_message_input env items = .ok userMsg)
    ∧ ∀ f, buildRollingInput env items options (some f) =
        .ok (init ++
          (if history_contains_block init "context_ledger_focus"
              (wrap_context_block "context_ledger_focus" (strTrim (recall_block f)))
            then []
            else [build_text_message "user"
              (wrap_context_block "context_ledger_focus" (strTrim (recall_block f)))])) := by
  constructor
  · unfold build_initial_input at hinit
    cases hu : build_user_message_input env items with
    | error e =>
      rw [hu] at hinit
      exact absurd hinit (by simp [Bind.bind, Except.bind])
    | ok userMsg =>
      rw [hu] at hinit
      simp only [Bind.bind, Except.bind, Except.ok.injEq] at hinit
      obtain ⟨t1, h1, s1⟩ := maybe_inject_shape
        (normalize_history_items options.history_items)
        "developer_instructions" options.developer_instructions "developer"
      have step2 : ∃ t2,
          (match render_turn_context_block options.turn_context with
            | some turn_context_text =>
              maybe_inject_context_block
                (normalize_history_items options.history_items ++ t1)
                "turn_context" (some turn_context_text) "developer"
            | none => normalize_history_items options.history_items ++ t1) =
            (normalize_history_items options.history_items ++ t1) ++ t2
          ∧ List.Sublist t2 (contextBlockCandidate "turn_context"
              (render_turn_context_block options.turn_context) "developer") := by
        cases hr : render_turn_context_block options.turn_context with
        | none => exact ⟨[], by simp, by simp [contextBlockCandidate]⟩
        | some t =>
          obtain ⟨t2, h2, s2⟩ := maybe_inject_shape
            (normalize_history_items options.history_items ++ t1) "turn_context"
            (some t) "developer"
          exact ⟨t2, h2, s2⟩
      obtain ⟨t2, h2, s2⟩ := step2
      obtain ⟨t3, h3, s3⟩ := maybe_inject_shape
        ((normalize_history_items options.history_items ++ t1) ++ t2)
        "user_instructions" options.user_instructions "user"
      obtain ⟨t4, h4, s4⟩ := maybe_inject_shape
        (((normalize_history_items options.history_items ++ t1) ++ t2) ++ t3)
        "environment_context" options.environment_context "user"
      refine ⟨t1 ++ t2 ++ t3 ++ t4, userMsg, ?_, ?_, rfl⟩
      · rw [← hinit, h1, h2, h3, h4]
        simp [List.append_assoc]
      · unfold candidate_blocks
        exact ((s1.append s2).append s3).append s4
  · intro f
    unfold buildRollingInput
    rw [hinit]
    simp only [Bind.bind, Except.bind]
    unfold maybe_inject_context_block
    dsimp only
    rw [if_neg (by simp [recall_block_trim_not_empty f])]
    by_cases hcontains : history_contains_block init "context_ledger_focus"
        (wrap_context_block "context_ledger_focus" (strTrim (recall_block f)))
    · rw [if_pos hcontains, if_pos hcontains]
      simp
    · rw [if_neg hcontains, if_neg hcontains]

def c4Env : String → Except ModelErrorE String :=
  fun path => .error (.localImageRead path)

def c4Opts : UserTurnOptions := { developer_instructions := some "DEV" }

def c4DevMsg : Json :=
  build_text_message "developer" (wrap_context_block "developer_instructions" "DEV")

def c4UserMsg : Json :=
  .obj [("role", .str "user"),
        ("content", .arr [.obj [("type", .str "input_text"), ("text", .str "hi")]])]

def c4FocusMsg : Json :=
  build_text_message "user"
    (wrap_context_block "context_ledger_focus" (strTrim (recall_block "FOCUS")))

set_option maxRecDepth 8000 in
/-- C4 counterexample: with history empty, `developer_instructions = "DEV"`
and a recalled focus text, the rolling input is
`[developer block, user message, focus block]` — the focus block is *last*,
not injected before `developer_instructions`, and the new user message is
*not* the final element as the claim states. -/
theorem initial_input_order_counterexample :
    buildRollingInput c4Env [.text "hi"] c4Opts (some "FOCUS")
        = .ok [c4DevMsg, c4UserMsg, c4FocusMsg]
    ∧ [c4DevMsg, c4UserMsg, c4FocusMsg].getLast? = some c4FocusMsg
    ∧ [c4DevMsg, c4UserMsg, c4FocusMsg].head? = some c4DevMsg
    ∧ c4FocusMsg ≠ c4UserMsg
    ∧ c4FocusMsg ≠ c4DevMsg := by decide

theorem initial_input_order_witness :
    build_initial_input c4Env [.text "hi"] c4Opts = .ok [c4DevMsg, c4UserMsg]
    ∧ ((∃ middle userMsg,
        ([c4DevMsg, c4UserMsg] : List Json)
            = normalize_history_items c4Opts.history_items ++ middle ++ [userMsg]
        ∧ List.Sublist middle (candidate_blocks c4Opts)
        ∧ build_user_message_input c4Env [.text "hi"] = .ok userMsg)
      ∧ ∀ f, buildRollingInput c4Env [.text "hi"] c4Opts (some f) =
          .ok (([c4DevMsg, c4UserMsg] : List Json) ++
            (if history_contains_block [c4DevMsg, c4UserMsg] "context_ledger_focus"
                (wrap_context_block "context_ledger_focus" (strTrim (recall_block f)))
              then []
              else [build_text_message "user"
                (wrap_context_block "context_ledger_focus"
                  (strTrim (recall_block f)))]))) :=
  ⟨by decide,
    initial_input_order c4Env [.text "hi"] c4Opts [c4DevMsg, c4UserMsg] (by decide)⟩

/-! ## C7/C9: the tool-call loop and its progress sequencing

The loop of `complete_with_options` (kernel-model lines 136-302) interacts
with the environment only through `send_responses_request` (an HTTP
exchange, whose parsed result is a `RoundScript` here) and
`execute_single_tool_call` (a daemon HTTP exchange, whose outcome is
scripted per call).  Everything else — replay filtering, token estimation,
event construction, the `progress_seq` counter and the 64-round bound — is
translated below. -/

/-- `FunctionCallItem` (kernel-model lines 778-783). -/
structure FunctionCallItem where
  call_id : String
  name : String
  arguments : String
  deriving DecidableEq, Repr

/-- `ToolBinding` (kernel-model lines 785-791). -/
structure ToolBinding where
  runtime_name : String
  model_name : String
  description : Option String := none
  input_schema : Option Json := none
  deriving DecidableEq, Repr

/-- `resolve_runtime_tool_name` (kernel-model lines 1356-1363). -/
def resolve_runtime_tool_name (model_name : String) (bindings : List ToolBinding) :
    String :=
  match bindings.find? fun binding => binding.model_name = model_name with
  | some binding => binding.runtime_name
  | none => model_name

/-- `next_progress_seq` (kernel-model lines 874-877): `u64::saturating_add`. -/
def next_progress_seq (progress_seq : Nat) : Nat :=
  min (progress_seq + 1) (2 ^ 64 - 1)

/-- `should_replay_reasoning_items` (kernel-model lines 847-854). -/
def should_replay_reasoning_items (responses : Option ResponsesRequestOptions) : Bool :=
  match responses.bind (·.reasoning) with
  | none => true
  | some reasoning =>
    reasoning.enabled.getD true && reasoning.include_encrypted_content.getD true

/-- `filter_history_items_for_replay` (kernel-model lines 856-868). -/
def filter_history_items_for_replay (history_items : List Json)
    (include_reasoning_items : Bool) : List Json :=
  history_items.filter fun item =>
    include_reasoning_items || (item.getStrD "type" != "reasoning")

mutual
/-- `estimate_chars_in_json` (kernel-model lines 1555-1567); string lengths
are UTF-8 byte counts (`String::len`). -/
def estimate_chars_in_json : Json → Nat
  | .null => 0
  | .bool _ => 1
  | .num _ => 8
  | .str text => text.utf8ByteSize
  | .arr items => estimateCharsList items
  | .obj fields => estimateCharsFields fields

def estimateCharsList : List Json → Nat
  | [] => 0
  | item :: rest => estimate_chars_in_json item + estimateCharsList rest

def estimateCharsFields : List (String × Json) → Nat
  | [] => 0
  | (key, item) :: rest =>
    key.utf8ByteSize + estimate_chars_in_json item + estimateCharsFields rest
end

/-- `estimate_tokens_in_history` (kernel-model lines 1536-1542):
`ceil(chars / 4)` (exact as the `f64` computation for any realistic size). -/
def estimate_tokens_in_history (history : List Json) : Nat :=
  (estimateCharsList history + 3) / 4

/-- `is_ledger_focus_history_item` (kernel-model lines 1702-1706). -/
def is_ledger_focus_history_item (item : Json) : Bool :=
  match extract_text_from_history_item item with
  | some text => strContains text "<context_ledger_focus>"
  | none => false

/-- `estimate_tokens_excluding_ledger_focus` (kernel-model lines 1544-1553). -/
def estimate_tokens_excluding_ledger_focus (history : List Json) : Nat :=
  (estimateCharsList (history.filter fun item => !is_ledger_focus_history_item item)
    + 3) / 4

/-- The scripted outcome of one `execute_single_tool_call` daemon exchange:
the call the model requested, the daemon's result (`Ok(result)` or the
rendered error message), and the measured duration. -/
structure ToolCallScript where
  call : FunctionCallItem
  outcome : Except String Json
  duration_ms : Nat := 0
  deriving DecidableEq, Repr

/-- One parsed model response (`ParsedResponse`, kernel-model lines
758-769), with each function call paired with its scripted daemon outcome. -/
structure RoundScript where
  output_text : Option String := none
  calls : List ToolCallScript := []
  history_items : List Json := []
  reasoning : List String := []
  finish_reason : Option String := none
  response_status : Option String := none
  response_incomplete_reason : Option String := none
  response_id : Option String := none
  input_tokens : Option Nat := none
  output_tokens : Option Nat := none
  total_tokens : Option Nat := none
  deriving DecidableEq, Repr

/-- `execute_function_calls` (kernel-model lines 506-624): for each call in
order, bump `progress_seq` and emit `ToolCall`, then bump again and emit
`ToolResult` or `ToolError`; collect the `function_call_output` items.
`parseArgs` stands for `parse_function_arguments` (serde).  Returns the
final counter, the emitted events and the output items. -/
def execute_function_calls (parseArgs : String → Json) (bindings : List ToolBinding)
    (progress_seq : Nat) :
    List ToolCallScript → Nat × List EventMsg × List Json
  | [] => (progress_seq, [], [])
  | script :: rest =>
    let runtime_tool_name := resolve_runtime_tool_name script.call.name bindings
    let tool_input_snapshot := parseArgs script.call.arguments
    let tool_call_seq := next_progress_seq progress_seq
    let callEvent : EventMsg := .toolCall
      { seq := tool_call_seq, call_id := script.call.call_id
        tool_name := runtime_tool_name, input := tool_input_snapshot }
    let (outcome_seq, outcomeEvent, output_payload) :=
      match script.outcome with
      | .ok result =>
        let tool_result_seq := next_progress_seq tool_call_seq
        (tool_result_seq,
          EventMsg.toolResult
            { seq := tool_result_seq, call_id := script.call.call_id
              tool_name := runtime_tool_name, output := result
              duration_ms := script.duration_ms },
          Json.obj [("ok", .bool true), ("tool", .str runtime_tool_name),
            ("result", result)])
      | .error message =>
        let tool_error_seq := next_progress_seq tool_call_seq
        (tool_error_seq,
          EventMsg.toolError
            { seq := tool_error_seq, call_id := script.call.call_id
              tool_name := runtime_tool_name, error := message
              duration_ms := script.duration_ms },
          Json.obj [("ok", .bool false), ("tool", .str runtime_tool_name),
            ("error", .str message)])
    let output_item : Json := .obj [("type", .str "function_call_output"),
      ("call_id", .str script.call.call_id), ("output", .str output_payload.render)]
    let (final_seq, restEvents, restItems) :=
      execute_function_calls parseArgs bindings outcome_seq rest
    (final_seq, callEvent :: outcomeEvent :: restEvents, output_item :: restItems)

/-- The state threaded through the tool-call loop. -/
structure LoopState where
  rolling_input : List Json
  progress_seq : Nat
  events : List EventMsg
  deriving DecidableEq, Repr

/-- The `ModelRound` progress event one loop iteration emits
(kernel-model lines 243-265). -/
def roundEventOf (parsed : RoundScript) (round_no : Nat) (seq : Nat)
    (rolling_input : List Json) (baseline_tokens : Nat)
    (max_input_tokens threshold_percent : Option Nat) : ModelRoundEvent :=
  { seq := seq
    round := round_no + 1
    function_calls_count := parsed.calls.length
    reasoning_count := parsed.reasoning.length
    history_items_count := rolling_input.length
    has_output_text :=
      match parsed.output_text with
      | some text => !(strTrim text).isEmpty
      | none => false
    finish_reason := parsed.finish_reason.orElse fun _ =>
      if !parsed.calls.isEmpty then some "tool_calls"
      else if (match parsed.output_text with
               | some text => !(strTrim text).isEmpty
               | none => false) then some "stop"
      else none
    response_status := parsed.response_status
    response_incomplete_reason := parsed.response_incomplete_reason
    response_id := parsed.response_id
    input_tokens := parsed.input_tokens
    output_tokens := parsed.output_tokens
    total_tokens := parsed.total_tokens
    estimated_tokens_in_context_window :=
      some (estimate_tokens_in_history rolling_input - baseline_tokens)
    estimated_tokens_compactable :=
      some (estimate_tokens_excluding_ledger_focus rolling_input - baseline_tokens)
    context_usage_percent := max_input_tokens.bind fun max =>
      if max = 0 then none
      else some (min ((estimate_tokens_in_history rolling_input - baseline_tokens)
        * 100 / max) 100)
    max_input_tokens := max_input_tokens
    threshold_percent := threshold_percent }

theorem roundEventOf_seq (parsed : RoundScript) (round_no seq : Nat)
    (rolling_input : List Json) (baseline_tokens : Nat)
    (max_input_tokens threshold_percent : Option Nat) :
    (roundEventOf parsed round_no seq rolling_input baseline_tokens
      max_input_tokens threshold_percent).seq = seq := rfl

/-- The loop body of `complete_with_options` (kernel-model lines 158-302):
process up to `remaining` more rounds of the scripted responses, starting at
0-based round number `round_no`.  Returns `none` when the script is
exhausted while the engine would issue another request; otherwise the final
text or error, with the final state.  Ledger bookkeeping appends are
swallowed side logs and omitted. -/
def runLoop (parseArgs : String → Json) (bindings : List ToolBinding)
    (baseline_tokens : Nat) (max_input_tokens : Option Nat)
    (threshold_percent : Option Nat) (include_reasoning_items : Bool) :
    List RoundScript → Nat → Nat → LoopState →
      Option (Except ModelErrorE String × LoopState)
  | _, 0, _, st => some (.error (.toolLoopExceeded MAX_TOOL_LOOP_ROUNDS), st)
  | [], _ + 1, _, _ => none
  | parsed :: rest, remaining + 1, round_no, st =>
    let replay_history_items :=
      filter_history_items_for_replay parsed.history_items include_reasoning_items
    let rolling_input :=
      if replay_history_items.isEmpty then st.rolling_input
      else st.rolling_input ++ replay_history_items
    let model_round_seq := next_progress_seq st.progress_seq
    let roundEvent : EventMsg := .modelRound (roundEventOf parsed round_no
      model_round_seq rolling_input baseline_tokens max_input_tokens
      threshold_percent)
    let st := { st with rolling_input := rolling_input
                        progress_seq := model_round_seq
                        events := st.events ++ [roundEvent] }
    if parsed.calls.isEmpty then
      match parsed.output_text with
      | some text =>
        if !(strTrim text).isEmpty then some (.ok (strTrim text), st)
        else some (.error .emptyOutput, st)
      | none => some (.error .emptyOutput, st)
    else
      let (batch_seq, toolEvents, output_items) :=
        execute_function_calls parseArgs bindings st.progress_seq parsed.calls
      let st := { st with
        rolling_input :=
          if output_items.isEmpty then st.rolling_input
          else st.rolling_input ++ output_items
        progress_seq := batch_seq
        events := st.events ++ toolEvents }
      runLoop parseArgs bindings baseline_tokens max_input_tokens threshold_percent
        include_reasoning_items rest remaining (round_no + 1) st

/-- The whole scripted tool-call loop of a turn, from the initial rolling
input: `progress_seq` starts at 0 (kernel-model line 140) and the round
counter is bounded by `MAX_TOOL_LOOP_ROUNDS` (line 158). -/
def runToolLoop (parseArgs : String → Json) (bindings : List ToolBinding)
    (baseline_tokens : Nat) (max_input_tokens : Option Nat)
    (threshold_percent : Option Nat) (include_reasoning_items : Bool)
    (rounds : List RoundScript) (initial_input : List Json) :
    Option (Except ModelErrorE String × LoopState) :=
  runLoop parseArgs bindings baseline_tokens max_input_tokens threshold_percent
    include_reasoning_items rounds MAX_TOOL_LOOP_ROUNDS 0
    { rolling_input := initial_input, progress_seq := 0, events := [] }

/-- The progress sequence number an emitted event carries (`ModelRound`,
`ToolCall`, `ToolResult`, `ToolError` are the only progress events the loop
emits). -/
def eventSeq : EventMsg → Option Nat
  | .modelRound e => some e.seq
  | .toolCall e => some e.seq
  | .toolResult e => some e.seq
  | .toolError e => some e.seq
  | _ => none

/-- An upper bound on the number of `progress_seq` increments the scripted
rounds can cause: one per round plus two per tool call. -/
def seqBudget : List RoundScript → Nat
  | [] => 0
  | r :: rest => 1 + 2 * r.calls.length + seqBudget rest

theorem range'_pair (s k : Nat) :
    List.range' (s + 1) (k + 2) = (s + 1) :: (s + 2) :: List.range' (s + 2 + 1) k := by
  rw [show k + 2 = (k + 1) + 1 by omega, List.range'_succ, List.range'_succ]

theorem range'_head_append (s m n : Nat) :
    List.range' (s + 1) (1 + m + n)
      = (s + 1) :: (List.range' (s + 2) m ++ List.range' (s + 2 + m) n) := by
  rw [show 1 + m + n = (m + n) + 1 by omega, List.range'_succ, List.range'_append_1]
  have hc : n + m = m + n := by omega
  rw [hc]

theorem execute_function_calls_seq (parseArgs : String → Json)
    (bindings : List ToolBinding) :
    ∀ (calls : List ToolCallScript) (s : Nat),
      s + 2 * calls.length ≤ 2 ^ 64 - 1 →
      (execute_function_calls parseArgs bindings s calls).1 = s + 2 * calls.length
      ∧ (execute_function_calls parseArgs bindings s calls).2.1.filterMap eventSeq
          = List.range' (s + 1) (2 * calls.length)
      ∧ (execute_function_calls parseArgs bindings s calls).2.1.length
          = 2 * calls.length
      ∧ ∀ e ∈ (execute_function_calls parseArgs bindings s calls).2.1,
          (eventSeq e).isSome := by
  intro calls
  induction calls with
  | nil => intro s _; simp [execute_function_calls]
  | cons script rest ih =>
    intro s hbound
    rw [List.length_cons] at hbound
    have hstep1 : next_progress_seq s = s + 1 := by
      unfold next_progress_seq; omega
    have hstep2 : next_progress_seq (s + 1) = s + 2 := by
      unfold next_progress_seq; omega
    have hrest := ih (s + 2) (by omega)
    rcases hrec : execute_function_calls parseArgs bindings (s + 2) rest with
      ⟨fs, revents, ritems⟩
    rw [hrec] at hrest
    simp only at hrest
    have hgoal2 : List.range' (s + 1) (2 * (script :: rest).length)
        = (s + 1) :: (s + 2) :: List.range' (s + 2 + 1) (2 * rest.length) := by
      rw [List.length_cons, show 2 * (rest.length + 1) = 2 * rest.length + 2 by omega,
        range'_pair]
    cases houtcome : script.outcome with
    | ok result =>
      simp only [execute_function_calls, houtcome, hstep1, hstep2, hrec]
      refine ⟨?_, ?_, ?_, ?_⟩
      · rw [hrest.1, List.length_cons]; omega
      · simp only [List.filterMap_cons, eventSeq, hrest.2.1, hgoal2]
      · simp only [List.length_cons, hrest.2.2.1]; omega
      · intro e he
        simp only [List.mem_cons] at he
        rcases he with rfl | rfl | he
        · simp [eventSeq]
        · simp [eventSeq]
        · exact hrest.2.2.2 e he
    | error message =>
      simp only [execute_function_calls, houtcome, hstep1, hstep2, hrec]
      refine ⟨?_, ?_, ?_, ?_⟩
      · rw [hrest.1, List.length_cons]; omega
      · simp only [List.filterMap_cons, eventSeq, hrest.2.1, hgoal2]
      · simp only [List.length_cons, hrest.2.2.1]; omega
      · intro e he
        simp only [List.mem_cons] at he
        rcases he with rfl | rfl | he
        · simp [eventSeq]
        · simp [eventSeq]
        · exact hrest.2.2.2 e he

theorem runLoop_seq (parseArgs : String → Json) (bindings : List ToolBinding)
    (baseline_tokens : Nat) (max_input_tokens : Option Nat)
    (threshold_percent : Option Nat) (include_reasoning_items : Bool) :
    ∀ (remaining : Nat) (rounds : List RoundScript) (round_no : Nat) (st : LoopState)
      (result : Except ModelErrorE String) (final : LoopState),
      runLoop parseArgs bindings baseline_tokens max_input_tokens threshold_percent
          include_reasoning_items rounds remaining round_no st = some (result, final) →
      st.progress_seq + seqBudget rounds ≤ 2 ^ 64 - 1 →
      ∃ newEvents, final.events = st.events ++ newEvents
        ∧ newEvents.filterMap eventSeq
            = List.range' (st.progress_seq + 1) newEvents.length
        ∧ final.progress_seq = st.progress_seq + newEvents.length
        ∧ ∀ e ∈ newEvents, (eventSeq e).isSome := by
  intro remaining
  induction remaining with
  | zero =>
    intro rounds round_no st result final h _
    simp only [runLoop, Option.some.injEq, Prod.mk.injEq] at h
    exact ⟨[], by simp [← h.2], by simp, by simp [← h.2], by simp⟩
  | succ rem ih =>
    intro rounds round_no st result final h hbudget
    cases rounds with
    | nil => exact absurd h (by simp [runLoop])
    | cons parsed rest =>
      have hbudget' : st.progress_seq + (1 + 2 * parsed.calls.length + seqBudget rest)
          ≤ 2 ^ 64 - 1 := by
        have : seqBudget (parsed :: rest)
            = 1 + 2 * parsed.calls.length + seqBudget rest := rfl
        omega
      have hseq1 : next_progress_seq st.progress_seq = st.progress_seq + 1 := by
        unfold next_progress_seq; omega
      rw [runLoop] at h
      dsimp only at h
      rw [hseq1] at h
      by_cases hcalls : parsed.calls.isEmpty
      · rw [if_pos hcalls] at h
        have hAf : ∃ mre : ModelRoundEvent,
            final.events = st.events ++ [.modelRound mre]
            ∧ mre.seq = st.progress_seq + 1
            ∧ final.progress_seq = st.progress_seq + 1 := by
          split at h
          · split at h
            · simp only [Option.some.injEq, Prod.mk.injEq] at h
              rw [← h.2]
              exact ⟨_, rfl, rfl, rfl⟩
            · simp only [Option.some.injEq, Prod.mk.injEq] at h
              rw [← h.2]
              exact ⟨_, rfl, rfl, rfl⟩
          · simp only [Option.some.injEq, Prod.mk.injEq] at h
            rw [← h.2]
            exact ⟨_, rfl, rfl, rfl⟩
        obtain ⟨mre, hev, hmseq, hprog⟩ := hAf
        refine ⟨[.modelRound mre], hev, ?_, by rw [hprog]; simp, by simp [eventSeq]⟩
        simp [eventSeq, hmseq, List.range'_succ]
      · rw [if_neg hcalls] at h
        rcases hbatch : execute_function_calls parseArgs bindings
            (st.progress_seq + 1) parsed.calls with ⟨bseq, bevents, bitems⟩
        rw [hbatch] at h
        dsimp only at h
        have hB := execute_function_calls_seq parseArgs bindings parsed.calls
          (st.progress_seq + 1) (by omega)
        rw [hbatch] at hB
        simp only at hB
        obtain ⟨hbseq, hbfm, hblen, hbsome⟩ := hB
        obtain ⟨newEvents, hev, hfm, hprog, hsome⟩ :=
          ih rest (round_no + 1) _ result final h (by
            show bseq + seqBudget rest ≤ 2 ^ 64 - 1
            omega)
        simp only at hev hfm hprog
        obtain ⟨mre, hev2, hmseq⟩ :
            ∃ mre, final.events
                = st.events ++ [EventMsg.modelRound mre] ++ bevents ++ newEvents
              ∧ mre.seq = st.progress_seq + 1 := ⟨_, hev, rfl⟩
        refine ⟨EventMsg.modelRound mre :: (bevents ++ newEvents), ?_, ?_, ?_, ?_⟩
        · rw [hev2]
          simp [List.append_assoc]
        · simp only [List.filterMap_cons, List.filterMap_append, eventSeq, hbfm, hfm,
            hbseq, hmseq]
          have hlen : (EventMsg.modelRound mre :: (bevents ++ newEvents)).length
              = 1 + bevents.length + newEvents.length := by
            simp only [List.length_cons, List.length_append]
            omega
          rw [hlen, hblen, range'_head_append]
          have e1 : st.progress_seq + 1 + 1 = st.progress_seq + 2 := by omega
          have e2 : st.progress_seq + 1 + 2 * parsed.calls.length + 1
              = st.progress_seq + 2 + 2 * parsed.calls.length := by omega
          rw [e1, e2]
        · rw [hprog, hbseq]
          simp [List.length_cons, List.length_append, hblen]
          omega
        · intro e he
          simp only [List.mem_cons, List.mem_append] at he
          rcases he with rfl | he | he
          · simp [eventSeq]
          · exact hbsome e he
          · exact hsome e he

/-- C7: within a single turn, the progress `seq` values carried by the
emitted `ModelRound`, `ToolCall`, `ToolResult` and `ToolError` events are
exactly `1, 2, …, k` in emission order — no gaps, no repeats, one counter
shared across all four event kinds (provided the turn emits fewer than
`2^64` progress events, the range of the `u64` counter). -/
theorem progress_seq_consecutive (parseArgs : String → Json)
    (bindings : List ToolBinding) (baseline_tokens : Nat)
    (max_input_tokens : Option Nat) (threshold_percent : Option Nat)
    (include_reasoning_items : Bool) (rounds : List RoundScript)
    (initial_input : List Json) (result : Except ModelErrorE String)
    (final : LoopState)
    (h : runToolLoop parseArgs bindings baseline_tokens max_input_tokens
        threshold_percent include_reasoning_items rounds initial_input
        = some (result, final))
    (hbudget : seqBudget rounds ≤ 2 ^ 64 - 1) :
    final.events.filterMap eventSeq = List.range' 1 final.events.length
    ∧ ∀ e ∈ final.events, (eventSeq e).isSome := by
  obtain ⟨newEvents, hev, hfm, _, hsome⟩ :=
    runLoop_seq parseArgs bindings baseline_tokens max_input_tokens
      threshold_percent include_reasoning_items MAX_TOOL_LOOP_ROUNDS rounds 0
      { rolling_input := initial_input, progress_seq := 0, events := [] }
      result final h (by simpa using hbudget)
  simp only [List.nil_append] at hev
  subst hev
  exact ⟨by simpa using hfm, hsome⟩

/-- The number of `ModelRound` events in a list — one per executed round. -/
def modelRoundCount (events : List EventMsg) : Nat :=
  (events.filter fun e => match e with | .modelRound _ => true | _ => false).length

theorem runLoop_all_calls (parseArgs : String → Json) (bindings : List ToolBinding)
    (baseline_tokens : Nat) (max_input_tokens : Option Nat)
    (threshold_percent : Option Nat) (include_reasoning_items : Bool) :
    ∀ (remaining : Nat) (rounds : List RoundScript) (round_no : Nat) (st : LoopState),
      remaining ≤ rounds.length →
      (∀ r ∈ rounds.take remaining, r.calls ≠ []) →
      ∃ final, runLoop parseArgs bindings baseline_tokens max_input_tokens
          threshold_percent include_reasoning_items rounds remaining round_no st
          = some (.error (.toolLoopExceeded MAX_TOOL_LOOP_ROUNDS), final)
        ∧ modelRoundCount final.events = modelRoundCount st.events + remaining := by
  intro remaining
  induction remaining with
  | zero =>
    intro rounds round_no st _ _
    exact ⟨st, by simp [runLoop], by simp⟩
  | succ rem ih =>
    intro rounds round_no st hlen hcalls
    cases rounds with
    | nil => simp at hlen
    | cons parsed rest =>
      have hne : parsed.calls ≠ [] :=
        hcalls parsed (by simp [List.take_succ_cons])
      rw [runLoop]
      dsimp only
      rw [if_neg (by simpa [List.isEmpty_iff] using hne)]
      obtain ⟨final, hrun, hcount⟩ := ih rest (round_no + 1)
        ({ rolling_input := _, progress_seq := _, events := _ })
        (by simpa using hlen)
        (fun r hr => hcalls r (by simp [List.take_succ_cons]; right; exact hr))
      refine ⟨final, hrun, ?_⟩
      rw [hcount]
      have hbatch : ∀ (s : Nat) (calls : List ToolCallScript),
          modelRoundCount (execute_function_calls parseArgs bindings s calls).2.1 = 0 := by
        intro s calls
        induction calls generalizing s with
        | nil => simp [execute_function_calls, modelRoundCount]
        | cons c cs ihc =>
          cases hc : c.outcome <;>
            simp [execute_function_calls, hc, modelRoundCount, List.filter_cons] <;>
            simpa [modelRoundCount] using ihc _
      unfold modelRoundCount at hbatch ⊢
      simp [List.filter_append, hbatch]
      omega

/-- C9 (amended): when every round of the turn requests at least one
function call (so no round terminates the loop early with a final text or
an `EmptyOutput` failure), the engine fails with `ToolLoopExceeded` after
exactly 64 rounds rather than looping further. -/
theorem tool_loop_bounded (parseArgs : String → Json) (bindings : List ToolBinding)
    (baseline_tokens : Nat) (max_input_tokens : Option Nat)
    (threshold_percent : Option Nat) (include_reasoning_items : Bool)
    (rounds : List RoundScript) (initial_input : List Json)
    (hlen : MAX_TOOL_LOOP_ROUNDS ≤ rounds.length)
    (hcalls : ∀ r ∈ rounds.take MAX_TOOL_LOOP_ROUNDS, r.calls ≠ []) :
    ∃ final, runToolLoop parseArgs bindings baseline_tokens max_input_tokens
        threshold_percent include_reasoning_items rounds initial_input
        = some (.error (.toolLoopExceeded MAX_TOOL_LOOP_ROUNDS), final)
      ∧ modelRoundCount final.events = MAX_TOOL_LOOP_ROUNDS := by
  obtain ⟨final, hrun, hcount⟩ :=
    runLoop_all_calls parseArgs bindings baseline_tokens max_input_tokens
      threshold_percent include_reasoning_items MAX_TOOL_LOOP_ROUNDS rounds 0
      { rolling_input := initial_input, progress_seq := 0, events := [] } hlen hcalls
  exact ⟨final, hrun, by simpa [modelRoundCount] using hcount⟩

def c7ParseArgs : String → Json := fun _ => Json.obj []

def c7Call : ToolCallScript :=
  { call := { call_id := "call-1", name := "shell_exec", arguments := "\x7b\x7d" }
    outcome := .ok (.obj [("stdout", .str "/tmp")]) }

def c7Rounds : List RoundScript :=
  [{ calls := [c7Call] }, { output_text := some "final answer" }]

def c7OutputItem : Json :=
  .obj [("type", .str "function_call_output"), ("call_id", .str "call-1"),
    ("output",
      .str "\x7b\"ok\":true,\"tool\":\"shell_exec\",\"result\":\x7b\"stdout\":\"/tmp\"\x7d\x7d")]

def c7Final : LoopState :=
  { rolling_input := [c7OutputItem]
    progress_seq := 4
    events := [
      .modelRound (roundEventOf { calls := [c7Call] } 0 1 [] 0 none none),
      .toolCall { seq := 2, call_id := "call-1", tool_name := "shell_exec"
                  input := .obj [] },
      .toolResult { seq := 3, call_id := "call-1", tool_name := "shell_exec"
                    output := .obj [("stdout", .str "/tmp")], duration_ms := 0 },
      .modelRound (roundEventOf { output_text := some "final answer" } 1 4
        [c7OutputItem] 0 none none)] }

theorem progress_seq_consecutive_witness :
    (runToolLoop c7ParseArgs [] 0 none none true c7Rounds []
        = some (.ok "final answer", c7Final)
      ∧ seqBudget c7Rounds ≤ 2 ^ 64 - 1)
    ∧ (c7Final.events.filterMap eventSeq = List.range' 1 c7Final.events.length
      ∧ ∀ e ∈ c7Final.events, (eventSeq e).isSome) :=
  ⟨⟨by decide, by decide⟩,
    progress_seq_consecutive c7ParseArgs [] 0 none none true c7Rounds []
      (.ok "final answer") c7Final (by decide) (by decide)⟩

/-- C9 counterexample: a first round with no function calls and no output
text makes the engine fail immediately with `EmptyOutput` at round 1 — an
execution in which no round produces a terminal non-empty output text
without function calls, yet which does not fail with `ToolLoopExceeded`
after 64 rounds. -/
theorem tool_loop_counterexample :
    (runToolLoop c7ParseArgs [] 0 none none true [{ output_text := none }] []).map
        Prod.fst = some (.error .emptyOutput)
    ∧ (runToolLoop c7ParseArgs [] 0 none none true [{ output_text := none }] []).map
        (fun p => modelRoundCount p.2.events) = some 1
    ∧ (Except.error ModelErrorE.emptyOutput : Except ModelErrorE String)
        ≠ .error (.toolLoopExceeded MAX_TOOL_LOOP_ROUNDS) := by decide

def c9Round : RoundScript := { calls := [c7Call] }

theorem tool_loop_bounded_witness :
    (MAX_TOOL_LOOP_ROUNDS ≤ (List.replicate 64 c9Round).length
      ∧ ∀ r ∈ (List.replicate 64 c9Round).take MAX_TOOL_LOOP_ROUNDS, r.calls ≠ [])
    ∧ ∃ final, runToolLoop c7ParseArgs [] 0 none none true
          (List.replicate 64 c9Round) []
        = some (.error (.toolLoopExceeded MAX_TOOL_LOOP_ROUNDS), final)
      ∧ modelRoundCount final.events = MAX_TOOL_LOOP_ROUNDS :=
  ⟨⟨by decide, by decide⟩,
    tool_loop_bounded c7ParseArgs [] 0 none none true (List.replicate 64 c9Round) []
      (by decide) (by decide)⟩

/-! ## C6: history compaction (`compact_history`, kernel-model lines 1569-1781) -/

/-- `is_initial_context_block` (kernel-model lines 1690-1696); case-sensitive
`str::contains`. -/
def is_initial_context_block (text : String) : Bool :=
  strContains text "<developer_instructions>"
    || strContains text "<user_instructions>"
    || strContains text "<environment_context>"
    || strContains text "<turn_context>"
    || strContains text "<context_ledger_focus>"

/-- `is_filtered_compact_text` (kernel-model lines 1698-1700). -/
def is_filtered_compact_text (text : String) : Bool :=
  is_initial_context_block text || strContains text "<system_message>"

/-- First index at which `needle` occurs in `hay` (`str::find` for substring
patterns, at character level). -/
def findSubstrIdx (needle : List Char) : List Char → Option Nat
  | [] => if needle.isEmpty then some 0 else none
  | x :: xs =>
    if needle.isPrefixOf (x :: xs) then some 0
    else (findSubstrIdx needle xs).map (· + 1)

/-- `extract_context_block` (kernel-model lines 1724-1732). -/
def extract_context_block (text : String) (block_name : String) : Option String :=
  let start := "<" ++ block_name ++ ">"
  let stop := "</" ++ block_name ++ ">"
  match findSubstrIdx start.data text.data with
  | none => none
  | some start_index =>
    let content_start := start_index + start.length
    match findSubstrIdx stop.data (text.data.drop content_start) with
    | none => none
    | some end_index => some (strTrim ⟨(text.data.drop content_start).take end_index⟩)

/-- The line filter shared by `sanitize_compact_cache_summary` (kernel-model
lines 1708-1722) and the `previous_summary` merge (lines 1759-1769): trim
each line, drop empties and prompt-control lines, join with newlines. -/
def sanitizeSummaryLines (raw : String) : String :=
  strJoin "\n" (((strLines raw).map strTrim).filter fun line =>
    !line.isEmpty && !is_filtered_compact_text line)

/-- `sanitize_compact_cache_summary` (kernel-model lines 1708-1722). -/
def sanitize_compact_cache_summary (summary : Option String) : Option String :=
  match summary with
  | none => none
  | some raw =>
    let sanitized := sanitizeSummaryLines raw
    if (strTrim sanitized).isEmpty then none else some sanitized

/-- The last `n` elements in order (`iter().rev().take(n).rev()`). -/
def lastN (n : Nat) (l : List α) : List α :=
  l.drop (l.length - n)

/-- The fixed lead-in pieces of a compact summary (kernel-model lines
1743-1758). -/
def compactSummaryHeader (compressed_at_ms : Nat) (compressed_at_iso : String)
    (source_time_start source_time_end : Option String) : List String :=
  ["compressed_at_ms=" ++ toString compressed_at_ms,
   "compressed_at_iso=" ++ compressed_at_iso,
   "source_time_start=" ++ source_time_start.getD "unknown",
   "source_time_end=" ++ source_time_end.getD "unknown",
   "timeline_order=ascending",
   "note=Compacted context is a time-ordered copy. Original ledger remains immutable append-only."]

/-- The pieces `build_compact_summary` joins (kernel-model lines 1734-1781). -/
def compactSummaryPieces (previous_summary : Option String) (lines : List String)
    (summary_hint : Option String) (compressed_at_ms : Nat)
    (compressed_at_iso : String) (source_time_start source_time_end : Option String) :
    List String :=
  compactSummaryHeader compressed_at_ms compressed_at_iso source_time_start
      source_time_end
    ++ (match previous_summary with
        | some previous =>
          let merged := sanitizeSummaryLines previous
          if !merged.isEmpty then ["previous_summary=", merged] else []
        | none => [])
    ++ (match summary_hint with
        | some hint => ["hint: " ++ hint]
        | none => [])
    ++ lastN 24 lines

/-- `build_compact_summary` (kernel-model lines 1734-1781). -/
def build_compact_summary (previous_summary : Option String) (lines : List String)
    (summary_hint : Option String) (compressed_at_ms : Nat)
    (compressed_at_iso : String) (source_time_start source_time_end : Option String) :
    String :=
  let pieces := compactSummaryPieces previous_summary lines summary_hint
    compressed_at_ms compressed_at_iso source_time_start source_time_end
  if pieces.isEmpty then "No prior conversation details." else strJoin "\n" pieces

/-- `as_u64` on a JSON number field. -/
def Json.getNat (j : Json) (key : String) : Option Nat :=
  match j.getField key with
  | some (.num q) =>
    if q.den = 1 ∧ 0 ≤ q.num ∧ q.num < 2 ^ 64 then some q.num.toNat else none
  | _ => none

/-- `extract_time_label_from_history_item` (kernel-model lines 1797-1811). -/
def extract_time_label_from_history_item (item : Json) : Option String :=
  let fromStr (field : String) : Option String :=
    match item.getStr field with
    | some text => if (strTrim text).isEmpty then none else some (strTrim text)
    | none => none
  let fromNat (field : String) : Option String :=
    (item.getNat field).map toString
  (((((( fromStr "timestamp_iso").orElse fun _ => fromStr "timestamp").orElse
    fun _ => fromStr "created_at").orElse fun _ => fromStr "time").orElse
    fun _ => fromNat "timestamp_ms").orElse fun _ => fromNat "time_ms").orElse
    fun _ => fromNat "created_at_ms"

/-- `extract_history_time_bounds` (kernel-model lines 1783-1795). -/
def extract_history_time_bounds (history : List Json) :
    Option String × Option String :=
  history.foldl
    (fun acc item =>
      match extract_time_label_from_history_item item with
      | some label => (acc.1.orElse fun _ => some label, some label)
      | none => acc)
    (none, none)

/-- Whether a history item counts as an initial context block for compaction
(kernel-model lines 1599-1603). -/
def isInitialContextItem (item : Json) : Bool :=
  item.getStrD "role" = "user"
    && (match extract_text_from_history_item item with
        | some text => is_initial_context_block text
        | none => false)

/-- The accumulators of the scan over the history inside `compact_history`
(kernel-model lines 1588-1643). -/
structure CompactScan where
  initial_context_blocks : List Json := []
  user_messages : List Json := []
  narrative_lines : List String := []
  previous_summary : Option String := none
  deriving DecidableEq, Repr

/-- One step of the history scan of `compact_history`
(kernel-model lines 1595-1643). -/
def compactScanStep (acc : CompactScan) (item : Json) : CompactScan :=
  let role := item.getStrD "role"
  let text := extract_text_from_history_item item
  if isInitialContextItem item then
    if acc.initial_context_blocks.contains item then acc
    else { acc with
      initial_context_blocks := acc.initial_context_blocks ++ [item] }
  else if (match text with
           | some t => is_filtered_compact_text t
           | none => false) then acc
  else
    match text.bind fun raw => extract_context_block raw "history_summary" with
    | some summary_text =>
      let normalized := (sanitize_compact_cache_summary (some summary_text)).getD ""
      if !(strTrim normalized).isEmpty then { acc with previous_summary := some normalized }
      else acc
    | none =>
      let acc :=
        if role = "user" then { acc with user_messages := acc.user_messages ++ [item] }
        else acc
      match text with
      | some content =>
        let normalized := strTrim (strReplaceChar content '\n' ' ')
        if !normalized.isEmpty then
          { acc with narrative_lines :=
              acc.narrative_lines ++ ["[" ++ role ++ "] " ++ normalized] }
        else acc
      | none => acc

def compact_scan (history : List Json) : CompactScan :=
  history.foldl compactScanStep {}

/-- `CompactResult` (kernel-model lines 1569-1576). -/
structure CompactResult where
  history : List Json
  summary : Option String
  compressed_at_ms : Nat
  compressed_at_iso : String
  source_time_start : Option String
  source_time_end : Option String
  deriving DecidableEq, Repr

/-- The assistant message carrying the `<history_summary>` block
(kernel-model lines 1670-1678). -/
def summaryMessage (summary_text : String) : Json :=
  .obj [("role", .str "assistant"),
        ("content", .arr [.obj [("type", .str "output_text"),
          ("text", .str (wrap_context_block "history_summary" summary_text))]])]

/-- `compact_history` (kernel-model lines 1578-1688).  `now_ms`/`now_iso`
stand for `now_timestamp_local()`. -/
def compact_history (history : List Json) (compact_cfg : Option CompactConfig)
    (now_ms : Nat) (now_iso : String) : CompactResult :=
  let preserve_user_messages := (compact_cfg.map (·.preserve_user_messages)).getD true
  let summary_hint :=
    match compact_cfg.bind (·.summary_hint) with
    | some text => if (strTrim text).isEmpty then none else some (strTrim text)
    | none => none
  let scan := compact_scan history
  let (source_time_start, source_time_end) := extract_history_time_bounds history
  let kept_user_messages :=
    if preserve_user_messages then scan.user_messages
    else lastN 12 scan.user_messages
  let summary_text := build_compact_summary scan.previous_summary
    scan.narrative_lines summary_hint now_ms now_iso source_time_start
    source_time_end
  { history := scan.initial_context_blocks ++ kept_user_messages
      ++ [summaryMessage summary_text]
    summary := some summary_text
    compressed_at_ms := now_ms
    compressed_at_iso := now_iso
    source_time_start := source_time_start
    source_time_end := source_time_end }

/-! ### Lines, joins and substring occurrences -/

theorem splitChar_ne_nil (c : Char) (l : List Char) : splitChar c l ≠ [] := by
  cases l with
  | nil => simp [splitChar]
  | cons x xs =>
    unfold splitChar
    dsimp only
    split
    · simp
    · split <;> simp

theorem splitChar_cons_self (c : Char) (xs : List Char) :
    splitChar c (c :: xs) = [] :: splitChar c xs := by
  conv => lhs; unfold splitChar
  dsimp only
  rw [if_pos rfl]

theorem splitChar_cons_ne {c x : Char} (h : ¬x = c) (xs : List Char) :
    splitChar c (x :: xs)
      = (x :: (splitChar c xs).headI) :: (splitChar c xs).tail := by
  conv => lhs; unfold splitChar
  dsimp only
  rw [if_neg h]
  rcases hsx : splitChar c xs with _ | ⟨p, ps⟩
  · exact absurd hsx (splitChar_ne_nil c xs)
  · rfl

theorem splitChar_append_sep (c : Char) (x y : List Char) :
    splitChar c (x ++ c :: y) = splitChar c x ++ splitChar c y := by
  induction x with
  | nil => simp [splitChar, splitChar_cons_self]
  | cons a x ih =>
    by_cases hac : a = c
    · subst hac
      rw [List.cons_append, splitChar_cons_self, splitChar_cons_self, ih]
      rfl
    · rw [List.cons_append, splitChar_cons_ne hac, splitChar_cons_ne hac, ih]
      rcases hsx : splitChar c x with _ | ⟨p, ps⟩
      · exact absurd hsx (splitChar_ne_nil c x)
      · simp

theorem mem_splitChar_not_mem (c : Char) (l : List Char) :
    ∀ p ∈ splitChar c l, c ∉ p := by
  induction l with
  | nil => intro p hp; simp [splitChar] at hp; simp [hp]
  | cons x xs ih =>
    intro p hp
    by_cases hxc : x = c
    · subst hxc
      rw [splitChar_cons_self] at hp
      rcases List.mem_cons.mp hp with rfl | hp
      · simp
      · exact ih p hp
    · rw [splitChar_cons_ne hxc] at hp
      rcases hsx : splitChar c xs with _ | ⟨q, qs⟩
      · exact absurd hsx (splitChar_ne_nil c xs)
      · rw [hsx] at hp
        simp only [List.headI, List.tail] at hp
        rcases List.mem_cons.mp hp with rfl | hp
        · intro hmem
          rcases List.mem_cons.mp hmem with rfl | hmem
          · exact hxc rfl
          · exact ih q (hsx ▸ List.mem_cons_self q qs) hmem
        · exact ih p (hsx ▸ List.mem_cons_of_mem q hp)

theorem splitChar_of_not_mem {c : Char} {l : List Char} (h : c ∉ l) :
    splitChar c l = [l] := by
  induction l with
  | nil => rfl
  | cons x xs ih =>
    rw [splitChar_cons_ne (by intro hx; exact h (hx ▸ List.mem_cons_self x xs)),
      ih fun hc => h (List.mem_cons_of_mem x hc)]
    rfl

theorem splitChar_headI_prefix (c : Char) (l : List Char) :
    (splitChar c l).headI <+: l := by
  induction l with
  | nil => simp [splitChar]
  | cons x xs ih =>
    by_cases hxc : x = c
    · subst hxc
      rw [splitChar_cons_self]
      exact List.nil_prefix
    · rw [splitChar_cons_ne hxc]
      simp only [List.headI]
      rw [List.cons_prefix_cons]
      exact ⟨rfl, ih⟩

theorem mem_splitChar_infix (c : Char) (l : List Char) :
    ∀ p ∈ splitChar c l, p <:+: l := by
  induction l with
  | nil => intro p hp; simp [splitChar] at hp; simp [hp]
  | cons x xs ih =>
    intro p hp
    by_cases hxc : x = c
    · subst hxc
      rw [splitChar_cons_self] at hp
      rcases List.mem_cons.mp hp with rfl | hp
      · exact List.nil_infix
      · exact (ih p hp).trans (List.infix_cons (List.infix_refl xs))
    · rw [splitChar_cons_ne hxc] at hp
      rcases hsx : splitChar c xs with _ | ⟨q, qs⟩
      · exact absurd hsx (splitChar_ne_nil c xs)
      · rw [hsx] at hp
        simp only [List.headI, List.tail] at hp
        rcases List.mem_cons.mp hp with rfl | hp
        · have hq : (splitChar c xs).headI <+: xs := splitChar_headI_prefix c xs
          rw [hsx] at hq
          simp only [List.headI] at hq
          exact (List.cons_prefix_cons.mpr ⟨rfl, hq⟩ :
            x :: q <+: x :: xs).isInfix
        · exact (ih p (hsx ▸ List.mem_cons_of_mem q hp)).trans
            (List.infix_cons (List.infix_refl xs))

theorem splitChar_strJoin (ps : List String) (hne : ps ≠ []) :
    splitChar '\n' (strJoin "\n" ps).data
      = ps.flatMap fun p => splitChar '\n' p.data := by
  induction ps with
  | nil => exact absurd rfl hne
  | cons p rest ih =>
    cases rest with
    | nil => simp [strJoin, List.flatMap]
    | cons q qs =>
      show splitChar '\n' (p ++ "\n" ++ strJoin "\n" (q :: qs)).data = _
      have hdata : (p ++ "\n" ++ strJoin "\n" (q :: qs)).data
          = p.data ++ '\n' :: (strJoin "\n" (q :: qs)).data := by
        simp [String.data_append]
      rw [hdata, splitChar_append_sep, ih (by simp)]
      simp [List.flatMap_cons]

theorem prefix_append_elim {t x y : List Char} {c : Char} (hc : c ∉ t)
    (h : t <+: x ++ c :: y) : t <+: x := by
  induction x generalizing t with
  | nil =>
    cases t with
    | nil => exact List.nil_prefix
    | cons a t' =>
      rw [List.nil_append, List.cons_prefix_cons] at h
      obtain ⟨hac, -⟩ := h
      subst hac
      exact absurd (List.mem_cons_self _ _) hc
  | cons b x' ih =>
    cases t with
    | nil => exact List.nil_prefix
    | cons a t' =>
      rw [List.cons_append, List.cons_prefix_cons] at h
      obtain ⟨hab, h2⟩ := h
      subst hab
      rw [List.cons_prefix_cons]
      exact ⟨rfl, ih (fun hm => hc (List.mem_cons_of_mem _ hm)) h2⟩

theorem infix_append_elim {t x y : List Char} {c : Char} (hc : c ∉ t)
    (h : t <:+: x ++ c :: y) : t <:+: x ∨ t <:+: y := by
  induction x with
  | nil =>
    simp only [List.nil_append] at h
    rcases List.infix_cons_iff.mp h with hp | hi
    · cases t with
      | nil => exact Or.inl List.nil_infix
      | cons a t' =>
        obtain ⟨r, hr⟩ := hp
        simp only [List.cons_append] at hr
        cases hr
        exact absurd (List.mem_cons_self _ _) hc
    · exact Or.inr hi
  | cons b x' ih =>
    rcases List.infix_cons_iff.mp h with hp | hi
    · exact Or.inl (prefix_append_elim hc (by simpa using hp)).isInfix
    · rcases ih hi with hx | hy
      · exact Or.inl (hx.trans (List.infix_cons (List.infix_refl x')))
      · exact Or.inr hy

theorem infix_append_right_of_head {t a b : List Char} {c : Char}
    (hhead : t.head? = some c) (hca : c ∉ a) (h : t <:+: a ++ b) : t <:+: b := by
  induction a with
  | nil => simpa using h
  | cons x a' ih =>
    rcases List.infix_cons_iff.mp h with hp | hi
    · cases t with
      | nil => simp at hhead
      | cons u t' =>
        rw [List.cons_prefix_cons] at hp
        simp only [List.head?_cons, Option.some.injEq] at hhead
        exact absurd (by rw [← hhead, hp.1]; exact List.mem_cons_self x a') hca
    · exact ih (fun hm => hca (List.mem_cons_of_mem _ hm)) hi

theorem strTrim_data_infix (s : String) : (strTrim s).data <:+: s.data := by
  show (((s.data.dropWhile Char.isWhitespace).reverse.dropWhile
    Char.isWhitespace).reverse) <:+: s.data
  have h1 : s.data.dropWhile Char.isWhitespace <:+ s.data :=
    List.dropWhile_suffix _
  have h2 : ((s.data.dropWhile Char.isWhitespace).reverse.dropWhile
      Char.isWhitespace).reverse <+: s.data.dropWhile Char.isWhitespace := by
    rw [← List.reverse_suffix]
    simpa using List.dropWhile_suffix (l := (s.data.dropWhile Char.isWhitespace).reverse)
      Char.isWhitespace
  exact h2.isInfix.trans h1.isInfix

theorem replaceChar_data (s : String) (a b : Char) :
    (strReplaceChar s a b).data = s.data.map fun c => if c = a then b else c := rfl

theorem infix_replaceChar_elim {t : List Char} {s : String}
    (hsp : ' ' ∉ t) (h : t <:+: (strReplaceChar s '\n' ' ').data) :
    t <:+: s.data := by
  rw [replaceChar_data] at h
  obtain ⟨pre, post, hsplit⟩ := h
  obtain ⟨s1, s2, hs, h1, h2⟩ := List.append_eq_map_iff.mp hsplit
  obtain ⟨s11, s12, hs1, h11, h12⟩ := List.map_eq_append_iff.mp h1
  have hmt : s12.map (fun c => if c = '\n' then ' ' else c) = t := h12
  have hnl : ∀ c ∈ s12, c ≠ '\n' := by
    intro c hcm hceq
    apply hsp
    rw [← hmt]
    exact List.mem_map.mpr ⟨c, hcm, by simp [hceq]⟩
  have hfe : s12.map (fun c => if c = '\n' then ' ' else c) = s12.map id := by
    apply List.map_congr_left
    intro a ha
    simp [hnl a ha]
  have hst : s12 = t := by rw [← hmt, hfe, List.map_id]
  subst hst
  exact ⟨s11, s2, by rw [hs, hs1]⟩

theorem strLines_mem {s line : String} (h : line ∈ strLines s) :
    ∃ p ∈ splitChar '\n' s.data, line.data = p ∨ line.data = p.dropLast := by
  unfold strLines at h
  dsimp only at h
  set pieces := splitChar '\n' s.data with hpieces
  have hsub : ∀ q, (q ∈ (match pieces.getLast? with
      | some [] => pieces.dropLast
      | _ => pieces)) → q ∈ pieces := by
    intro q hq
    split at hq
    · exact (List.dropLast_sublist pieces).mem hq
    · exact hq
  obtain ⟨p, hp, hline⟩ := List.mem_map.mp h
  refine ⟨p, hsub p hp, ?_⟩
  split at hline
  · right; rw [← hline]
  · left; rw [← hline]

/-- The six prompt-control tags tested by `is_filtered_compact_text`. -/
def tagList : List String :=
  ["<developer_instructions>", "<user_instructions>", "<environment_context>",
   "<turn_context>", "<context_ledger_focus>", "<system_message>"]

theorem is_filtered_eq_false_iff (s : String) :
    is_filtered_compact_text s = false
      ↔ ∀ t ∈ tagList, ¬ (t.data <:+: s.data) := by
  simp only [tagList, List.mem_cons, List.not_mem_nil, or_false, forall_eq_or_imp,
    forall_eq, is_filtered_compact_text, is_initial_context_block, strContains,
    Bool.or_eq_false_iff, decide_eq_false_iff_not]
  tauto

theorem tag_head : ∀ t ∈ tagList, t.data.head? = some '<' := by decide

theorem tag_chars : ∀ t ∈ tagList,
    '<' ∈ t.data ∧ t.data ≠ [] ∧ ' ' ∉ t.data ∧ '\n' ∉ t.data ∧ ']' ∉ t.data := by
  decide

theorem no_tag_of_no_lt {l : List Char} (h : '<' ∉ l) :
    ∀ t ∈ tagList, ¬ (t.data <:+: l) := fun t ht hinf =>
  h (hinf.subset (tag_chars t ht).1)

theorem digitChar_ne_lt (n : Nat) : Nat.digitChar n ≠ '<' := by
  by_cases h : n < 16
  · interval_cases n <;> decide
  · have e0 : ¬ n = 0 := by omega
    have e1 : ¬ n = 1 := by omega
    have e2 : ¬ n = 2 := by omega
    have e3 : ¬ n = 3 := by omega
    have e4 : ¬ n = 4 := by omega
    have e5 : ¬ n = 5 := by omega
    have e6 : ¬ n = 6 := by omega
    have e7 : ¬ n = 7 := by omega
    have e8 : ¬ n = 8 := by omega
    have e9 : ¬ n = 9 := by omega
    have ea : ¬ n = 10 := by omega
    have eb : ¬ n = 11 := by omega
    have ec : ¬ n = 12 := by omega
    have ed : ¬ n = 13 := by omega
    have ee : ¬ n = 14 := by omega
    have ef : ¬ n = 15 := by omega
    simp only [Nat.digitChar, if_neg e0, if_neg e1, if_neg e2, if_neg e3,
      if_neg e4, if_neg e5, if_neg e6, if_neg e7, if_neg e8, if_neg e9,
      if_neg ea, if_neg eb, if_neg ec, if_neg ed, if_neg ee, if_neg ef]
    decide

theorem toDigitsCore_no_lt (b : Nat) :
    ∀ (fuel n : Nat) (acc : List Char), '<' ∉ acc →
      '<' ∉ Nat.toDigitsCore b fuel n acc := by
  intro fuel
  induction fuel with
  | zero => intro n acc hacc; exact hacc
  | succ f ih =>
    intro n acc hacc
    unfold Nat.toDigitsCore
    dsimp only
    split
    · intro hm
      rcases List.mem_cons.mp hm with h | h
      · exact digitChar_ne_lt _ h.symm
      · exact hacc h
    · exact ih _ _ (fun hm => by
        rcases List.mem_cons.mp hm with h | h
        · exact digitChar_ne_lt _ h.symm
        · exact hacc h)

theorem natRepr_no_lt (n : Nat) : '<' ∉ (toString n).data :=
  toDigitsCore_no_lt 10 (n + 1) n [] (by simp)

theorem mem_strLines_of_mem_splitChar {s : String} {p : List Char}
    (hp : p ∈ splitChar '\n' s.data) (hne : p ≠ [])
    (hr : p.getLast? ≠ some '\r') : (⟨p⟩ : String) ∈ strLines s := by
  unfold strLines
  dsimp only
  have hstep : p ∈ (match (splitChar '\n' s.data).getLast? with
      | some [] => (splitChar '\n' s.data).dropLast
      | _ => splitChar '\n' s.data) := by
    split
    · next hlast =>
      have hcons : (splitChar '\n' s.data).dropLast
            ++ [(splitChar '\n' s.data).getLast (by
              intro hnil
              rw [hnil] at hlast
              simp at hlast)]
          = splitChar '\n' s.data := List.dropLast_concat_getLast _
      have hlastval : (splitChar '\n' s.data).getLast (by
          intro hnil
          rw [hnil] at hlast
          simp at hlast) = [] := by
        have := List.getLast?_eq_getLast (splitChar '\n' s.data) (by
          intro hnil
          rw [hnil] at hlast
          simp at hlast)
        rw [this] at hlast
        exact Option.some.inj hlast
      rw [← hcons] at hp
      rcases List.mem_append.mp hp with hmem | hmem
      · exact hmem
      · rw [hlastval] at hmem
        simp at hmem
        exact absurd hmem hne
    · exact hp
  refine List.mem_map.mpr ⟨p, hstep, ?_⟩
  dsimp only
  cases hlast : p.getLast? with
  | none => rfl
  | some c =>
    have hcr : c ≠ '\r' := by
      intro hc
      exact hr (by rw [hlast, hc])
    split
    · next heq => exact absurd (Option.some.inj heq) hcr
    · rfl

theorem infix_strJoin_elim {t : List Char} (hnl : '\n' ∉ t) (hne : t ≠ []) :
    ∀ {ps : List String}, t <:+: (strJoin "\n" ps).data → ∃ p ∈ ps, t <:+: p.data := by
  intro ps
  induction ps with
  | nil => intro h; exact absurd (List.eq_nil_of_infix_nil h) hne
  | cons p rest ih =>
    intro h
    cases rest with
    | nil => exact ⟨p, List.mem_cons_self _ _, h⟩
    | cons q qs =>
      have hdata : (strJoin "\n" (p :: q :: qs)).data
          = p.data ++ '\n' :: (strJoin "\n" (q :: qs)).data := by
        show ((p ++ "\n") ++ strJoin "\n" (q :: qs)).data = _
        simp [String.data_append]
      rw [hdata] at h
      rcases infix_append_elim hnl h with hx | hy
      · exact ⟨p, List.mem_cons_self _ _, hx⟩
      · obtain ⟨r, hr, hir⟩ := ih hy
        exact ⟨r, List.mem_cons_of_mem _ hr, hir⟩

theorem strLines_no_newline {s line : String} (h : line ∈ strLines s) :
    '\n' ∉ line.data := by
  obtain ⟨p, hp, hcase⟩ := strLines_mem h
  have hnp : '\n' ∉ p := mem_splitChar_not_mem '\n' s.data p hp
  rcases hcase with h1 | h1
  · rw [h1]; exact hnp
  · rw [h1]; exact fun hm => hnp ((List.dropLast_sublist p).mem hm)

theorem strTrim_no_char {s : String} {c : Char} (h : c ∉ s.data) :
    c ∉ (strTrim s).data := fun hm => h (List.IsInfix.subset ( strTrim_data_infix s) hm)

theorem sanitizeSummaryLines_no_tag (raw : String) :
    ∀ t ∈ tagList, ¬ (t.data <:+: (sanitizeSummaryLines raw).data) := by
  intro t ht hinf
  have hprops := tag_chars t ht
  unfold sanitizeSummaryLines at hinf
  obtain ⟨line, hline, hil⟩ := infix_strJoin_elim hprops.2.2.2.1 hprops.2.1 hinf
  obtain ⟨hmem, hpred⟩ := List.mem_filter.mp hline
  obtain ⟨l0, hl0, hlineq⟩ := List.mem_map.mp hmem
  have hfilt : is_filtered_compact_text line = false := by
    have := (Bool.and_eq_true _ _).mp hpred
    simpa using this.2
  exact (is_filtered_eq_false_iff line).mp hfilt t ht hil

theorem extract_history_time_bounds_mem (history : List Json) :
    ∀ lbl, ((extract_history_time_bounds history).1 = some lbl
        ∨ (extract_history_time_bounds history).2 = some lbl) →
      ∃ item ∈ history, extract_time_label_from_history_item item = some lbl := by
  suffices haux : ∀ (init : Option String × Option String) (lbl : String),
      ((history.foldl (fun acc item =>
          match extract_time_label_from_history_item item with
          | some label => (acc.1.orElse fun _ => some label, some label)
          | none => acc) init).1 = some lbl
        ∨ (history.foldl (fun acc item =>
          match extract_time_label_from_history_item item with
          | some label => (acc.1.orElse fun _ => some label, some label)
          | none => acc) init).2 = some lbl) →
      (init.1 = some lbl ∨ init.2 = some lbl)
        ∨ ∃ item ∈ history, extract_time_label_from_history_item item = some lbl by
    intro lbl h
    rcases haux (none, none) lbl h with hin | hmem
    · simp at hin
    · exact hmem
  induction history with
  | nil => intro init lbl h; exact Or.inl (by simpa using h)
  | cons x xs ih =>
    intro init lbl h
    rw [List.foldl_cons] at h
    rcases ih _ lbl h with hin | hmem
    · rcases hstep : extract_time_label_from_history_item x with _ | lab
      · rw [hstep] at hin
        dsimp only at hin
        exact Or.inl hin
      · rw [hstep] at hin
        dsimp only at hin
        rcases hin with h1 | h2
        · cases hi1 : init.1 with
          | none =>
            rw [hi1] at h1
            simp only [Option.orElse, Option.none_orElse] at h1
            exact Or.inr ⟨x, List.mem_cons_self _ _, by rw [hstep, ← h1]⟩
          | some v =>
            rw [hi1] at h1
            simp only [Option.orElse, Option.some_orElse] at h1
            exact Or.inl (Or.inl h1)
        · exact Or.inr ⟨x, List.mem_cons_self _ _, by rw [hstep, ← h2]⟩
    · obtain ⟨it, hm, he⟩ := hmem
      exact Or.inr ⟨it, List.mem_cons_of_mem _ hm, he⟩

/-- Invariants of the `compact_history` scan, relative to the prefix of the
history already processed. -/
def ScanInv (history : List Json) (sc : CompactScan) : Prop :=
  sc.initial_context_blocks.Nodup
  ∧ (∀ j : Json, j ∈ sc.initial_context_blocks
      ↔ (j ∈ history ∧ isInitialContextItem j = true))
  ∧ (∀ j ∈ sc.user_messages,
      Json.getStrD j "role" = "user" ∧ isInitialContextItem j = false ∧ j ∈ history)
  ∧ (∀ line ∈ sc.narrative_lines, ∃ item ∈ history, ∃ content,
      extract_text_from_history_item item = some content
      ∧ is_filtered_compact_text content = false
      ∧ line = "[" ++ Json.getStrD item "role" ++ "] "
          ++ strTrim (strReplaceChar content '\n' ' '))

theorem scanInv_mono {h : List Json} {item : Json} {acc acc' : CompactScan}
    (hinit : isInitialContextItem item = false)
    (hb : acc'.initial_context_blocks = acc.initial_context_blocks)
    (hu : ∀ j ∈ acc'.user_messages, j ∈ acc.user_messages
        ∨ (j = item ∧ Json.getStrD item "role" = "user"))
    (hn : ∀ line ∈ acc'.narrative_lines, line ∈ acc.narrative_lines
        ∨ ∃ content, extract_text_from_history_item item = some content
            ∧ is_filtered_compact_text content = false
            ∧ line = "[" ++ Json.getStrD item "role" ++ "] "
                ++ strTrim (strReplaceChar content '\n' ' '))
    (hinv : ScanInv h acc) : ScanInv (h ++ [item]) acc' := by
  obtain ⟨hnd, hblocks, husers, hnarr⟩ := hinv
  refine ⟨hb ▸ hnd, ?_, ?_, ?_⟩
  · intro j
    rw [hb, hblocks j, List.mem_append]
    constructor
    · rintro ⟨hj, hji⟩; exact ⟨Or.inl hj, hji⟩
    · rintro ⟨hj | hj, hji⟩
      · exact ⟨hj, hji⟩
      · rw [List.mem_singleton] at hj
        rw [hj, hinit] at hji
        exact absurd hji (by simp)
  · intro j hj
    rcases hu j hj with hold | ⟨rfl, hrole⟩
    · obtain ⟨h1, h2, h3⟩ := husers j hold
      exact ⟨h1, h2, List.mem_append.mpr (Or.inl h3)⟩
    · exact ⟨hrole, hinit, List.mem_append.mpr (Or.inr (List.mem_singleton.mpr rfl))⟩
  · intro line hline
    rcases hn line hline with hold | ⟨content, hc1, hc2, hc3⟩
    · obtain ⟨it, hm, rest⟩ := hnarr line hold
      exact ⟨it, List.mem_append.mpr (Or.inl hm), rest⟩
    · exact ⟨item, List.mem_append.mpr (Or.inr (List.mem_singleton.mpr rfl)),
        content, hc1, hc2, hc3⟩

theorem compactScanStep_inv {h : List Json} {acc : CompactScan} {item : Json}
    (hinv : ScanInv h acc) : ScanInv (h ++ [item]) (compactScanStep acc item) := by
  unfold compactScanStep
  dsimp only
  by_cases hinit : isInitialContextItem item = true
  · obtain ⟨hnd, hblocks, husers, hnarr⟩ := hinv
    rw [if_pos hinit]
    by_cases hcont : acc.initial_context_blocks.contains item = true
    · rw [if_pos hcont]
      refine ⟨hnd, ?_, ?_, ?_⟩
      · intro j
        rw [hblocks j]
        constructor
        · rintro ⟨hj, hji⟩; exact ⟨List.mem_append.mpr (Or.inl hj), hji⟩
        · rintro ⟨hj, hji⟩
          rcases List.mem_append.mp hj with hj | hj
          · exact ⟨hj, hji⟩
          · rw [List.mem_singleton] at hj
            subst hj
            exact (hblocks j).mp (List.elem_iff.mp hcont)
      · intro j hj
        obtain ⟨h1, h2, h3⟩ := husers j hj
        exact ⟨h1, h2, List.mem_append.mpr (Or.inl h3)⟩
      · intro line hl
        obtain ⟨it, hm, rest⟩ := hnarr line hl
        exact ⟨it, List.mem_append.mpr (Or.inl hm), rest⟩
    · rw [if_neg hcont]
      have hnotmem : item ∉ acc.initial_context_blocks := fun hm =>
        hcont (List.elem_iff.mpr hm)
      refine ⟨?_, ?_, ?_, ?_⟩
      · dsimp only
        simpa using List.Nodup.concat hnotmem hnd
      · intro j
        dsimp only
        simp only [List.mem_append, List.mem_singleton, hblocks j]
        constructor
        · rintro (⟨hj, hji⟩ | rfl)
          · exact ⟨Or.inl hj, hji⟩
          · exact ⟨Or.inr rfl, hinit⟩
        · rintro ⟨hj | rfl, hji⟩
          · exact Or.inl ⟨hj, hji⟩
          · exact Or.inr rfl
      · intro j hj
        obtain ⟨h1, h2, h3⟩ := husers j hj
        exact ⟨h1, h2, List.mem_append.mpr (Or.inl h3)⟩
      · intro line hl
        obtain ⟨it, hm, rest⟩ := hnarr line hl
        exact ⟨it, List.mem_append.mpr (Or.inl hm), rest⟩
  · have hinitf : isInitialContextItem item = false := by
      simpa using hinit
    rw [if_neg hinit]
    by_cases hfl : (match extract_text_from_history_item item with
        | some t => is_filtered_compact_text t
        | none => false) = true
    · rw [if_pos hfl]
      exact @scanInv_mono _ _ acc _ hinitf rfl (fun j hj => Or.inl hj)
        (fun l hl => Or.inl hl) hinv
    · rw [if_neg hfl]
      rcases hsum : (extract_text_from_history_item item).bind
          (fun raw => extract_context_block raw "history_summary") with _ | summary_text
      · dsimp only
        rcases htext : extract_text_from_history_item item with _ | content
        · dsimp only
          by_cases hrole : Json.getStrD item "role" = "user"
          · simp only [if_pos hrole]
            refine @scanInv_mono _ _ acc _ hinitf rfl ?_ (fun l hl => Or.inl hl) hinv
            intro j hj
            dsimp only at hj
            rcases List.mem_append.mp hj with hj | hj
            · exact Or.inl hj
            · rw [List.mem_singleton] at hj
              exact Or.inr ⟨hj, hrole⟩
          · simp only [if_neg hrole]
            exact @scanInv_mono _ _ acc _ hinitf rfl (fun j hj => Or.inl hj)
              (fun l hl => Or.inl hl) hinv
        · dsimp only
          rw [htext] at hfl
          dsimp only at hfl
          have hflf : is_filtered_compact_text content = false := by
            simpa using hfl
          by_cases hrole : Json.getStrD item "role" = "user"
          all_goals
            first
            | simp only [if_pos hrole]
            | simp only [if_neg hrole]
          all_goals split
          all_goals refine @scanInv_mono _ _ acc _ hinitf rfl ?_ ?_ hinv
          all_goals
            intro j hj
            try dsimp only at hj
            first
            | (rcases List.mem_append.mp hj with hj | hj
               · exact Or.inl hj
               · rw [List.mem_singleton] at hj
                 first
                 | exact Or.inr ⟨hj, hrole⟩
                 | (subst hj
                    exact Or.inr ⟨content, htext, hflf, rfl⟩))
            | exact Or.inl hj
      · dsimp only
        split
        · exact @scanInv_mono _ _ acc _ hinitf rfl (fun j hj => Or.inl hj)
            (fun l hl => Or.inl hl) hinv
        · exact @scanInv_mono _ _ acc _ hinitf rfl (fun j hj => Or.inl hj)
            (fun l hl => Or.inl hl) hinv

theorem compact_scan_inv (history : List Json) :
    ScanInv history (compact_scan history) := by
  suffices haux : ∀ (pending processed : List Json) (acc : CompactScan),
      ScanInv processed acc →
      ScanInv (processed ++ pending) (pending.foldl compactScanStep acc) by
    have := haux history [] {} (by
      refine ⟨List.nodup_nil, ?_, ?_, ?_⟩ <;> simp)
    simpa [compact_scan] using this
  intro pending
  induction pending with
  | nil => intro processed acc h; simpa using h
  | cons x xs ih =>
    intro processed acc h
    rw [List.foldl_cons]
    have hstep := ih (processed ++ [x]) _ (compactScanStep_inv h)
    have heq : (processed ++ [x]) ++ xs = processed ++ x :: xs := by simp
    rw [heq] at hstep
    exact hstep

theorem tag_not_prefix_cons {t : List Char} {u : Char} {l : List Char}
    (hhead : t.head? = some '<') (hu : u ≠ '<') (hp : t <+: u :: l) : False := by
  cases t with
  | nil => simp at hhead
  | cons a rest =>
    rw [List.cons_prefix_cons] at hp
    simp only [List.head?_cons, Option.some.injEq] at hhead
    exact hu (by rw [← hp.1, hhead])

/-- A narrative line `[role] text` built by the compaction scan carries no
prompt-control tag as long as the role and the source text are clean. -/
theorem narrative_line_no_tag {role content : String}
    (hrole : is_filtered_compact_text role = false)
    (hcontent : is_filtered_compact_text content = false) :
    ∀ t ∈ tagList, ¬ (t.data <:+: ("[" ++ role ++ "] "
        ++ strTrim (strReplaceChar content '\n' ' ')).data) := by
  intro t ht hinf
  obtain ⟨hlt, hne, hsp, hnl, hbr⟩ := tag_chars t ht
  have hhead := tag_head t ht
  have hdata : ("[" ++ role ++ "] " ++ strTrim (strReplaceChar content '\n' ' ')).data
      = ('[' :: role.data)
        ++ ']' :: (' ' :: (strTrim (strReplaceChar content '\n' ' ')).data) := by
    simp [String.data_append]
  rw [hdata] at hinf
  rcases infix_append_elim hbr hinf with hL | hR
  · rcases List.infix_cons_iff.mp hL with hp | hi
    · exact tag_not_prefix_cons hhead (by decide) hp
    · exact (is_filtered_eq_false_iff role).mp hrole t ht hi
  · rcases List.infix_cons_iff.mp hR with hp | hi
    · exact tag_not_prefix_cons hhead (by decide) hp
    · have h1 : t.data <:+: (strReplaceChar content '\n' ' ').data :=
        hi.trans <| strTrim_data_infix _
      exact (is_filtered_eq_false_iff content).mp hcontent t ht
        (infix_replaceChar_elim hsp h1)

/-- No piece joined by `build_compact_summary` contains a prompt-control tag,
as long as the pieces sourced from outside the sanitizer are clean. -/
theorem pieces_no_tag
    {prev : Option String} {narr : List String} {hint : Option String}
    (now_ms : Nat) {now_iso : String} {st se : Option String}
    (hiso : is_filtered_compact_text now_iso = false)
    (hst : ∀ lbl, st = some lbl → is_filtered_compact_text lbl = false)
    (hse : ∀ lbl, se = some lbl → is_filtered_compact_text lbl = false)
    (hhint : ∀ h0, hint = some h0 → is_filtered_compact_text h0 = false)
    (hnarr : ∀ line ∈ narr, ∀ t ∈ tagList, ¬ (t.data <:+: line.data)) :
    ∀ piece ∈ compactSummaryPieces prev narr hint now_ms now_iso st se,
      ∀ t ∈ tagList, ¬ (t.data <:+: piece.data) := by
  intro piece hpiece
  unfold compactSummaryPieces compactSummaryHeader at hpiece
  rcases List.mem_append.mp hpiece with h1 | h4
  · rcases List.mem_append.mp h1 with h2 | h3
    · rcases List.mem_append.mp h2 with hhdr | hprev
      · simp only [List.mem_cons, List.not_mem_nil, or_false] at hhdr
        rcases hhdr with rfl | rfl | rfl | rfl | rfl | rfl
        · refine no_tag_of_no_lt ?_
          rw [String.data_append]
          intro hm
          rcases List.mem_append.mp hm with hm | hm
          · exact absurd hm (by decide)
          · exact natRepr_no_lt now_ms hm
        · exact fun t ht hinf => (is_filtered_eq_false_iff now_iso).mp hiso t ht
            (@infix_append_right_of_head t.data ("compressed_at_iso=").data
              now_iso.data '<' (tag_head t ht) (by decide)
              (by rwa [String.data_append] at hinf))
        · cases hstv : st with
          | none =>
            refine no_tag_of_no_lt ?_
            decide
          | some lbl =>
            exact fun t ht hinf =>
              (is_filtered_eq_false_iff lbl).mp (hst lbl hstv) t ht
                (@infix_append_right_of_head t.data ("source_time_start=").data
                  lbl.data '<' (tag_head t ht) (by decide)
                  (by rwa [String.data_append] at hinf))
        · cases hsev : se with
          | none =>
            refine no_tag_of_no_lt ?_
            decide
          | some lbl =>
            exact fun t ht hinf =>
              (is_filtered_eq_false_iff lbl).mp (hse lbl hsev) t ht
                (@infix_append_right_of_head t.data ("source_time_end=").data
                  lbl.data '<' (tag_head t ht) (by decide)
                  (by rwa [String.data_append] at hinf))
        · refine no_tag_of_no_lt ?_
          decide
        · refine no_tag_of_no_lt ?_
          decide
      · cases hpv : prev with
        | none =>
          rw [hpv] at hprev
          simp at hprev
        | some previous =>
          rw [hpv] at hprev
          dsimp only at hprev
          split at hprev
          · simp only [List.mem_cons, List.not_mem_nil, or_false] at hprev
            rcases hprev with rfl | rfl
            · refine no_tag_of_no_lt ?_
              decide
            · exact sanitizeSummaryLines_no_tag previous
          · simp at hprev
    · cases hhv : hint with
      | none =>
        rw [hhv] at h3
        simp at h3
      | some h0 =>
        rw [hhv] at h3
        simp only [List.mem_cons, List.not_mem_nil, or_false] at h3
        subst h3
        exact fun t ht hinf =>
          (is_filtered_eq_false_iff h0).mp (hhint h0 hhv) t ht
            (@infix_append_right_of_head t.data ("hint: ").data h0.data '<'
              (tag_head t ht) (by decide)
              (by rwa [String.data_append] at hinf))
  · refine hnarr piece ?_
    have hdrop := List.drop_suffix (narr.length - 24) narr
    exact hdrop.subset h4

/-- The trimmed, non-empty `summary_hint` taken from the compact options
(kernel-model lines 1582-1586). -/
def compactSummaryHint (compact_cfg : Option CompactConfig) : Option String :=
  match compact_cfg.bind (fun c => c.summary_hint) with
  | some text => if (strTrim text).isEmpty then none else some (strTrim text)
  | none => none

/-- Unfolding equation of `compact_history` (its tuple-destructuring `let`
blocks plain `rfl` reduction). -/
theorem compact_history_eq (history : List Json) (compact_cfg : Option CompactConfig)
    (now_ms : Nat) (now_iso : String) :
    compact_history history compact_cfg now_ms now_iso =
      { history := (compact_scan history).initial_context_blocks
          ++ (if (compact_cfg.map (fun c => c.preserve_user_messages)).getD true
                then (compact_scan history).user_messages
                else lastN 12 (compact_scan history).user_messages)
          ++ [summaryMessage (build_compact_summary
                (compact_scan history).previous_summary
                (compact_scan history).narrative_lines
                (compactSummaryHint compact_cfg) now_ms now_iso
                (extract_history_time_bounds history).1
                (extract_history_time_bounds history).2)]
        summary := some (build_compact_summary
          (compact_scan history).previous_summary
          (compact_scan history).narrative_lines
          (compactSummaryHint compact_cfg) now_ms now_iso
          (extract_history_time_bounds history).1
          (extract_history_time_bounds history).2)
        compressed_at_ms := now_ms
        compressed_at_iso := now_iso
        source_time_start := (extract_history_time_bounds history).1
        source_time_end := (extract_history_time_bounds history).2 } := by
  unfold compact_history
  rcases hb : extract_history_time_bounds history with ⟨st, se⟩
  rfl

theorem isInitialContextItem_role {j : Json} (h : isInitialContextItem j = true) :
    Json.getStrD j "role" = "user" := by
  unfold isInitialContextItem at h
  exact of_decide_eq_true ((Bool.and_eq_true _ _).mp h).1

theorem summaryMessage_role (s : String) :
    Json.getStrD (summaryMessage s) "role" = "assistant" := rfl

theorem summaryMessage_not_initial (s : String) :
    isInitialContextItem (summaryMessage s) = false := by
  unfold isInitialContextItem
  rw [show Json.getStrD (summaryMessage s) "role" = "assistant" from rfl]
  simp

theorem strTrim_eq_self_of_ends {s : String} {x y : Char} {mid : List Char}
    (hx : ¬ x.isWhitespace) (hy : ¬ y.isWhitespace)
    (hdata : s.data = x :: (mid ++ [y])) : strTrim s = s := by
  unfold strTrim
  rw [hdata]
  rw [List.dropWhile_cons_of_neg hx]
  have hrev : (x :: (mid ++ [y])).reverse = y :: (mid.reverse ++ [x]) := by
    simp
  rw [hrev, List.dropWhile_cons_of_neg hy, ← hrev, List.reverse_reverse]
  exact String.ext hdata.symm

theorem wrap_summary_data (s : String) :
    (wrap_context_block "history_summary" s).data
      = '<' :: (("history_summary".data ++ ">\n".data ++ s.data ++ "\n</".data
          ++ "history_summary".data) ++ ['>']) := by
  unfold wrap_context_block
  simp [String.data_append, show ("<" : String).data = ['<'] from rfl,
    show (">" : String).data = ['>'] from rfl]

theorem extract_text_summaryMessage (s : String) :
    extract_text_from_history_item (summaryMessage s)
      = some (wrap_context_block "history_summary" s) := by
  have htrim : strTrim (wrap_context_block "history_summary" s)
      = wrap_context_block "history_summary" s :=
    strTrim_eq_self_of_ends (by decide) (by decide) (wrap_summary_data s)
  have hne : (wrap_context_block "history_summary" s).isEmpty = false := by
    refine Bool.eq_false_iff.mpr ?_
    intro he
    have hv := (String.isEmpty_iff _).mp he
    have hd := congrArg String.data hv
    rw [wrap_summary_data s] at hd
    exact List.cons_ne_nil _ _ hd
  have hpart : extract_part_text (.obj [("type", .str "output_text"),
      ("text", .str (wrap_context_block "history_summary" s))])
      = some (wrap_context_block "history_summary" s) := by
    unfold extract_part_text
    rw [show (Json.obj [("type", Json.str "output_text"),
        ("text", Json.str (wrap_context_block "history_summary" s))]).getStr "text"
        = some (wrap_context_block "history_summary" s) from rfl]
    dsimp only
    rw [htrim, hne]
    rfl
  unfold extract_text_from_history_item
  rw [show (summaryMessage s).getField "content"
      = some (.arr [.obj [("type", .str "output_text"),
          ("text", .str (wrap_context_block "history_summary" s))]]) from rfl]
  dsimp only
  unfold extract_text_from_history_item.firstPartText
  rw [hpart]

/-- **C6** (corrected): for every compaction, the output contains every
original initial-context block exactly once (deduplicated by structural
equality), ends with exactly one assistant message wrapping a
`<history_summary>` block (all items before it are user-role), and the
summary body contains the line `timeline_order=ascending`.  The original
claim that no summary line ever contains `<system_message>` or another
prompt-control tag holds only under the proviso that the strings the
summary copies verbatim from outside the sanitizer — the local timestamp
string, the history items' time labels and roles, and the configured
`summary_hint` — are themselves free of prompt-control tags (the
counterexample shows a hint smuggles a tag through); with
`preserve_user_messages = false` only the most recent 12 collected
non-initial user messages are kept, in order. -/
theorem compact_history_invariants (history : List Json)
    (compact_cfg : Option CompactConfig) (now_ms : Nat) (now_iso : String)
    (hiso : is_filtered_compact_text now_iso = false)
    (hlabel : ∀ item ∈ history, ∀ lbl,
      extract_time_label_from_history_item item = some lbl →
        is_filtered_compact_text lbl = false)
    (hrole : ∀ item ∈ history,
      is_filtered_compact_text (Json.getStrD item "role") = false)
    (hhint : ∀ cfg ∈ compact_cfg, ∀ h0 ∈ cfg.summary_hint,
      is_filtered_compact_text (strTrim h0) = false) :
    ∃ S : String,
      (compact_history history compact_cfg now_ms now_iso).summary = some S
      ∧ (∀ j ∈ history, isInitialContextItem j = true →
          ((compact_history history compact_cfg now_ms now_iso).history).count j = 1)
      ∧ ((compact_history history compact_cfg now_ms now_iso).history).getLast?
          = some (summaryMessage S)
      ∧ extract_text_from_history_item (summaryMessage S)
          = some (wrap_context_block "history_summary" S)
      ∧ Json.getStrD (summaryMessage S) "role" = "assistant"
      ∧ (∀ j ∈ ((compact_history history compact_cfg now_ms now_iso).history).dropLast,
          Json.getStrD j "role" = "user")
      ∧ "timeline_order=ascending" ∈ strLines S
      ∧ (∀ line ∈ strLines S, is_filtered_compact_text line = false)
      ∧ ((compact_cfg.map (fun c => c.preserve_user_messages)).getD true = false →
          (compact_history history compact_cfg now_ms now_iso).history
            = (compact_scan history).initial_context_blocks
              ++ lastN 12 (compact_scan history).user_messages
              ++ [summaryMessage S]
          ∧ List.IsSuffix (lastN 12 (compact_scan history).user_messages)
              (compact_scan history).user_messages
          ∧ (lastN 12 (compact_scan history).user_messages).length
              = min 12 (compact_scan history).user_messages.length
          ∧ ∀ j ∈ (compact_scan history).user_messages,
              Json.getStrD j "role" = "user" ∧ isInitialContextItem j = false
                ∧ j ∈ history) := by
  obtain ⟨hnd, hblocks, husers, hnarr⟩ := compact_scan_inv history
  have hhint' : ∀ h0, compactSummaryHint compact_cfg = some h0 →
      is_filtered_compact_text h0 = false := by
    intro h0 he
    unfold compactSummaryHint at he
    rcases hcb : compact_cfg.bind (fun c => c.summary_hint) with _ | text
    · rw [hcb] at he
      exact absurd he (by simp)
    · rw [hcb] at he
      dsimp only at he
      split at he
      · exact absurd he (by simp)
      · obtain ⟨cfg, hcfg, htext⟩ := Option.bind_eq_some.mp hcb
        have := hhint cfg (Option.mem_def.mpr hcfg) text (Option.mem_def.mpr htext)
        rwa [Option.some.inj he] at this
  have hst : ∀ lbl, (extract_history_time_bounds history).1 = some lbl →
      is_filtered_compact_text lbl = false := by
    intro lbl he
    obtain ⟨item, hm, hext⟩ := extract_history_time_bounds_mem history lbl (Or.inl he)
    exact hlabel item hm lbl hext
  have hse : ∀ lbl, (extract_history_time_bounds history).2 = some lbl →
      is_filtered_compact_text lbl = false := by
    intro lbl he
    obtain ⟨item, hm, hext⟩ := extract_history_time_bounds_mem history lbl (Or.inr he)
    exact hlabel item hm lbl hext
  have hnarrtag : ∀ line ∈ (compact_scan history).narrative_lines,
      ∀ t ∈ tagList, ¬ (t.data <:+: line.data) := by
    intro line hl
    obtain ⟨item, hm, content, hc1, hc2, hc3⟩ := hnarr line hl
    rw [hc3]
    exact narrative_line_no_tag (hrole item hm) hc2
  refine ⟨build_compact_summary (compact_scan history).previous_summary
    (compact_scan history).narrative_lines (compactSummaryHint compact_cfg)
    now_ms now_iso (extract_history_time_bounds history).1
    (extract_history_time_bounds history).2, ?_, ?_, ?_, ?_, ?_, ?_, ?_, ?_, ?_⟩
  · rw [compact_history_eq]
  · intro j hj hji
    rw [compact_history_eq]
    dsimp only
    rw [List.count_append, List.count_append]
    have hjb : j ∈ (compact_scan history).initial_context_blocks :=
      (hblocks j).mpr ⟨hj, hji⟩
    have h1 := List.count_eq_one_of_mem hnd hjb
    have h2 : (if (compact_cfg.map (fun c => c.preserve_user_messages)).getD true
          then (compact_scan history).user_messages
          else lastN 12 (compact_scan history).user_messages).count j = 0 := by
      rw [List.count_eq_zero]
      intro hjk
      have hju : j ∈ (compact_scan history).user_messages := by
        revert hjk
        split
        · exact fun hjk => hjk
        · intro hjk
          exact (List.drop_suffix _ _).subset hjk
      have hfalse := (husers j hju).2.1
      rw [hji] at hfalse
      exact absurd hfalse (by simp)
    have h3 : List.count j [summaryMessage (build_compact_summary
        (compact_scan history).previous_summary
        (compact_scan history).narrative_lines
        (compactSummaryHint compact_cfg) now_ms now_iso
        (extract_history_time_bounds history).1
        (extract_history_time_bounds history).2)] = 0 := by
      rw [List.count_eq_zero, List.mem_singleton]
      intro hjs
      have := summaryMessage_not_initial (build_compact_summary
        (compact_scan history).previous_summary
        (compact_scan history).narrative_lines
        (compactSummaryHint compact_cfg) now_ms now_iso
        (extract_history_time_bounds history).1
        (extract_history_time_bounds history).2)
      rw [← hjs, hji] at this
      exact absurd this (by simp)
    rw [h1, h2, h3]
  · rw [compact_history_eq]
    dsimp only
    exact List.getLast?_concat _
  · exact extract_text_summaryMessage _
  · rfl
  · rw [compact_history_eq]
    dsimp only
    rw [List.dropLast_concat]
    intro j hj
    rcases List.mem_append.mp hj with hjb | hjk
    · exact isInitialContextItem_role ((hblocks j).mp hjb).2
    · have hju : j ∈ (compact_scan history).user_messages := by
        revert hjk
        split
        · exact fun hjk => hjk
        · intro hjk
          exact (List.drop_suffix _ _).subset hjk
      exact (husers j hju).1
  · have hne : compactSummaryPieces (compact_scan history).previous_summary
        (compact_scan history).narrative_lines (compactSummaryHint compact_cfg)
        now_ms now_iso (extract_history_time_bounds history).1
        (extract_history_time_bounds history).2 ≠ [] := by
      intro h
      have hlen := congrArg List.length h
      simp [compactSummaryPieces, compactSummaryHeader] at hlen
    have hSpieces : build_compact_summary (compact_scan history).previous_summary
        (compact_scan history).narrative_lines (compactSummaryHint compact_cfg)
        now_ms now_iso (extract_history_time_bounds history).1
        (extract_history_time_bounds history).2
        = strJoin "\n" (compactSummaryPieces (compact_scan history).previous_summary
            (compact_scan history).narrative_lines (compactSummaryHint compact_cfg)
            now_ms now_iso (extract_history_time_bounds history).1
            (extract_history_time_bounds history).2) := by
      unfold build_compact_summary
      rw [if_neg (by simpa [List.isEmpty_iff] using hne)]
    rw [hSpieces]
    have hmem : "timeline_order=ascending".data
        ∈ splitChar '\n' (strJoin "\n" (compactSummaryPieces
            (compact_scan history).previous_summary
            (compact_scan history).narrative_lines (compactSummaryHint compact_cfg)
            now_ms now_iso (extract_history_time_bounds history).1
            (extract_history_time_bounds history).2)).data := by
      rw [splitChar_strJoin _ hne]
      refine List.mem_flatMap.mpr ⟨"timeline_order=ascending", ?_, ?_⟩
      · simp [compactSummaryPieces, compactSummaryHeader]
      · rw [splitChar_of_not_mem (by decide)]
        simp
    exact mem_strLines_of_mem_splitChar hmem (by decide) (by decide)
  · have hne : compactSummaryPieces (compact_scan history).previous_summary
        (compact_scan history).narrative_lines (compactSummaryHint compact_cfg)
        now_ms now_iso (extract_history_time_bounds history).1
        (extract_history_time_bounds history).2 ≠ [] := by
      intro h
      have hlen := congrArg List.length h
      simp [compactSummaryPieces, compactSummaryHeader] at hlen
    have hSpieces : build_compact_summary (compact_scan history).previous_summary
        (compact_scan history).narrative_lines (compactSummaryHint compact_cfg)
        now_ms now_iso (extract_history_time_bounds history).1
        (extract_history_time_bounds history).2
        = strJoin "\n" (compactSummaryPieces (compact_scan history).previous_summary
            (compact_scan history).narrative_lines (compactSummaryHint compact_cfg)
            now_ms now_iso (extract_history_time_bounds history).1
            (extract_history_time_bounds history).2) := by
      unfold build_compact_summary
      rw [if_neg (by simpa [List.isEmpty_iff] using hne)]
    have hmaster : ∀ p ∈ splitChar '\n' (build_compact_summary
        (compact_scan history).previous_summary
        (compact_scan history).narrative_lines (compactSummaryHint compact_cfg)
        now_ms now_iso (extract_history_time_bounds history).1
        (extract_history_time_bounds history).2).data,
        ∀ t ∈ tagList, ¬ (t.data <:+: p) := by
      intro p hp t ht hinf
      rw [hSpieces, splitChar_strJoin _ hne] at hp
      obtain ⟨piece, hpc, hpp⟩ := List.mem_flatMap.mp hp
      exact pieces_no_tag now_ms hiso hst hse hhint' hnarrtag piece hpc t ht
        (hinf.trans <| mem_splitChar_infix '\n' piece.data p hpp)
    intro line hl
    rw [is_filtered_eq_false_iff]
    intro t ht hinf
    obtain ⟨p, hp, hcase⟩ := strLines_mem hl
    rcases hcase with h1 | h1
    · exact hmaster p hp t ht (h1 ▸ hinf)
    · refine hmaster p hp t ht ?_
      rw [h1] at hinf
      exact hinf.trans (List.dropLast_prefix p).isInfix
  · intro hpres
    have hcond : ¬((compact_cfg.map (fun c => c.preserve_user_messages)).getD true
        = true) := by
      rw [hpres]
      simp
    refine ⟨?_, ?_, ?_, fun j hj => husers j hj⟩
    · rw [compact_history_eq]
      dsimp only
      rw [if_neg hcond]
    · exact List.drop_suffix _ _
    · unfold lastN
      rw [List.length_drop]
      omega

/-- An initial-context block item for the compaction examples. -/
def c6Block : Json :=
  .obj [("role", .str "user"),
        ("content", .arr [.obj [("type", .str "input_text"),
          ("text", .str "<developer_instructions>\nbe kind\n</developer_instructions>")]])]

def c6User : Json :=
  .obj [("role", .str "user"),
        ("content", .arr [.obj [("type", .str "input_text"),
          ("text", .str "hello there")]])]

def c6Asst : Json :=
  .obj [("role", .str "assistant"),
        ("content", .arr [.obj [("type", .str "output_text"),
          ("text", .str "hi!")]])]

def c6History : List Json := [c6Block, c6User, c6Asst]

def c6Cfg : CompactConfig :=
  { manual := false, preserve_user_messages := false, summary_hint := some "note this" }

set_option maxRecDepth 10000 in
/-- **C6** counterexample: a `summary_hint` containing `<system_message>` is
copied verbatim (`hint: {hint}`) into the summary by `build_compact_summary`
(kernel-model line 1772), so a line of the summary body carries a
prompt-control tag, refuting the claim that no summary line ever contains
`<system_message>`. -/
theorem compact_history_hint_counterexample :
    ∃ line ∈ strLines ((compact_history []
        (some { manual := false, preserve_user_messages := true,
                summary_hint := some "<system_message>" })
        5 "2026-01-01T00:00:00").summary.getD ""),
      is_filtered_compact_text line = true := by
  refine ⟨"hint: <system_message>", ?_, by decide⟩
  decide

set_option maxRecDepth 10000 in
theorem compact_history_invariants_witness :
    (is_filtered_compact_text "2026-02-03T04:05:06" = false
      ∧ (∀ item ∈ c6History, ∀ lbl,
          extract_time_label_from_history_item item = some lbl →
            is_filtered_compact_text lbl = false)
      ∧ (∀ item ∈ c6History,
          is_filtered_compact_text (Json.getStrD item "role") = false)
      ∧ (∀ cfg ∈ some c6Cfg, ∀ h0 ∈ cfg.summary_hint,
          is_filtered_compact_text (strTrim h0) = false))
    ∧ (∃ S : String,
      (compact_history c6History (some c6Cfg) 5 "2026-02-03T04:05:06").summary = some S
      ∧ (∀ j ∈ c6History, isInitialContextItem j = true →
          ((compact_history c6History (some c6Cfg) 5 "2026-02-03T04:05:06").history).count j = 1)
      ∧ ((compact_history c6History (some c6Cfg) 5 "2026-02-03T04:05:06").history).getLast?
          = some (summaryMessage S)
      ∧ extract_text_from_history_item (summaryMessage S)
          = some (wrap_context_block "history_summary" S)
      ∧ Json.getStrD (summaryMessage S) "role" = "assistant"
      ∧ (∀ j ∈ ((compact_history c6History (some c6Cfg) 5 "2026-02-03T04:05:06").history).dropLast,
          Json.getStrD j "role" = "user")
      ∧ "timeline_order=ascending" ∈ strLines S
      ∧ (∀ line ∈ strLines S, is_filtered_compact_text line = false)
      ∧ (((some c6Cfg).map (fun c => c.preserve_user_messages)).getD true = false →
          (compact_history c6History (some c6Cfg) 5 "2026-02-03T04:05:06").history
            = (compact_scan c6History).initial_context_blocks
              ++ lastN 12 (compact_scan c6History).user_messages
              ++ [summaryMessage S]
          ∧ List.IsSuffix (lastN 12 (compact_scan c6History).user_messages)
              (compact_scan c6History).user_messages
          ∧ (lastN 12 (compact_scan c6History).user_messages).length
              = min 12 (compact_scan c6History).user_messages.length
          ∧ ∀ j ∈ (compact_scan c6History).user_messages,
              Json.getStrD j "role" = "user" ∧ isInitialContextItem j = false
                ∧ j ∈ c6History)) :=
  have hlabel : ∀ item ∈ c6History, ∀ lbl,
      extract_time_label_from_history_item item = some lbl →
        is_filtered_compact_text lbl = false := by
    intro item him lbl he
    simp only [c6History, List.mem_cons, List.not_mem_nil, or_false] at him
    rcases him with rfl | rfl | rfl
    · rw [show extract_time_label_from_history_item c6Block = none from rfl] at he
      exact Option.noConfusion he
    · rw [show extract_time_label_from_history_item c6User = none from rfl] at he
      exact Option.noConfusion he
    · rw [show extract_time_label_from_history_item c6Asst = none from rfl] at he
      exact Option.noConfusion he
  have hhint : ∀ cfg ∈ some c6Cfg, ∀ h0 ∈ cfg.summary_hint,
      is_filtered_compact_text (strTrim h0) = false := by
    intro cfg hcfg h0 hh0
    have h1 : c6Cfg = cfg := Option.some.inj hcfg
    subst h1
    have h2 : "note this" = h0 := Option.some.inj hh0
    subst h2
    decide
  ⟨⟨by decide, hlabel, by decide, hhint⟩,
    compact_history_invariants c6History (some c6Cfg) 5 "2026-02-03T04:05:06"
      (by decide) hlabel (by decide) hhint⟩

/-! ## C10: `Submission`/`Event` JSON round trip (`kernel-protocol`)

Shallow embedding of the `serde` impls derived in `kernel-protocol`:
each type's `toJson` mirrors `#[derive(Serialize)]` (struct fields in
declaration order, `Option` as `null`/value, internally tagged enums with
a leading `"type"` discriminant in `snake_case`), and each `fromJson`
mirrors `#[derive(Deserialize)]` (`#[serde(default)]` and implicit
`Option` defaults for missing keys, unknown keys ignored).  Rust `u64` /
`usize` are modelled as `Nat` and JSON numbers as exact rationals;
non-finite `f64` serialise as `null`, which is the counterexample. -/

/-- Serialize an `Option`: `None` is `null`. -/
def serOpt (f : α → Json) : Option α → Json
  | none => .null
  | some v => f v

/-- Serialize a `Vec`. -/
def serList (f : α → Json) (xs : List α) : Json :=
  .arr (xs.map f)

/-- Deserialize a `String`. -/
def parseStr : Json → Option String
  | .str s => some s
  | _ => none

/-- Deserialize a `bool`. -/
def parseBool : Json → Option Bool
  | .bool b => some b
  | _ => none

/-- Deserialize a `u64`/`usize` (a non-negative integral JSON number). -/
def parseNat : Json → Option Nat
  | .num q => if q.den = 1 ∧ 0 ≤ q.num then some q.num.toNat else none
  | _ => none

/-- `f64` serialization: `serde_json` renders non-finite floats as `null`. -/
def F64.toJson : F64 → Json
  | .finite q => .num q
  | .nan => .null
  | .inf => .null
  | .neginf => .null

/-- Deserialize an `f64` (any JSON number). -/
def parseF64 : Json → Option F64
  | .num q => some (.finite q)
  | _ => none

/-- Deserialize a `serde_json::Value`: the identity. -/
def parseJson (j : Json) : Option Json :=
  some j

/-- Deserialize an `Option<T>`: `null` is `None`, else the inner value. -/
def parseOpt (g : Json → Option α) (j : Json) : Option (Option α) :=
  if j = .null then some none else (g j).map some

/-- Deserialize a `Vec<T>` element list. -/
def parseListAux (g : Json → Option α) : List Json → Option (List α)
  | [] => some []
  | x :: xs =>
    match g x with
    | none => none
    | some v => (parseListAux g xs).map (v :: ·)

def parseList (g : Json → Option α) : Json → Option (List α)
  | .arr xs => parseListAux g xs
  | _ => none

/-- A field with no default: missing means failure. -/
def parseField (j : Json) (key : String) (g : Json → Option α) : Option α :=
  match j.getField key with
  | none => none
  | some v => g v

/-- A `#[serde(default)]` (or implicitly defaulted `Option`) field. -/
def parseFieldD (j : Json) (key : String) (g : Json → Option α) (d : α) : Option α :=
  match j.getField key with
  | none => some d
  | some v => g v

theorem parseStr_rt (s : String) : parseStr (.str s) = some s := rfl

theorem parseBool_rt (b : Bool) : parseBool (.bool b) = some b := rfl

theorem parseNat_rt (n : Nat) : parseNat (.num (n : ℚ)) = some n := by
  show (if ((n : ℚ)).den = 1 ∧ 0 ≤ ((n : ℚ)).num then some ((n : ℚ)).num.toNat
    else none) = some n
  rw [if_pos (by simp)]
  simp

theorem parseOpt_rt {f : α → Json} {g : Json → Option α}
    (hne : ∀ v : α, f v ≠ .null) (h : ∀ v, g (f v) = some v)
    (o : Option α) : parseOpt g (serOpt f o) = some o := by
  cases o with
  | none => rfl
  | some v =>
    show parseOpt g (f v) = some (some v)
    unfold parseOpt
    rw [if_neg (hne v), h v]
    rfl

theorem parseOptStr_rt (o : Option String) :
    parseOpt parseStr (serOpt Json.str o) = some o :=
  @parseOpt_rt String Json.str parseStr (fun _ h => Json.noConfusion h)
    (fun _ => rfl) o

theorem parseOptBool_rt (o : Option Bool) :
    parseOpt parseBool (serOpt Json.bool o) = some o :=
  @parseOpt_rt Bool Json.bool parseBool (fun _ h => Json.noConfusion h)
    (fun _ => rfl) o

theorem parseOptNat_rt (o : Option Nat) :
    parseOpt parseNat (serOpt (fun (n : Nat) => Json.num (n : ℚ)) o) = some o :=
  @parseOpt_rt Nat (fun (n : Nat) => Json.num (n : ℚ)) parseNat
    (fun _ h => Json.noConfusion h) parseNat_rt o

theorem parseListAux_rt {f : α → Json} {g : Json → Option α}
    (h : ∀ v, g (f v) = some v) (xs : List α) :
    parseListAux g (xs.map f) = some xs := by
  induction xs with
  | nil => rfl
  | cons x xs ih =>
    show parseListAux g (f x :: xs.map f) = some (x :: xs)
    unfold parseListAux
    rw [h x, ih]
    rfl

theorem parseList_rt {f : α → Json} {g : Json → Option α}
    (h : ∀ v, g (f v) = some v) (xs : List α) :
    parseList g (serList f xs) = some xs :=
  parseListAux_rt h xs

theorem parseListStr_rt (xs : List String) :
    parseList parseStr (serList Json.str xs) = some xs :=
  @parseList_rt String Json.str parseStr (fun _ => rfl) xs

theorem parseListJson_rt (xs : List Json) :
    parseList parseJson (serList (fun j => j) xs) = some xs :=
  @parseList_rt Json (fun j => j) parseJson (fun _ => rfl) xs

/-- An `Option<Value>` survives the round trip unless it is `Some(Null)`
(which serializes to `null` and deserializes to `None`). -/
def jsonOptSerializable : Option Json → Bool
  | some .null => false
  | _ => true

theorem parseOptJson_rt {o : Option Json} (h : jsonOptSerializable o = true) :
    parseOpt parseJson (serOpt (fun j => j) o) = some o := by
  cases o with
  | none => rfl
  | some j =>
    show parseOpt parseJson j = some (some j)
    unfold parseOpt
    rw [if_neg (fun hj => by rw [hj] at h; exact absurd h (by decide))]
    rfl

/-- `ToolExecutionConfig` serialization. -/
def ToolExecutionConfig.toJson (t : ToolExecutionConfig) : Json :=
  .obj [("daemon_url", .str t.daemon_url),
        ("agent_id", .str t.agent_id)]

def ToolExecutionConfig.fromJson (j : Json) : Option ToolExecutionConfig := do
  let daemon_url ← parseField j "daemon_url" parseStr
  let agent_id ← parseField j "agent_id" parseStr
  pure { daemon_url := daemon_url, agent_id := agent_id }

theorem toolExecutionConfig_rt (t : ToolExecutionConfig) :
    ToolExecutionConfig.fromJson (ToolExecutionConfig.toJson t) = some t := by
  cases t
  simp [ToolExecutionConfig.toJson, ToolExecutionConfig.fromJson, parseField,
    Json.getField, List.lookup, parseStr]

/-- `ToolSpec` serialization. -/
def ToolSpec.toJson (t : ToolSpec) : Json :=
  .obj [("name", .str t.name),
        ("description", serOpt .str t.description),
        ("input_schema", serOpt (fun j => j) t.input_schema)]

def ToolSpec.fromJson (j : Json) : Option ToolSpec := do
  let name ← parseField j "name" parseStr
  let description ← parseFieldD j "description" (parseOpt parseStr) none
  let input_schema ← parseFieldD j "input_schema" (parseOpt parseJson) none
  pure { name := name, description := description, input_schema := input_schema }

def ToolSpec.serializable (t : ToolSpec) : Bool :=
  jsonOptSerializable t.input_schema

theorem toolSpec_rt (t : ToolSpec) (h : t.serializable = true) :
    ToolSpec.fromJson (ToolSpec.toJson t) = some t := by
  cases t
  simp [ToolSpec.serializable] at h
  simp [ToolSpec.toJson, ToolSpec.fromJson, parseField, parseFieldD,
    Json.getField, List.lookup, parseStr, parseOptStr_rt, parseOptJson_rt h]

theorem parseOptCond_rt {f : α → Json} {g : Json → Option α} {P : α → Bool}
    (hne : ∀ v, f v ≠ .null) (h : ∀ v, P v = true → g (f v) = some v)
    (o : Option α) (ho : o.all P = true) :
    parseOpt g (serOpt f o) = some o := by
  cases o with
  | none => rfl
  | some v =>
    show parseOpt g (f v) = some (some v)
    unfold parseOpt
    rw [if_neg (hne v), h v (by simpa using ho)]
    rfl

theorem parseListCond_rt {f : α → Json} {g : Json → Option α} {P : α → Bool}
    (h : ∀ v, P v = true → g (f v) = some v) :
    ∀ (xs : List α), xs.all P = true →
      parseList g (serList f xs) = some xs := by
  have haux : ∀ (xs : List α), xs.all P = true →
      parseListAux g (xs.map f) = some xs := by
    intro xs
    induction xs with
    | nil => intro _; rfl
    | cons x xs ih =>
      intro hall
      rw [List.all_cons, Bool.and_eq_true] at hall
      show parseListAux g (f x :: xs.map f) = some (x :: xs)
      unfold parseListAux
      rw [h x hall.1, ih hall.2]
      rfl
  exact fun xs hxs => haux xs hxs

/-- Only finite `f64`s survive the JSON round trip. -/
def F64.optFinite : Option F64 → Bool
  | none => true
  | some (.finite _) => true
  | some _ => false

theorem parseOptF64_rt {o : Option F64} (h : F64.optFinite o = true) :
    parseOpt parseF64 (serOpt F64.toJson o) = some o := by
  cases o with
  | none => rfl
  | some f =>
    cases f with
    | finite q =>
      show parseOpt parseF64 (.num q) = some (some (.finite q))
      unfold parseOpt
      rw [if_neg (fun hj => Json.noConfusion hj)]
      rfl
    | nan => exact absurd h (by decide)
    | inf => exact absurd h (by decide)
    | neginf => exact absurd h (by decide)

/-- `ResponsesReasoningOptions` serialization. -/
def ResponsesReasoningOptions.toJson (r : ResponsesReasoningOptions) : Json :=
  .obj [("enabled", serOpt .bool r.enabled),
        ("effort", serOpt .str r.effort),
        ("summary", serOpt .str r.summary),
        ("include_encrypted_content", serOpt .bool r.include_encrypted_content)]

def ResponsesReasoningOptions.fromJson (j : Json) :
    Option ResponsesReasoningOptions := do
  let enabled ← parseFieldD j "enabled" (parseOpt parseBool) none
  let effort ← parseFieldD j "effort" (parseOpt parseStr) none
  let summary ← parseFieldD j "summary" (parseOpt parseStr) none
  let iec ← parseFieldD j "include_encrypted_content" (parseOpt parseBool) none
  pure { enabled := enabled, effort := effort, summary := summary,
         include_encrypted_content := iec }

theorem responsesReasoningOptions_rt (r : ResponsesReasoningOptions) :
    ResponsesReasoningOptions.fromJson (ResponsesReasoningOptions.toJson r)
      = some r := by
  cases r
  simp [ResponsesReasoningOptions.toJson, ResponsesReasoningOptions.fromJson,
    parseFieldD, Json.getField, List.lookup, parseOptStr_rt, parseOptBool_rt]

/-- `ResponsesTextOptions` serialization. -/
def ResponsesTextOptions.toJson (r : ResponsesTextOptions) : Json :=
  .obj [("enabled", serOpt .bool r.enabled),
        ("verbosity", serOpt .str r.verbosity),
        ("output_schema", serOpt (fun j => j) r.output_schema)]

def ResponsesTextOptions.fromJson (j : Json) : Option ResponsesTextOptions := do
  let enabled ← parseFieldD j "enabled" (parseOpt parseBool) none
  let verbosity ← parseFieldD j "verbosity" (parseOpt parseStr) none
  let output_schema ← parseFieldD j "output_schema" (parseOpt parseJson) none
  pure { enabled := enabled, verbosity := verbosity, output_schema := output_schema }

def ResponsesTextOptions.serializable (r : ResponsesTextOptions) : Bool :=
  jsonOptSerializable r.output_schema

theorem responsesTextOptions_rt (r : ResponsesTextOptions)
    (h : r.serializable = true) :
    ResponsesTextOptions.fromJson (ResponsesTextOptions.toJson r) = some r := by
  cases r
  simp [ResponsesTextOptions.serializable] at h
  simp [ResponsesTextOptions.toJson, ResponsesTextOptions.fromJson,
    parseFieldD, Json.getField, List.lookup, parseOptStr_rt, parseOptBool_rt,
    parseOptJson_rt h]

/-- `ResponsesRequestOptions` serialization. -/
def ResponsesRequestOptions.toJson (r : ResponsesRequestOptions) : Json :=
  .obj [("reasoning", serOpt ResponsesReasoningOptions.toJson r.reasoning),
        ("text", serOpt ResponsesTextOptions.toJson r.text),
        ("include", serList .str r.«include»),
        ("store", serOpt .bool r.store),
        ("parallel_tool_calls", serOpt .bool r.parallel_tool_calls)]

def ResponsesRequestOptions.fromJson (j : Json) :
    Option ResponsesRequestOptions := do
  let reasoning ← parseFieldD j "reasoning"
    (parseOpt ResponsesReasoningOptions.fromJson) none
  let text ← parseFieldD j "text" (parseOpt ResponsesTextOptions.fromJson) none
  let inc ← parseFieldD j "include" (parseList parseStr) []
  let store ← parseFieldD j "store" (parseOpt parseBool) none
  let ptc ← parseFieldD j "parallel_tool_calls" (parseOpt parseBool) none
  pure { reasoning := reasoning, text := text, «include» := inc, store := store,
         parallel_tool_calls := ptc }

def ResponsesRequestOptions.serializable (r : ResponsesRequestOptions) : Bool :=
  r.text.all ResponsesTextOptions.serializable

theorem responsesRequestOptions_rt (r : ResponsesRequestOptions)
    (h : r.serializable = true) :
    ResponsesRequestOptions.fromJson (ResponsesRequestOptions.toJson r)
      = some r := by
  cases r
  simp only [ResponsesRequestOptions.serializable] at h
  simp [ResponsesRequestOptions.toJson, ResponsesRequestOptions.fromJson,
    parseFieldD, Json.getField, List.lookup, parseListStr_rt, parseOptBool_rt,
    parseOpt_rt (fun v hv => Json.noConfusion hv) responsesReasoningOptions_rt,
    parseOptCond_rt (fun v hv => Json.noConfusion hv) responsesTextOptions_rt _ h]

/-- `ContextLedgerOptions` serialization. -/
def ContextLedgerOptions.toJson (c : ContextLedgerOptions) : Json :=
  .obj [("enabled", .bool c.enabled),
        ("root_dir", serOpt .str c.root_dir),
        ("agent_id", serOpt .str c.agent_id),
        ("role", serOpt .str c.role),
        ("mode", serOpt .str c.mode),
        ("can_read_all", .bool c.can_read_all),
        ("readable_agents", serList .str c.readable_agents),
        ("focus_enabled", .bool c.focus_enabled),
        ("focus_max_chars", serOpt (fun (n : Nat) => Json.num (n : ℚ)) c.focus_max_chars)]

def ContextLedgerOptions.fromJson (j : Json) : Option ContextLedgerOptions := do
  let enabled ← parseFieldD j "enabled" parseBool false
  let root_dir ← parseFieldD j "root_dir" (parseOpt parseStr) none
  let agent_id ← parseFieldD j "agent_id" (parseOpt parseStr) none
  let role ← parseFieldD j "role" (parseOpt parseStr) none
  let mode ← parseFieldD j "mode" (parseOpt parseStr) none
  let can_read_all ← parseFieldD j "can_read_all" parseBool false
  let readable_agents ← parseFieldD j "readable_agents" (parseList parseStr) []
  let focus_enabled ← parseFieldD j "focus_enabled" parseBool false
  let focus_max_chars ← parseFieldD j "focus_max_chars" (parseOpt parseNat) none
  pure { enabled := enabled, root_dir := root_dir, agent_id := agent_id,
         role := role, mode := mode, can_read_all := can_read_all,
         readable_agents := readable_agents, focus_enabled := focus_enabled,
         focus_max_chars := focus_max_chars }

theorem contextLedgerOptions_rt (c : ContextLedgerOptions) :
    ContextLedgerOptions.fromJson (ContextLedgerOptions.toJson c) = some c := by
  cases c
  simp [ContextLedgerOptions.toJson, ContextLedgerOptions.fromJson,
    parseFieldD, Json.getField, List.lookup, parseBool, parseOptStr_rt,
    parseListStr_rt, parseOptNat_rt]

/-- `TurnContext` serialization. -/
def TurnContext.toJson (t : TurnContext) : Json :=
  .obj [("cwd", serOpt .str t.cwd),
        ("approval", serOpt .str t.approval),
        ("sandbox", serOpt .str t.sandbox),
        ("model", serOpt .str t.model)]

def TurnContext.fromJson (j : Json) : Option TurnContext := do
  let cwd ← parseFieldD j "cwd" (parseOpt parseStr) none
  let approval ← parseFieldD j "approval" (parseOpt parseStr) none
  let sandbox ← parseFieldD j "sandbox" (parseOpt parseStr) none
  let model ← parseFieldD j "model" (parseOpt parseStr) none
  pure { cwd := cwd, approval := approval, sandbox := sandbox, model := model }

theorem turnContext_rt (t : TurnContext) :
    TurnContext.fromJson (TurnContext.toJson t) = some t := by
  cases t
  simp [TurnContext.toJson, TurnContext.fromJson, parseFieldD, Json.getField,
    List.lookup, parseOptStr_rt]

/-- `ContextWindowConfig` serialization. -/
def ContextWindowConfig.toJson (c : ContextWindowConfig) : Json :=
  .obj [("max_input_tokens", serOpt (fun (n : Nat) => Json.num (n : ℚ)) c.max_input_tokens),
        ("baseline_tokens", serOpt (fun (n : Nat) => Json.num (n : ℚ)) c.baseline_tokens),
        ("auto_compact_threshold_ratio", serOpt F64.toJson c.auto_compact_threshold_ratio)]

def ContextWindowConfig.fromJson (j : Json) : Option ContextWindowConfig := do
  let mit ← parseFieldD j "max_input_tokens" (parseOpt parseNat) none
  let bt ← parseFieldD j "baseline_tokens" (parseOpt parseNat) none
  let ratio ← parseFieldD j "auto_compact_threshold_ratio" (parseOpt parseF64) none
  pure { max_input_tokens := mit, baseline_tokens := bt,
         auto_compact_threshold_ratio := ratio }

def ContextWindowConfig.serializable (c : ContextWindowConfig) : Bool :=
  F64.optFinite c.auto_compact_threshold_ratio

theorem contextWindowConfig_rt (c : ContextWindowConfig)
    (h : c.serializable = true) :
    ContextWindowConfig.fromJson (ContextWindowConfig.toJson c) = some c := by
  cases c
  simp only [ContextWindowConfig.serializable] at h
  simp [ContextWindowConfig.toJson, ContextWindowConfig.fromJson, parseFieldD,
    Json.getField, List.lookup, parseOptNat_rt, parseOptF64_rt h]

/-- `CompactConfig` serialization. -/
def CompactConfig.toJson (c : CompactConfig) : Json :=
  .obj [("manual", .bool c.manual),
        ("preserve_user_messages", .bool c.preserve_user_messages),
        ("summary_hint", serOpt .str c.summary_hint)]

def CompactConfig.fromJson (j : Json) : Option CompactConfig := do
  let manual ← parseFieldD j "manual" parseBool false
  let pum ← parseFieldD j "preserve_user_messages" parseBool false
  let summary_hint ← parseFieldD j "summary_hint" (parseOpt parseStr) none
  pure { manual := manual, preserve_user_messages := pum,
         summary_hint := summary_hint }

theorem compactConfig_rt (c : CompactConfig) :
    CompactConfig.fromJson (CompactConfig.toJson c) = some c := by
  cases c
  simp [CompactConfig.toJson, CompactConfig.fromJson, parseFieldD,
    Json.getField, List.lookup, parseBool, parseOptStr_rt]

/-- `UserTurnOptions::is_empty` (kernel-protocol lines 64-82). -/
def UserTurnOptions.is_empty (o : UserTurnOptions) : Bool :=
  o.system_prompt.isNone && o.tools.isEmpty && o.tool_execution.isNone
    && o.session_id.isNone && o.mode.isNone && o.history_items.isEmpty
    && o.developer_instructions.isNone && o.user_instructions.isNone
    && o.environment_context.isNone && o.turn_context.isNone
    && o.context_window.isNone && o.compact.isNone
    && o.fork_user_message_index.isNone && o.context_ledger.isNone
    && o.responses.isNone

theorem userTurnOptions_is_empty_eq {o : UserTurnOptions}
    (h : UserTurnOptions.is_empty o = true) : o = {} := by
  cases o
  simp [UserTurnOptions.is_empty, Option.isNone_iff_eq_none,
    List.isEmpty_iff] at h
  obtain ⟨⟨⟨⟨⟨⟨⟨⟨⟨⟨⟨⟨⟨⟨h1, h2⟩, h3⟩, h4⟩, h5⟩, h6⟩, h7⟩, h8⟩, h9⟩, h10⟩,
    h11⟩, h12⟩, h13⟩, h14⟩, h15⟩ := h
  subst h1 h2 h3 h4 h5 h6 h7 h8 h9 h10 h11 h12 h13 h14 h15
  rfl

/-- `UserTurnOptions` serialization. -/
def UserTurnOptions.toJson (o : UserTurnOptions) : Json :=
  .obj [("system_prompt", serOpt .str o.system_prompt),
        ("tools", serList ToolSpec.toJson o.tools),
        ("tool_execution", serOpt ToolExecutionConfig.toJson o.tool_execution),
        ("session_id", serOpt .str o.session_id),
        ("mode", serOpt .str o.mode),
        ("history_items", serList (fun j => j) o.history_items),
        ("developer_instructions", serOpt .str o.developer_instructions),
        ("user_instructions", serOpt .str o.user_instructions),
        ("environment_context", serOpt .str o.environment_context),
        ("turn_context", serOpt TurnContext.toJson o.turn_context),
        ("context_window", serOpt ContextWindowConfig.toJson o.context_window),
        ("compact", serOpt CompactConfig.toJson o.compact),
        ("fork_user_message_index",
          serOpt (fun (n : Nat) => Json.num (n : ℚ)) o.fork_user_message_index),
        ("context_ledger", serOpt ContextLedgerOptions.toJson o.context_ledger),
        ("responses", serOpt ResponsesRequestOptions.toJson o.responses)]

def UserTurnOptions.fromJson (j : Json) : Option UserTurnOptions :=
  UserTurnOptions.mk
    <$> parseFieldD j "system_prompt" (parseOpt parseStr) none
    <*> parseFieldD j "tools" (parseList ToolSpec.fromJson) []
    <*> parseFieldD j "tool_execution" (parseOpt ToolExecutionConfig.fromJson) none
    <*> parseFieldD j "session_id" (parseOpt parseStr) none
    <*> parseFieldD j "mode" (parseOpt parseStr) none
    <*> parseFieldD j "history_items" (parseList parseJson) []
    <*> parseFieldD j "developer_instructions" (parseOpt parseStr) none
    <*> parseFieldD j "user_instructions" (parseOpt parseStr) none
    <*> parseFieldD j "environment_context" (parseOpt parseStr) none
    <*> parseFieldD j "turn_context" (parseOpt TurnContext.fromJson) none
    <*> parseFieldD j "context_window" (parseOpt ContextWindowConfig.fromJson) none
    <*> parseFieldD j "compact" (parseOpt CompactConfig.fromJson) none
    <*> parseFieldD j "fork_user_message_index" (parseOpt parseNat) none
    <*> parseFieldD j "context_ledger" (parseOpt ContextLedgerOptions.fromJson) none
    <*> parseFieldD j "responses" (parseOpt ResponsesRequestOptions.fromJson) none

def UserTurnOptions.serializable (o : UserTurnOptions) : Bool :=
  o.tools.all ToolSpec.serializable
    && o.context_window.all ContextWindowConfig.serializable
    && o.responses.all ResponsesRequestOptions.serializable

theorem userTurnOptions_rt (o : UserTurnOptions) (h : o.serializable = true) :
    UserTurnOptions.fromJson (UserTurnOptions.toJson o) = some o := by
  cases o
  simp only [UserTurnOptions.serializable, Bool.and_eq_true] at h
  obtain ⟨⟨htools, hcw⟩, hresp⟩ := h
  simp [UserTurnOptions.toJson, UserTurnOptions.fromJson, Seq.seq, parseFieldD,
    Json.getField, List.lookup, parseOptStr_rt, parseOptNat_rt, parseListJson_rt,
    parseListCond_rt toolSpec_rt _ htools,
    parseOpt_rt (fun v hv => Json.noConfusion hv) toolExecutionConfig_rt,
    parseOpt_rt (fun v hv => Json.noConfusion hv) turnContext_rt,
    parseOptCond_rt (fun v hv => Json.noConfusion hv) contextWindowConfig_rt _ hcw,
    parseOpt_rt (fun v hv => Json.noConfusion hv) compactConfig_rt,
    parseOpt_rt (fun v hv => Json.noConfusion hv) contextLedgerOptions_rt,
    parseOptCond_rt (fun v hv => Json.noConfusion hv) responsesRequestOptions_rt _ hresp]

/-- `InputItem` serialization (internally tagged, `snake_case`). -/
def InputItem.toJson : InputItem → Json
  | .text t => .obj [("type", .str "text"), ("text", .str t)]
  | .image u => .obj [("type", .str "image"), ("image_url", .str u)]
  | .localImage p => .obj [("type", .str "local_image"), ("path", .str p)]

def InputItem.fromJson (j : Json) : Option InputItem :=
  match j.getStr "type" with
  | some "text" => (parseField j "text" parseStr).map .text
  | some "image" => (parseField j "image_url" parseStr).map .image
  | some "local_image" => (parseField j "path" parseStr).map .localImage
  | _ => none

theorem inputItem_rt (i : InputItem) :
    InputItem.fromJson (InputItem.toJson i) = some i := by
  cases i <;>
    simp [InputItem.toJson, InputItem.fromJson, Json.getStr, parseField,
      Json.getField, List.lookup, parseStr]

/-- `ReviewDecision` serialization (`snake_case` unit variants). -/
def ReviewDecision.toJson : ReviewDecision → Json
  | .approved => .str "approved"
  | .approvedForSession => .str "approved_for_session"
  | .denied => .str "denied"
  | .abort => .str "abort"

def ReviewDecision.fromJson : Json → Option ReviewDecision
  | .str "approved" => some .approved
  | .str "approved_for_session" => some .approvedForSession
  | .str "denied" => some .denied
  | .str "abort" => some .abort
  | _ => none

theorem reviewDecision_rt (d : ReviewDecision) :
    ReviewDecision.fromJson (ReviewDecision.toJson d) = some d := by
  cases d <;> rfl

/-- `Op` serialization (internally tagged; `options` is skipped when
`UserTurnOptions::is_empty`). -/
def Op.toJson : Op → Json
  | .userTurn items options =>
    .obj (("type", .str "user_turn")
      :: ("items", serList InputItem.toJson items)
      :: (if UserTurnOptions.is_empty options then []
          else [("options", UserTurnOptions.toJson options)]))
  | .interrupt => .obj [("type", .str "interrupt")]
  | .shutdown => .obj [("type", .str "shutdown")]
  | .execApproval id decision =>
    .obj [("type", .str "exec_approval"), ("id", .str id),
          ("decision", ReviewDecision.toJson decision)]
  | .patchApproval id decision =>
    .obj [("type", .str "patch_approval"), ("id", .str id),
          ("decision", ReviewDecision.toJson decision)]

def Op.fromJson (j : Json) : Option Op :=
  match j.getStr "type" with
  | some "user_turn" => do
    let items ← parseField j "items" (parseList InputItem.fromJson)
    let options ← parseFieldD j "options" UserTurnOptions.fromJson {}
    pure (.userTurn items options)
  | some "interrupt" => some .interrupt
  | some "shutdown" => some .shutdown
  | some "exec_approval" => do
    let id ← parseField j "id" parseStr
    let decision ← parseField j "decision" ReviewDecision.fromJson
    pure (.execApproval id decision)
  | some "patch_approval" => do
    let id ← parseField j "id" parseStr
    let decision ← parseField j "decision" ReviewDecision.fromJson
    pure (.patchApproval id decision)
  | _ => none

def Op.serializable : Op → Bool
  | .userTurn _ options => options.serializable
  | _ => true

theorem op_rt (o : Op) (h : o.serializable = true) :
    Op.fromJson (Op.toJson o) = some o := by
  cases o with
  | userTurn items options =>
    simp only [Op.serializable] at h
    by_cases hemp : UserTurnOptions.is_empty options = true
    · have hopts := userTurnOptions_is_empty_eq hemp
      subst hopts
      simp [Op.toJson, Op.fromJson, hemp, Json.getStr, parseField, parseFieldD,
        Json.getField, List.lookup, @parseList_rt InputItem InputItem.toJson InputItem.fromJson inputItem_rt items]
    · simp [Op.toJson, Op.fromJson, hemp, Json.getStr, parseField, parseFieldD,
        Json.getField, List.lookup, @parseList_rt InputItem InputItem.toJson InputItem.fromJson inputItem_rt items,
        userTurnOptions_rt options h]
  | interrupt => rfl
  | shutdown => rfl
  | execApproval id decision =>
    simp [Op.toJson, Op.fromJson, Json.getStr, parseField, Json.getField,
      List.lookup, parseStr, reviewDecision_rt]
  | patchApproval id decision =>
    simp [Op.toJson, Op.fromJson, Json.getStr, parseField, Json.getField,
      List.lookup, parseStr, reviewDecision_rt]

/-- `Submission` serialization. -/
def Submission.toJson (s : Submission) : Json :=
  .obj [("id", .str s.id), ("op", Op.toJson s.op)]

def Submission.fromJson (j : Json) : Option Submission := do
  let id ← parseField j "id" parseStr
  let op ← parseField j "op" Op.fromJson
  pure { id := id, op := op }

def Submission.serializable (s : Submission) : Bool :=
  s.op.serializable

theorem submission_rt (s : Submission) (h : s.serializable = true) :
    Submission.fromJson (Submission.toJson s) = some s := by
  cases s with
  | mk id op =>
    simp only [Submission.serializable] at h
    simp [Submission.toJson, Submission.fromJson, parseField, Json.getField,
      List.lookup, parseStr, op_rt op h]

/-! The event payload structs are flattened into the internally tagged
`EventMsg` object, so each one serializes to a field list and parses from
the whole tagged object (ignoring the `"type"` key). -/

def SessionConfiguredEvent.jsonFields (e : SessionConfiguredEvent) :
    List (String × Json) :=
  [("session_id", .str e.session_id)]

def SessionConfiguredEvent.fromJson (j : Json) : Option SessionConfiguredEvent := do
  let session_id ← parseField j "session_id" parseStr
  pure { session_id := session_id }

theorem sessionConfiguredEvent_rt (tg : Json) (e : SessionConfiguredEvent) :
    SessionConfiguredEvent.fromJson
      (.obj (("type", tg) :: SessionConfiguredEvent.jsonFields e)) = some e := by
  cases e
  simp [SessionConfiguredEvent.jsonFields, SessionConfiguredEvent.fromJson,
    parseField, Json.getField, List.lookup, parseStr]

def TaskStartedEvent.jsonFields (e : TaskStartedEvent) : List (String × Json) :=
  [("model_context_window", serOpt (fun (n : Nat) => Json.num (n : ℚ)) e.model_context_window)]

def TaskStartedEvent.fromJson (j : Json) : Option TaskStartedEvent := do
  let mcw ← parseFieldD j "model_context_window" (parseOpt parseNat) none
  pure { model_context_window := mcw }

theorem taskStartedEvent_rt (tg : Json) (e : TaskStartedEvent) :
    TaskStartedEvent.fromJson
      (.obj (("type", tg) :: TaskStartedEvent.jsonFields e)) = some e := by
  cases e
  simp [TaskStartedEvent.jsonFields, TaskStartedEvent.fromJson,
    parseFieldD, Json.getField, List.lookup, parseOptNat_rt]

def ModelRoundEvent.jsonFields (e : ModelRoundEvent) : List (String × Json) :=
  [("seq", .num (e.seq : ℚ)),
   ("round", .num (e.round : ℚ)),
   ("function_calls_count", .num (e.function_calls_count : ℚ)),
   ("reasoning_count", .num (e.reasoning_count : ℚ)),
   ("history_items_count", .num (e.history_items_count : ℚ)),
   ("has_output_text", .bool e.has_output_text),
   ("finish_reason", serOpt .str e.finish_reason),
   ("response_status", serOpt .str e.response_status),
   ("response_incomplete_reason", serOpt .str e.response_incomplete_reason),
   ("response_id", serOpt .str e.response_id),
   ("input_tokens", serOpt (fun (n : Nat) => Json.num (n : ℚ)) e.input_tokens),
   ("output_tokens", serOpt (fun (n : Nat) => Json.num (n : ℚ)) e.output_tokens),
   ("total_tokens", serOpt (fun (n : Nat) => Json.num (n : ℚ)) e.total_tokens),
   ("estimated_tokens_in_context_window",
     serOpt (fun (n : Nat) => Json.num (n : ℚ)) e.estimated_tokens_in_context_window),
   ("estimated_tokens_compactable",
     serOpt (fun (n : Nat) => Json.num (n : ℚ)) e.estimated_tokens_compactable),
   ("context_usage_percent",
     serOpt (fun (n : Nat) => Json.num (n : ℚ)) e.context_usage_percent),
   ("max_input_tokens", serOpt (fun (n : Nat) => Json.num (n : ℚ)) e.max_input_tokens),
   ("threshold_percent", serOpt (fun (n : Nat) => Json.num (n : ℚ)) e.threshold_percent)]

def ModelRoundEvent.fromJson (j : Json) : Option ModelRoundEvent :=
  ModelRoundEvent.mk
    <$> parseField j "seq" parseNat
    <*> parseField j "round" parseNat
    <*> parseField j "function_calls_count" parseNat
    <*> parseField j "reasoning_count" parseNat
    <*> parseField j "history_items_count" parseNat
    <*> parseField j "has_output_text" parseBool
    <*> parseFieldD j "finish_reason" (parseOpt parseStr) none
    <*> parseFieldD j "response_status" (parseOpt parseStr) none
    <*> parseFieldD j "response_incomplete_reason" (parseOpt parseStr) none
    <*> parseFieldD j "response_id" (parseOpt parseStr) none
    <*> parseFieldD j "input_tokens" (parseOpt parseNat) none
    <*> parseFieldD j "output_tokens" (parseOpt parseNat) none
    <*> parseFieldD j "total_tokens" (parseOpt parseNat) none
    <*> parseFieldD j "estimated_tokens_in_context_window" (parseOpt parseNat) none
    <*> parseFieldD j "estimated_tokens_compactable" (parseOpt parseNat) none
    <*> parseFieldD j "context_usage_percent" (parseOpt parseNat) none
    <*> parseFieldD j "max_input_tokens" (parseOpt parseNat) none
    <*> parseFieldD j "threshold_percent" (parseOpt parseNat) none

theorem modelRoundEvent_rt (tg : Json) (e : ModelRoundEvent) :
    ModelRoundEvent.fromJson
      (.obj (("type", tg) :: ModelRoundEvent.jsonFields e)) = some e := by
  cases e
  simp [ModelRoundEvent.jsonFields, ModelRoundEvent.fromJson, Seq.seq, parseField,
    parseFieldD, Json.getField, List.lookup, parseBool, parseNat_rt,
    parseOptStr_rt, parseOptNat_rt]

def ToolCallEvent.jsonFields (e : ToolCallEvent) : List (String × Json) :=
  [("seq", .num (e.seq : ℚ)),
   ("call_id", .str e.call_id),
   ("tool_name", .str e.tool_name),
   ("input", e.input)]

def ToolCallEvent.fromJson (j : Json) : Option ToolCallEvent := do
  let seq ← parseField j "seq" parseNat
  let call_id ← parseField j "call_id" parseStr
  let tool_name ← parseField j "tool_name" parseStr
  let input ← parseField j "input" parseJson
  pure { seq := seq, call_id := call_id, tool_name := tool_name, input := input }

theorem toolCallEvent_rt (tg : Json) (e : ToolCallEvent) :
    ToolCallEvent.fromJson
      (.obj (("type", tg) :: ToolCallEvent.jsonFields e)) = some e := by
  cases e
  simp [ToolCallEvent.jsonFields, ToolCallEvent.fromJson, parseField,
    Json.getField, List.lookup, parseStr, parseNat_rt, parseJson]

def ToolResultEvent.jsonFields (e : ToolResultEvent) : List (String × Json) :=
  [("seq", .num (e.seq : ℚ)),
   ("call_id", .str e.call_id),
   ("tool_name", .str e.tool_name),
   ("output", e.output),
   ("duration_ms", .num (e.duration_ms : ℚ))]

def ToolResultEvent.fromJson (j : Json) : Option ToolResultEvent := do
  let seq ← parseField j "seq" parseNat
  let call_id ← parseField j "call_id" parseStr
  let tool_name ← parseField j "tool_name" parseStr
  let output ← parseField j "output" parseJson
  let duration_ms ← parseField j "duration_ms" parseNat
  pure { seq := seq, call_id := call_id, tool_name := tool_name,
         output := output, duration_ms := duration_ms }

theorem toolResultEvent_rt (tg : Json) (e : ToolResultEvent) :
    ToolResultEvent.fromJson
      (.obj (("type", tg) :: ToolResultEvent.jsonFields e)) = some e := by
  cases e
  simp [ToolResultEvent.jsonFields, ToolResultEvent.fromJson, parseField,
    Json.getField, List.lookup, parseStr, parseNat_rt, parseJson]

def ToolErrorEvent.jsonFields (e : ToolErrorEvent) : List (String × Json) :=
  [("seq", .num (e.seq : ℚ)),
   ("call_id", .str e.call_id),
   ("tool_name", .str e.tool_name),
   ("error", .str e.error),
   ("duration_ms", .num (e.duration_ms : ℚ))]

def ToolErrorEvent.fromJson (j : Json) : Option ToolErrorEvent := do
  let seq ← parseField j "seq" parseNat
  let call_id ← parseField j "call_id" parseStr
  let tool_name ← parseField j "tool_name" parseStr
  let error ← parseField j "error" parseStr
  let duration_ms ← parseField j "duration_ms" parseNat
  pure { seq := seq, call_id := call_id, tool_name := tool_name,
         error := error, duration_ms := duration_ms }

theorem toolErrorEvent_rt (tg : Json) (e : ToolErrorEvent) :
    ToolErrorEvent.fromJson
      (.obj (("type", tg) :: ToolErrorEvent.jsonFields e)) = some e := by
  cases e
  simp [ToolErrorEvent.jsonFields, ToolErrorEvent.fromJson, parseField,
    Json.getField, List.lookup, parseStr, parseNat_rt]

def TaskCompleteEvent.jsonFields (e : TaskCompleteEvent) : List (String × Json) :=
  [("last_agent_message", serOpt .str e.last_agent_message),
   ("metadata_json", serOpt .str e.metadata_json)]

def TaskCompleteEvent.fromJson (j : Json) : Option TaskCompleteEvent := do
  let lam ← parseFieldD j "last_agent_message" (parseOpt parseStr) none
  let metadata_json ← parseFieldD j "metadata_json" (parseOpt parseStr) none
  pure { last_agent_message := lam, metadata_json := metadata_json }

theorem taskCompleteEvent_rt (tg : Json) (e : TaskCompleteEvent) :
    TaskCompleteEvent.fromJson
      (.obj (("type", tg) :: TaskCompleteEvent.jsonFields e)) = some e := by
  cases e
  simp [TaskCompleteEvent.jsonFields, TaskCompleteEvent.fromJson,
    parseFieldD, Json.getField, List.lookup, parseOptStr_rt]

/-- `TurnAbortReason` serialization (`snake_case` unit variants). -/
def TurnAbortReason.toJson : TurnAbortReason → Json
  | .userInterrupt => .str "user_interrupt"
  | .taskReplaced => .str "task_replaced"
  | .shutdown => .str "shutdown"

def TurnAbortReason.fromJson : Json → Option TurnAbortReason
  | .str "user_interrupt" => some .userInterrupt
  | .str "task_replaced" => some .taskReplaced
  | .str "shutdown" => some .shutdown
  | _ => none

theorem turnAbortReason_rt (r : TurnAbortReason) :
    TurnAbortReason.fromJson (TurnAbortReason.toJson r) = some r := by
  cases r <;> rfl

def TurnAbortedEvent.jsonFields (e : TurnAbortedEvent) : List (String × Json) :=
  [("reason", TurnAbortReason.toJson e.reason)]

def TurnAbortedEvent.fromJson (j : Json) : Option TurnAbortedEvent := do
  let reason ← parseField j "reason" TurnAbortReason.fromJson
  pure { reason := reason }

theorem turnAbortedEvent_rt (tg : Json) (e : TurnAbortedEvent) :
    TurnAbortedEvent.fromJson
      (.obj (("type", tg) :: TurnAbortedEvent.jsonFields e)) = some e := by
  cases e
  simp [TurnAbortedEvent.jsonFields, TurnAbortedEvent.fromJson, parseField,
    Json.getField, List.lookup, turnAbortReason_rt]

def ErrorEvent.jsonFields (e : ErrorEvent) : List (String × Json) :=
  [("message", .str e.message)]

def ErrorEvent.fromJson (j : Json) : Option ErrorEvent := do
  let message ← parseField j "message" parseStr
  pure { message := message }

theorem errorEvent_rt (tg : Json) (e : ErrorEvent) :
    ErrorEvent.fromJson
      (.obj (("type", tg) :: ErrorEvent.jsonFields e)) = some e := by
  cases e
  simp [ErrorEvent.jsonFields, ErrorEvent.fromJson, parseField,
    Json.getField, List.lookup, parseStr]

/-- `EventMsg` serialization (internally tagged, payload fields flattened). -/
def EventMsg.toJson : EventMsg → Json
  | .sessionConfigured e =>
    .obj (("type", .str "session_configured") :: SessionConfiguredEvent.jsonFields e)
  | .taskStarted e => .obj (("type", .str "task_started") :: TaskStartedEvent.jsonFields e)
  | .modelRound e => .obj (("type", .str "model_round") :: ModelRoundEvent.jsonFields e)
  | .toolCall e => .obj (("type", .str "tool_call") :: ToolCallEvent.jsonFields e)
  | .toolResult e => .obj (("type", .str "tool_result") :: ToolResultEvent.jsonFields e)
  | .toolError e => .obj (("type", .str "tool_error") :: ToolErrorEvent.jsonFields e)
  | .taskComplete e => .obj (("type", .str "task_complete") :: TaskCompleteEvent.jsonFields e)
  | .turnAborted e => .obj (("type", .str "turn_aborted") :: TurnAbortedEvent.jsonFields e)
  | .shutdownComplete => .obj [("type", .str "shutdown_complete")]
  | .error e => .obj (("type", .str "error") :: ErrorEvent.jsonFields e)

def EventMsg.fromJson (j : Json) : Option EventMsg :=
  match j.getStr "type" with
  | none => none
  | some tag =>
    if tag = "session_configured" then
      (SessionConfiguredEvent.fromJson j).map .sessionConfigured
    else if tag = "task_started" then (TaskStartedEvent.fromJson j).map .taskStarted
    else if tag = "model_round" then (ModelRoundEvent.fromJson j).map .modelRound
    else if tag = "tool_call" then (ToolCallEvent.fromJson j).map .toolCall
    else if tag = "tool_result" then (ToolResultEvent.fromJson j).map .toolResult
    else if tag = "tool_error" then (ToolErrorEvent.fromJson j).map .toolError
    else if tag = "task_complete" then (TaskCompleteEvent.fromJson j).map .taskComplete
    else if tag = "turn_aborted" then (TurnAbortedEvent.fromJson j).map .turnAborted
    else if tag = "shutdown_complete" then some .shutdownComplete
    else if tag = "error" then (ErrorEvent.fromJson j).map .error
    else none

theorem eventMsg_rt (m : EventMsg) : EventMsg.fromJson (EventMsg.toJson m) = some m := by
  cases m with
  | sessionConfigured e =>
    simp [EventMsg.toJson, EventMsg.fromJson, Json.getStr, Json.getField,
      List.lookup, sessionConfiguredEvent_rt]
  | taskStarted e =>
    simp [EventMsg.toJson, EventMsg.fromJson, Json.getStr, Json.getField,
      List.lookup, taskStartedEvent_rt]
  | modelRound e =>
    simp [EventMsg.toJson, EventMsg.fromJson, Json.getStr, Json.getField,
      List.lookup, modelRoundEvent_rt]
  | toolCall e =>
    simp [EventMsg.toJson, EventMsg.fromJson, Json.getStr, Json.getField,
      List.lookup, toolCallEvent_rt]
  | toolResult e =>
    simp [EventMsg.toJson, EventMsg.fromJson, Json.getStr, Json.getField,
      List.lookup, toolResultEvent_rt]
  | toolError e =>
    simp [EventMsg.toJson, EventMsg.fromJson, Json.getStr, Json.getField,
      List.lookup, toolErrorEvent_rt]
  | taskComplete e =>
    simp [EventMsg.toJson, EventMsg.fromJson, Json.getStr, Json.getField,
      List.lookup, taskCompleteEvent_rt]
  | turnAborted e =>
    simp [EventMsg.toJson, EventMsg.fromJson, Json.getStr, Json.getField,
      List.lookup, turnAbortedEvent_rt]
  | shutdownComplete => rfl
  | error e =>
    simp [EventMsg.toJson, EventMsg.fromJson, Json.getStr, Json.getField,
      List.lookup, errorEvent_rt]

/-- `Event` serialization. -/
def Event.toJson (e : Event) : Json :=
  .obj [("id", .str e.id), ("msg", EventMsg.toJson e.msg)]

def Event.fromJson (j : Json) : Option Event := do
  let id ← parseField j "id" parseStr
  let msg ← parseField j "msg" EventMsg.fromJson
  pure { id := id, msg := msg }

theorem event_rt (e : Event) : Event.fromJson (Event.toJson e) = some e := by
  cases e
  simp [Event.toJson, Event.fromJson, parseField, Json.getField, List.lookup,
    parseStr, eventMsg_rt]

/-- A submission carrying a non-finite `auto_compact_threshold_ratio`. -/
def c10NanSub : Submission :=
  { id := "s-1",
    op := .userTurn [.text "hi"]
      { context_window := some { auto_compact_threshold_ratio := some .nan } } }

set_option maxRecDepth 10000 in
/-- **C10** counterexample: `serde_json` writes the non-finite `f64`
`auto_compact_threshold_ratio = NaN` as `null`, which deserializes to
`None`, so this submission does not survive the round trip (nor would
`NaN == NaN` hold under Rust `PartialEq`). -/
theorem submission_roundtrip_counterexample :
    (ContextWindowConfig.toJson { auto_compact_threshold_ratio := some .nan }).getField
        "auto_compact_threshold_ratio" = some .null
    ∧ Submission.fromJson (Submission.toJson c10NanSub) ≠ some c10NanSub := by
  constructor
  · decide
  · decide

/-- **C10** (corrected): serializing then deserializing restores any
`Submission` whose floats are finite and whose optional JSON schemas are
not `Some(Null)` (`Submission.serializable`), and restores every `Event`
unconditionally; absent optional fields and empty collections default on
deserialize, and an `is_empty` `options` is omitted and restored as the
default. -/
theorem submission_event_roundtrip :
    (∀ s : Submission, Submission.serializable s = true →
      Submission.fromJson (Submission.toJson s) = some s)
    ∧ (∀ e : Event, Event.fromJson (Event.toJson e) = some e) :=
  ⟨submission_rt, event_rt⟩

def c10Sub : Submission :=
  { id := "sub-1",
    op := .userTurn [.text "hello", .image "https://example.com/a.png",
      .localImage "/tmp/a.png"] {} }

def c10Evt : Event :=
  { id := "ev-1", msg := .turnAborted { reason := .userInterrupt } }

set_option maxRecDepth 10000 in
theorem submission_event_roundtrip_witness :
    (Submission.serializable c10Sub = true
      ∧ Submission.fromJson (Submission.toJson c10Sub) = some c10Sub)
    ∧ Event.fromJson (Event.toJson c10Evt) = some c10Evt :=
  ⟨⟨by decide, submission_event_roundtrip.1 c10Sub (by decide)⟩,
    submission_event_roundtrip.2 c10Evt⟩

end Finger
